import Mathlib

/-!
Bank teller layer (`assn-6/teller.c`).

A shallow embedding of the three teller operations `Teller_DoDeposit`,
`Teller_DoWithdraw` and `Teller_DoTransfer`.

* The bank is explicit state: every operation takes the bank before the call and
  returns the bank after it, together with its result code and the sequence of
  calls it made on mutexes and on the account module (its trace).
* `assert(amount >= 0)` aborts the program: an operation returns `none` when the
  assertion fails and `some result` when the call completes.
* An `Account *` is a handle: the position of the account record in the bank's
  account table.
* `AccountAmount` (printed with `PRId64`) is a signed amount and is modelled by `Int`;
  `AccountNumber` (printed with `PRIx64`) is only compared, and is modelled by `Nat`.
  The arithmetic of `teller.c` itself is the negation of an amount that the assertion
  made non-negative and the comparison `amount > balance`; neither can overflow. The
  addition to a balance happens inside `Account_Adjust`, modelled from the specification
  as addition of integers.

The account, branch and bank modules are not part of the sources; what the teller
calls from them is modelled from the specification and marked as such.
-/

namespace Assn6

abbrev AccountNumber := Nat

abbrev AccountAmount := Int

abbrev BranchID := Nat

/-- Modelled from the spec: the `Account` record (its declaration is in the missing
`account.h`): a number that identifies it and a signed balance. Its lock is not state
of the model, lock calls are recorded in the trace. -/
structure Account where
  accountNumber : AccountNumber
  balance : AccountAmount
deriving DecidableEq, Repr

/-- Modelled from the spec: the `Bank` (declared in the missing `bank.h`): the fixed
population of accounts and the collection of branch aggregates indexed by branch id. -/
structure Bank where
  accounts : List Account
  branches : BranchID → AccountAmount

/-- Modelled from the spec: the result codes of the missing `error.h`; the spec lists
exactly these three outcomes. -/
inductive ErrorCode where
  | ERROR_SUCCESS
  | ERROR_ACCOUNT_NOT_FOUND
  | ERROR_INSUFFICIENT_FUNDS
deriving DecidableEq, Repr

open ErrorCode

/-- The mutexes the teller touches: `account->lock` of an account handle and
`bank->branches[id].lock` of a branch id. -/
inductive Mutex where
  | account (handle : Nat)
  | branch (id : BranchID)
deriving DecidableEq, Repr

/-- One call made by a teller operation: `pthread_mutex_lock`, `pthread_mutex_unlock`,
`Account_Balance` or `Account_Adjust`, with its arguments. -/
inductive Event where
  | lock (m : Mutex)
  | unlock (m : Mutex)
  | balance (handle : Nat)
  | adjust (handle : Nat) (amount : AccountAmount) (updateBranch : Bool)
deriving DecidableEq, Repr

/-- What a completed teller call leaves behind: the returned code, the bank after the
call and the calls it made, in program order. -/
structure TellerResult where
  code : ErrorCode
  bank : Bank
  trace : List Event

/-- Position of the first account record with the given number. -/
def findAccount (accountNum : AccountNumber) : List Account → Option Nat
  | [] => none
  | a :: rest =>
    if a.accountNumber = accountNum then some 0
    else (findAccount accountNum rest).map Nat.succ

/-- Modelled from the spec: `Account_LookupByNumber` (defined in the missing
`account.c`), the spec's `lookup_by_number(n) -> Option<Account-handle>`, which returns
nothing when `n` is not a provisioned account. `none` is the C `NULL`. -/
def Account_LookupByNumber (bank : Bank) (accountNum : AccountNumber) : Option Nat :=
  findAccount accountNum bank.accounts

/-- The record an account handle points to. -/
def deref (bank : Bank) (account : Nat) : Account :=
  bank.accounts.getD account ⟨0, 0⟩

/-- Modelled from the spec: `Account_Balance` (missing `account.c`), the spec's
`balance()`: the current balance of the account. -/
def Account_Balance (bank : Bank) (account : Nat) : AccountAmount :=
  (deref bank account).balance

section

variable (AccountNum_GetBranchID : AccountNumber → BranchID)

/-- Modelled from the spec: `Account_IsSameBranch` (missing `account.c`); the spec
computes `update_branch` as `branch_for(src) != branch_for(dst)`. The branch of an
account number, `AccountNum_GetBranchID`, is a pure function of the number whose
definition is missing too; it is a parameter. -/
def Account_IsSameBranch (a b : AccountNumber) : Bool :=
  AccountNum_GetBranchID a == AccountNum_GetBranchID b

/-- Modelled from the spec: `Account_Adjust` (missing `account.c`), the spec's
`adjust(delta, update_branch)`: adds `delta` to the balance and, if `update_branch`,
also to the aggregate of the owning branch; no validation. -/
def Account_Adjust (bank : Bank) (account : Nat) (amount : AccountAmount)
    (updateBranch : Bool) : Bank :=
  let a := deref bank account
  let accounts := bank.accounts.set account { a with balance := a.balance + amount }
  if updateBranch then
    let b := AccountNum_GetBranchID a.accountNumber
    { accounts := accounts
      branches := Function.update bank.branches b (bank.branches b + amount) }
  else
    { bank with accounts := accounts }

/-- `Teller_DoDeposit` of `teller.c`. -/
def Teller_DoDeposit (bank : Bank) (accountNum : AccountNumber) (amount : AccountAmount) :
    Option TellerResult :=
  if amount < 0 then none
  else
    match Account_LookupByNumber bank accountNum with
    | none => some ⟨ERROR_ACCOUNT_NOT_FOUND, bank, []⟩
    | some account =>
      let branchID := AccountNum_GetBranchID accountNum
      some ⟨ERROR_SUCCESS,
        Account_Adjust AccountNum_GetBranchID bank account amount true,
        [Event.lock (Mutex.account account),
         Event.lock (Mutex.branch branchID),
         Event.adjust account amount true,
         Event.unlock (Mutex.account account),
         Event.unlock (Mutex.branch branchID)]⟩

/-- `Teller_DoWithdraw` of `teller.c`. -/
def Teller_DoWithdraw (bank : Bank) (accountNum : AccountNumber) (amount : AccountAmount) :
    Option TellerResult :=
  if amount < 0 then none
  else
    match Account_LookupByNumber bank accountNum with
    | none => some ⟨ERROR_ACCOUNT_NOT_FOUND, bank, []⟩
    | some account =>
      let branchID := AccountNum_GetBranchID accountNum
      if amount > Account_Balance bank account then
        some ⟨ERROR_INSUFFICIENT_FUNDS, bank,
          [Event.lock (Mutex.account account),
           Event.lock (Mutex.branch branchID),
           Event.balance account,
           Event.unlock (Mutex.account account),
           Event.unlock (Mutex.branch branchID)]⟩
      else
        some ⟨ERROR_SUCCESS,
          Account_Adjust AccountNum_GetBranchID bank account (-amount) true,
          [Event.lock (Mutex.account account),
           Event.lock (Mutex.branch branchID),
           Event.balance account,
           Event.adjust account (-amount) true,
           Event.unlock (Mutex.account account),
           Event.unlock (Mutex.branch branchID)]⟩

/-- The lock calls of `Teller_DoTransfer` (the `if`/`else` at lines 113-127). -/
def transferLocks (bank : Bank) (srcAccount dstAccount : Nat)
    (srcBranchID dstBranchID : BranchID) (updateBranch : Bool) : List Event :=
  if (deref bank srcAccount).accountNumber < (deref bank dstAccount).accountNumber then
    [Event.lock (Mutex.account srcAccount), Event.lock (Mutex.account dstAccount)] ++
      (if updateBranch then
        [Event.lock (Mutex.branch srcBranchID), Event.lock (Mutex.branch dstBranchID)]
       else [])
  else
    [Event.lock (Mutex.account dstAccount), Event.lock (Mutex.account srcAccount)] ++
      (if updateBranch then
        [Event.lock (Mutex.branch dstBranchID), Event.lock (Mutex.branch srcBranchID)]
       else [])

/-- The unlock calls of `Teller_DoTransfer`, the same on both of its exits
(lines 130-135 and 142-147). -/
def transferUnlocks (srcAccount dstAccount : Nat)
    (srcBranchID dstBranchID : BranchID) (updateBranch : Bool) : List Event :=
  [Event.unlock (Mutex.account dstAccount), Event.unlock (Mutex.account srcAccount)] ++
    (if updateBranch then
      [Event.unlock (Mutex.branch srcBranchID), Event.unlock (Mutex.branch dstBranchID)]
     else [])

/-- `Teller_DoTransfer` of `teller.c`. -/
def Teller_DoTransfer (bank : Bank) (srcAccountNum dstAccountNum : AccountNumber)
    (amount : AccountAmount) : Option TellerResult :=
  if amount < 0 then none
  else if srcAccountNum = dstAccountNum then some ⟨ERROR_SUCCESS, bank, []⟩
  else
    match Account_LookupByNumber bank srcAccountNum with
    | none => some ⟨ERROR_ACCOUNT_NOT_FOUND, bank, []⟩
    | some srcAccount =>
      match Account_LookupByNumber bank dstAccountNum with
      | none => some ⟨ERROR_ACCOUNT_NOT_FOUND, bank, []⟩
      | some dstAccount =>
        let updateBranch :=
          !Account_IsSameBranch AccountNum_GetBranchID srcAccountNum dstAccountNum
        let srcBranchID := AccountNum_GetBranchID srcAccountNum
        let dstBranchID := AccountNum_GetBranchID dstAccountNum
        let locks :=
          transferLocks bank srcAccount dstAccount srcBranchID dstBranchID updateBranch
        let unlocks :=
          transferUnlocks srcAccount dstAccount srcBranchID dstBranchID updateBranch
        if amount > Account_Balance bank srcAccount then
          some ⟨ERROR_INSUFFICIENT_FUNDS, bank,
            locks ++ [Event.balance srcAccount] ++ unlocks⟩
        else
          let bank1 :=
            Account_Adjust AccountNum_GetBranchID bank srcAccount (-amount) updateBranch
          let bank2 :=
            Account_Adjust AccountNum_GetBranchID bank1 dstAccount amount updateBranch
          some ⟨ERROR_SUCCESS, bank2,
            locks ++ [Event.balance srcAccount,
                      Event.adjust srcAccount (-amount) updateBranch,
                      Event.adjust dstAccount amount updateBranch] ++ unlocks⟩

/-- Balance of the account with the given number, `none` when it is not provisioned. -/
def balanceOf (bank : Bank) (accountNum : AccountNumber) : Option AccountAmount :=
  (Account_LookupByNumber bank accountNum).map (Account_Balance bank)

/-- Sum of the balances of the accounts whose number maps to branch `b`. -/
def branchSum (bank : Bank) (b : BranchID) : AccountAmount :=
  ((bank.accounts.filter (fun a => AccountNum_GetBranchID a.accountNumber == b)).map
    Account.balance).sum

/-- The branch-aggregate invariant: every branch balance is the sum of the balances of
its accounts. -/
def BranchInvariant (bank : Bank) : Prop :=
  ∀ b : BranchID, bank.branches b = branchSum AccountNum_GetBranchID bank b

/-- Every account balance of the bank is non-negative. -/
def NonNegative (bank : Bank) : Prop :=
  ∀ a ∈ bank.accounts, 0 ≤ a.balance

instance (bank : Bank) : Decidable (NonNegative bank) :=
  inferInstanceAs (Decidable (∀ a ∈ bank.accounts, 0 ≤ a.balance))

/-- The branch function of the scenario bank: account 100 is in branch 1 and account
200 in branch 2. -/
def scenarioBranchID (accountNum : AccountNumber) : BranchID :=
  accountNum / 100

/-- The scenario of the specification: account 100 (branch 1, balance 50) and account
200 (branch 2, balance 10). -/
def scenarioBank : Bank :=
  { accounts := [⟨100, 50⟩, ⟨200, 10⟩]
    branches := fun b => if b = 1 then 50 else if b = 2 then 10 else 0 }

/-- One call on the account under study: a deposit or a withdrawal of an amount. -/
inductive Request where
  | deposit (x : AccountAmount)
  | withdraw (y : AccountAmount)
deriving DecidableEq, Repr

/-- The amount a request passes to the teller. -/
def Request.amount : Request → AccountAmount
  | Request.deposit x => x
  | Request.withdraw y => y

/-- The teller call a request stands for, on account `accountNum`. -/
def Request.call (bank : Bank) (accountNum : AccountNumber) : Request → Option TellerResult
  | Request.deposit x => Teller_DoDeposit AccountNum_GetBranchID bank accountNum x
  | Request.withdraw y => Teller_DoWithdraw AccountNum_GetBranchID bank accountNum y

/-- Runs the requests one after the other on account `accountNum`, each call starting
from the bank the previous one left. Returns the final bank and, for every request, the
code its call returned; `none` when a call aborts. -/
def runRequests (accountNum : AccountNumber) :
    Bank → List Request → Option (Bank × List (Request × ErrorCode))
  | bank, [] => some (bank, [])
  | bank, q :: rest =>
    match q.call AccountNum_GetBranchID bank accountNum with
    | none => none
    | some r =>
      match runRequests accountNum r.bank rest with
      | none => none
      | some (final, log) => some (final, (q, r.code) :: log)

/-- Sum of the amounts of all deposits of a log. -/
def deposited : List (Request × ErrorCode) → AccountAmount
  | [] => 0
  | (Request.deposit x, _) :: log => x + deposited log
  | (Request.withdraw _, _) :: log => deposited log

/-- Sum of the amounts of exactly those withdrawals of a log that returned
`ERROR_SUCCESS`. -/
def withdrawn : List (Request × ErrorCode) → AccountAmount
  | [] => 0
  | (Request.withdraw y, ERROR_SUCCESS) :: log => y + withdrawn log
  | _ :: log => withdrawn log

/-- A call of one of the three teller operations, with its arguments. -/
inductive TellerCall where
  | deposit (accountNum : AccountNumber) (amount : AccountAmount)
  | withdraw (accountNum : AccountNumber) (amount : AccountAmount)
  | transfer (srcAccountNum dstAccountNum : AccountNumber) (amount : AccountAmount)
deriving DecidableEq, Repr

/-- The amount a teller call is made with. -/
def TellerCall.amount : TellerCall → AccountAmount
  | TellerCall.deposit _ amount => amount
  | TellerCall.withdraw _ amount => amount
  | TellerCall.transfer _ _ amount => amount

/-- Runs a teller call on a bank. -/
def TellerCall.run (bank : Bank) : TellerCall → Option TellerResult
  | TellerCall.deposit n amount => Teller_DoDeposit AccountNum_GetBranchID bank n amount
  | TellerCall.withdraw n amount => Teller_DoWithdraw AccountNum_GetBranchID bank n amount
  | TellerCall.transfer src dst amount =>
    Teller_DoTransfer AccountNum_GetBranchID bank src dst amount

/-- The mutexes a trace locks, in the order of its `pthread_mutex_lock` calls. -/
def acquired : List Event → List Mutex
  | [] => []
  | Event.lock m :: rest => m :: acquired rest
  | _ :: rest => acquired rest

/-- The mutexes a trace unlocks, in the order of its `pthread_mutex_unlock` calls. -/
def released : List Event → List Mutex
  | [] => []
  | Event.unlock m :: rest => m :: released rest
  | _ :: rest => released rest

/-- The mutexes a thread holds after one more call, the most recently locked first.
`none` when the call is one a thread may not make: locking a mutex it holds already, or
unlocking a mutex it does not hold. -/
def holdStep (held : List Mutex) : Event → Option (List Mutex)
  | Event.lock m => if m ∈ held then none else some (m :: held)
  | Event.unlock m => if m ∈ held then some (held.erase m) else none
  | _ => some held

/-- The mutexes a thread that holds `held` holds after the calls of a trace. -/
def runHeld (held : List Mutex) : List Event → Option (List Mutex)
  | [] => some held
  | e :: rest =>
    match holdStep held e with
    | none => none
    | some held1 => runHeld held1 rest

/-- Two banks with the same population: the same account numbers at the same places of
the account table; the balances may differ. -/
def SamePopulation (bank1 bank2 : Bank) : Prop :=
  bank1.accounts.map Account.accountNumber = bank2.accounts.map Account.accountNumber

/-- The mutexes a thread holds after the first `pc` calls of its trace. -/
def heldAt (trace : List Event) (pc : Nat) : List Mutex :=
  (runHeld [] (trace.take pc)).getD []

/-- Modelled from the spec: two threads that each execute the calls of a trace; lock
acquisition is the only blocking point and a lock is exclusive. A thread can make its
next call unless that call locks a mutex that is held, by the other thread or by
itself. -/
def canStep (own other : List Event) (pcOwn pcOther : Nat) : Bool :=
  match own[pcOwn]? with
  | none => false
  | some (Event.lock m) => !(heldAt other pcOther).contains m && !(heldAt own pcOwn).contains m
  | some _ => true

/-- The states two threads can move to in one step from the state in which the first
has made `pcs.1` calls of `t1` and the second `pcs.2` calls of `t2`. -/
def successors (t1 t2 : List Event) (pcs : Nat × Nat) : List (Nat × Nat) :=
  (if canStep t1 t2 pcs.1 pcs.2 then [(pcs.1 + 1, pcs.2)] else []) ++
    (if canStep t2 t1 pcs.2 pcs.1 then [(pcs.1, pcs.2 + 1)] else [])

/-- The states some interleaving of the two threads reaches from the start. -/
def Reachable (t1 t2 : List Event) (pcs : Nat × Nat) : Prop :=
  Relation.ReflTransGen (fun a b => b ∈ successors t1 t2 a) (0, 0) pcs

/-- The mutexes `Teller_DoTransfer` locks on two accounts it found, with handles `s` of
`src` and `d` of `dst`, in the order it locks them. -/
def transferPlan (src dst : AccountNumber) (s d : Nat) : List Mutex :=
  if src < dst then
    [Mutex.account s, Mutex.account d] ++
      (if AccountNum_GetBranchID src = AccountNum_GetBranchID dst then []
       else [Mutex.branch (AccountNum_GetBranchID src),
             Mutex.branch (AccountNum_GetBranchID dst)])
  else
    [Mutex.account d, Mutex.account s] ++
      (if AccountNum_GetBranchID src = AccountNum_GetBranchID dst then []
       else [Mutex.branch (AccountNum_GetBranchID dst),
             Mutex.branch (AccountNum_GetBranchID src)])

/-- A trace that locks the mutexes `ls` in this order, then makes calls that are neither
locks nor unlocks, then unlocks the mutexes `us` in this order. -/
def LockShape (trace : List Event) (ls us : List Mutex) : Prop :=
  ∃ mid, acquired mid = [] ∧ released mid = [] ∧
    trace = ls.map Event.lock ++ mid ++ us.map Event.unlock

/-- A bank with a second account in branch 1: accounts 100 and 150 in branch 1, account
200 in branch 2. -/
def threeAccountBank : Bank :=
  { accounts := [⟨100, 50⟩, ⟨150, 5⟩, ⟨200, 10⟩]
    branches := fun b => if b = 1 then 55 else if b = 2 then 10 else 0 }

/-- The calls that touch an account: the balance read `Account_Balance` and
`Account_Adjust`. -/
def Event.isAccess : Event → Bool
  | Event.balance _ => true
  | Event.adjust _ _ _ => true
  | _ => false

end

end Assn6

/-!
News search (`assn-4-rss-news-search/rss-news-search.c`): the hash and comparison
functions of the word index and the test on search terms.

* A C string is the list of its chars before the terminating NUL; a char is given by its
  byte value, taken modulo 256.
* Whether plain `char` is signed is left to the platform: it is the parameter
  `charIsSigned`, which is `true` on x86-64.
* `tolower`, `isalpha`, `isalnum` and `strcasecmp` are the functions of the C library
  (glibc), in the "C" locale; `tolower` is also defined on the negative values of a signed
  `char`, which it maps to the values of the same bytes read as `unsigned char`, -1 apart.
* `unsigned long` has 64 bits and `int` has 32 bits; strings are shorter than `2^31`
  chars, so that the `int` index of the loops does not overflow.
-/

namespace Assn4

abbrev CString := List Nat

/-- No char of the list is NUL: the list is the content of a C string. -/
def NoNul (s : CString) : Prop :=
  ∀ c ∈ s, c % 256 ≠ 0

instance (s : CString) : Decidable (NoNul s) :=
  inferInstanceAs (Decidable (∀ c ∈ s, c % 256 ≠ 0))

/-- The value of a plain `char` as an `int`. -/
def charToInt (charIsSigned : Bool) (c : Nat) : Int :=
  if charIsSigned && decide (128 ≤ c % 256) then ((c % 256 : Nat) : Int) - 256
  else ((c % 256 : Nat) : Int)

/-- The value of an `unsigned char` as an `int`. -/
def ucharToInt (c : Nat) : Int :=
  ((c % 256 : Nat) : Int)

/-- C library `tolower`, "C" locale, on every `int` that `StringHash` and `strcasecmp` pass
to it. An upper-case letter becomes the lower-case one. The library accepts the values of a
signed `char` as well as those of an `unsigned char`: its table gives the entry of the byte
`c + 256` at a negative `c` from -128 to -2, so that `tolower(-23)` is 233, and `EOF`
(-1) at -1. Every other value is returned as it is. -/
def tolower (c : Int) : Int :=
  if 65 ≤ c ∧ c ≤ 90 then c + 32
  else if -128 ≤ c ∧ c ≤ -2 then c + 256
  else c

/-- C library `isalpha`, "C" locale. -/
def isalpha (c : Int) : Bool :=
  decide ((65 ≤ c ∧ c ≤ 90) ∨ (97 ≤ c ∧ c ≤ 122))

/-- C library `isalnum`, "C" locale. -/
def isalnum (c : Int) : Bool :=
  isalpha c || decide (48 ≤ c ∧ c ≤ 57)

/-- Conversion of an integer value to `unsigned long`. -/
def toULong (v : Int) : Nat :=
  (v % 2 ^ 64).toNat

/-- Conversion of an `unsigned long` value to `int`. -/
def toInt32 (v : Nat) : Int :=
  ((v : Int) + 2 ^ 31) % 2 ^ 32 - 2 ^ 31

def kHashMultiplier : Int := -1664117991

/-- The loop of `StringHash`: one step per char,
`hashcode = hashcode * kHashMultiplier + tolower(s[i])` in `unsigned long`. -/
def hashLoop (charIsSigned : Bool) (hashcode : Nat) : CString → Nat
  | [] => hashcode
  | c :: rest =>
    hashLoop charIsSigned
      ((hashcode * toULong kHashMultiplier + toULong (tolower (charToInt charIsSigned c)))
        % 2 ^ 64) rest

/-- `StringHash` of `rss-news-search.c`; `none` when `hashcode % numBuckets` divides by
zero. -/
def StringHash (charIsSigned : Bool) (s : CString) (numBuckets : Int) : Option Int :=
  if toULong numBuckets = 0 then none
  else some (toInt32 (hashLoop charIsSigned 0 s % toULong numBuckets))

/-- C library `strcasecmp`: the difference of the first two lower-cased chars, read as
`unsigned char`, that differ, the end of a string counting as NUL. -/
def strcasecmp : CString → CString → Int
  | [], [] => 0
  | [], c2 :: _ => 0 - tolower (ucharToInt c2)
  | c1 :: _, [] => tolower (ucharToInt c1) - 0
  | c1 :: r1, c2 :: r2 =>
    if tolower (ucharToInt c1) = tolower (ucharToInt c2) then strcasecmp r1 r2
    else tolower (ucharToInt c1) - tolower (ucharToInt c2)

/-- `StringCmp` of `rss-news-search.c`. -/
def StringCmp (s1 s2 : CString) : Int :=
  strcasecmp s1 s2

/-- The loop of `WordIsWellFormed` over the chars after the first. -/
def wellFormedLoop (charIsSigned : Bool) : CString → Bool
  | [] => true
  | c :: rest =>
    if !isalnum (charToInt charIsSigned c) && decide (charToInt charIsSigned c ≠ 45) then
      false
    else wellFormedLoop charIsSigned rest

/-- `WordIsWellFormed` of `rss-news-search.c`. -/
def WordIsWellFormed (charIsSigned : Bool) : CString → Bool
  | [] => true
  | c :: rest =>
    if !isalpha (charToInt charIsSigned c) then false
    else wellFormedLoop charIsSigned rest

/-- A letter of the alphabet, as a byte. -/
def IsLetter (c : Nat) : Prop :=
  (65 ≤ c % 256 ∧ c % 256 ≤ 90) ∨ (97 ≤ c % 256 ∧ c % 256 ≤ 122)

/-- A decimal digit, as a byte. -/
def IsDigit (c : Nat) : Prop :=
  48 ≤ c % 256 ∧ c % 256 ≤ 57

/-- The requirement on a search term as the claim words it: the word begins with a letter
and every following char is a letter, a digit or `-`. -/
def BeginsWithLetter (word : CString) : Prop :=
  ∃ c rest, word = c :: rest ∧ IsLetter c ∧
    ∀ x ∈ rest, IsLetter x ∨ IsDigit x ∨ x % 256 = 45

/-- The `Article` record. -/
structure Article where
  URL : CString
  title : CString
  freq : Int
deriving DecidableEq, Repr

/-- `VectorCmp` of `rss-news-search.c`: `(a > b) ? -1 : (a < b)`. -/
def VectorCmp (a1 a2 : Article) : Int :=
  let a := a1.freq
  let b := a2.freq
  if a > b then -1 else (if a < b then 1 else 0)

/-- The bytes of "Peter Pawlowski". -/
def peterPawlowski : CString :=
  [80, 101, 116, 101, 114, 32, 80, 97, 119, 108, 111, 119, 115, 107, 105]

/-- The bytes of "PETER PAWLOWSKI". -/
def peterPawlowskiUpper : CString :=
  [80, 69, 84, 69, 82, 32, 80, 65, 87, 76, 79, 87, 83, 75, 73]

end Assn4

/-!
Functions of the C library used by the movie database and by the vector.
-/

namespace Libc

/-- The loop of the C library `bsearch` on the elements `l .. u - 1` of an array;
`compar idx` compares the key with element `idx` (`none`: the comparison reads outside
the data). Every round shrinks `u - l`, so `fuel ≥ u - l` rounds are enough. The result
is the index of the element found, or `none` for `NULL`. -/
def bsearchLoop (compar : Nat → Option Int) : Nat → Nat → Nat → Option (Option Nat)
  | 0, _, _ => some none
  | fuel + 1, l, u =>
    if l < u then
      match compar ((l + u) / 2) with
      | none => none
      | some c =>
        if c < 0 then bsearchLoop compar fuel l ((l + u) / 2)
        else if c > 0 then bsearchLoop compar fuel ((l + u) / 2 + 1) u
        else some (some ((l + u) / 2))
    else some none

/-- C library `bsearch` over an array of `nmemb` elements. -/
def bsearch (compar : Nat → Option Int) (nmemb : Nat) : Option (Option Nat) :=
  bsearchLoop compar nmemb 0 nmemb

/-- C library `strcmp`: the difference of the first two chars, read as `unsigned char`,
that differ, the end of a string counting as NUL. -/
def strcmp : List Nat → List Nat → Int
  | [], [] => 0
  | [], c2 :: _ => 0 - ((c2 % 256 : Nat) : Int)
  | c1 :: _, [] => ((c1 % 256 : Nat) : Int) - 0
  | c1 :: r1, c2 :: r2 =>
    if c1 % 256 = c2 % 256 then strcmp r1 r2
    else ((c1 % 256 : Nat) : Int) - ((c2 % 256 : Nat) : Int)

end Libc

/-!
Movie database (`assn-2-six-degrees/imdb.cc`): the two lookups `getCredits` and
`getCast` on the memory-mapped actor and movie files.

* A mapped file is the list of its bytes; an address is an offset from the start of the
  file, and a read outside the file gives `none`.
* `int` is 32 bits and `short` 16 bits, little endian, two's complement.
* A `string` is the list of its chars.
* The record `film` and its operators `<` and `==` are declared in a header that is not
  part of the sources; the operators are parameters of `cmprMovies` and `getCast`.
-/

namespace Assn2

abbrev Bytes := List Nat

/-- The record `film`: a title and a year. -/
structure film where
  title : List Nat
  year : Int
deriving DecidableEq, Repr

/-- The byte at an address of a mapped file. -/
def byteAt (m : Bytes) (addr : Int) : Option Nat :=
  if addr < 0 then none else (m[addr.toNat]?).map (fun b => b % 256)

/-- The `short` at an address: `*(short *)addr`. -/
def readShort (m : Bytes) (addr : Int) : Option Int :=
  match byteAt m addr, byteAt m (addr + 1) with
  | some b0, some b1 =>
    some (if b0 + 256 * b1 < 32768 then ((b0 + 256 * b1 : Nat) : Int)
          else ((b0 + 256 * b1 : Nat) : Int) - 65536)
  | _, _ => none

/-- The `int` at an address: `*(int *)addr`. -/
def readInt (m : Bytes) (addr : Int) : Option Int :=
  match byteAt m addr, byteAt m (addr + 1), byteAt m (addr + 2), byteAt m (addr + 3) with
  | some b0, some b1, some b2, some b3 =>
    some (if b0 + 256 * b1 + 65536 * b2 + 16777216 * b3 < 2147483648 then
            ((b0 + 256 * b1 + 65536 * b2 + 16777216 * b3 : Nat) : Int)
          else ((b0 + 256 * b1 + 65536 * b2 + 16777216 * b3 : Nat) : Int) - 4294967296)
  | _, _, _, _ => none

/-- The chars of the C string that starts at an address, up to its NUL. -/
def readString (m : Bytes) (addr : Int) : Option (List Nat) :=
  if addr < 0 then none
  else if (m.drop addr.toNat).any (fun c => c % 256 == 0) then
    some (((m.drop addr.toNat).takeWhile (fun c => c % 256 != 0)).map (fun c => c % 256))
  else none

/-- `cmprActors` of `imdb.cc`, for the key `{player, actorFile}` and the element `idx` of
the offset table, which starts after the first `int` of the file. -/
def cmprActors (actorFile : Bytes) (player : List Nat) (idx : Nat) : Option Int :=
  match readInt actorFile (4 + 4 * (idx : Int)) with
  | none => none
  | some bytesToActor =>
    match readString actorFile bytesToActor with
    | none => none
    | some secondPl => some (Libc.strcmp player secondPl)

/-- From the words of the padded layout: `c` is the smallest even number that is at least
`lo`. -/
def SmallestEvenAtLeast (lo c : Nat) : Prop :=
  c % 2 = 0 ∧ lo ≤ c ∧ ∀ k, k % 2 = 0 → lo ≤ k → c ≤ k

/-- From the words of the padded layout: `a` is the smallest multiple of 4 that is at least
`lo`. -/
def SmallestMultipleOf4AtLeast (lo a : Nat) : Prop :=
  a % 4 = 0 ∧ lo ≤ a ∧ ∀ k, k % 4 = 0 → lo ≤ k → a ≤ k

/-- Offset from the start of an actor record to its film count (`filmSize`, lines 55-56),
for a name of `n` chars. -/
def filmSizeOffset (n : Nat) : Nat :=
  if n % 2 = 0 then n + 1 + 1 else n + 1

/-- Offset from the start of an actor record to its array of film offsets (`filmLoc`,
lines 57-58). -/
def filmLocOffset (n : Nat) : Nat :=
  if n % 4 = 2 ∨ n % 4 = 3 then filmSizeOffset n + 2 + 2 else filmSizeOffset n + 2

/-- The loop of `getCredits`: `count` more films, the next one being number `i`. -/
def creditsLoop (charIsSigned : Bool) (actorFile movieFile : Bytes) (filmLoc : Int) :
    Nat → Nat → List film → Option (List film)
  | 0, _, films => some films
  | count + 1, i, films =>
    match readInt actorFile (filmLoc + 4 * (i : Int)) with
    | none => none
    | some movieLoc =>
      match readString movieFile movieLoc with
      | none => none
      | some title =>
        match byteAt movieFile (movieLoc + (title.length : Int) + 1) with
        | none => none
        | some yearByte =>
          creditsLoop charIsSigned actorFile movieFile filmLoc count (i + 1)
            (films ++ [⟨title, 1900 + Assn4.charToInt charIsSigned yearByte⟩])

/-- `imdb::getCredits` of `imdb.cc`: the returned `bool` and the vector `films` after the
call. -/
def getCredits (charIsSigned : Bool) (actorFile movieFile : Bytes) (player : List Nat)
    (films : List film) : Option (Bool × List film) :=
  match readInt actorFile 0 with
  | none => none
  | some actorSize =>
    if actorSize < 0 then none
    else
      match Libc.bsearch (cmprActors actorFile player) actorSize.toNat with
      | none => none
      | some none => some (false, films)
      | some (some idx) =>
        match readInt actorFile (4 + 4 * (idx : Int)) with
        | none => none
        | some playerLoc =>
          match readShort actorFile (playerLoc + (filmSizeOffset player.length : Int)) with
          | none => none
          | some filmSize =>
            match creditsLoop charIsSigned actorFile movieFile
                (playerLoc + (filmLocOffset player.length : Int)) filmSize.toNat 0 films with
            | none => none
            | some films1 => some (true, films1)

/-- `cmprMovies` of `imdb.cc`, for the key `{movie, movieFile}` and the element `idx` of
the offset table. -/
def cmprMovies (filmLess filmEq : film → film → Bool) (charIsSigned : Bool)
    (movieFile : Bytes) (movie : film) (idx : Nat) : Option Int :=
  match readInt movieFile (4 + 4 * (idx : Int)) with
  | none => none
  | some bytesToMovie =>
    match readString movieFile bytesToMovie with
    | none => none
    | some title =>
      match byteAt movieFile (bytesToMovie + (title.length : Int) + 1) with
      | none => none
      | some yearByte =>
        if filmLess movie ⟨title, 1900 + Assn4.charToInt charIsSigned yearByte⟩ then
          some (-1)
        else if filmEq movie ⟨title, 1900 + Assn4.charToInt charIsSigned yearByte⟩ then
          some 0
        else some 1

/-- Offset from the start of a movie record to its cast count (`castSize`, lines
101-102), for a title of `n` chars. -/
def castSizeOffset (n : Nat) : Nat :=
  if n % 2 ≠ 0 then n + 2 + 1 else n + 2

/-- Offset from the start of a movie record to its array of actor offsets (`actorLoc`,
lines 103-105). -/
def actorLocOffset (n : Nat) : Nat :=
  if n % 4 = 1 ∨ n % 4 = 2 then castSizeOffset n + 2 + 2 else castSizeOffset n + 2

/-- The loop of `getCast`: `count` more players, the next one being number `i`. -/
def castLoop (actorFile movieFile : Bytes) (actorLoc : Int) :
    Nat → Nat → List (List Nat) → Option (List (List Nat))
  | 0, _, players => some players
  | count + 1, i, players =>
    match readInt movieFile (actorLoc + 4 * (i : Int)) with
    | none => none
    | some playerLoc =>
      match readString actorFile playerLoc with
      | none => none
      | some name => castLoop actorFile movieFile actorLoc count (i + 1) (players ++ [name])

/-- `imdb::getCast` of `imdb.cc`: the returned `bool` and the vector `players` after the
call. -/
def getCast (filmLess filmEq : film → film → Bool) (charIsSigned : Bool)
    (actorFile movieFile : Bytes) (movie : film) (players : List (List Nat)) :
    Option (Bool × List (List Nat)) :=
  match readInt movieFile 0 with
  | none => none
  | some moviesSize =>
    if moviesSize < 0 then none
    else
      match Libc.bsearch (cmprMovies filmLess filmEq charIsSigned movieFile movie)
          moviesSize.toNat with
      | none => none
      | some none => some (false, players)
      | some (some idx) =>
        match readInt movieFile (4 + 4 * (idx : Int)) with
        | none => none
        | some movieLoc =>
          match readShort movieFile (movieLoc + (castSizeOffset movie.title.length : Int)) with
          | none => none
          | some castSize =>
            match castLoop actorFile movieFile
                (movieLoc + (actorLocOffset movie.title.length : Int)) castSize.toNat 0
                players with
            | none => none
            | some players1 => some (false, players1)

/-- The order of strings: lexicographic on the chars. -/
def stringLess : List Nat → List Nat → Bool
  | [], [] => false
  | [], _ :: _ => true
  | _ :: _, [] => false
  | c1 :: r1, c2 :: r2 => decide (c1 % 256 < c2 % 256) || (c1 % 256 == c2 % 256 && stringLess r1 r2)

/-- The usual `<` of films, by title and then by year; used in the examples. -/
def filmLessByTitleYear (a b : film) : Bool :=
  stringLess a.title b.title || (a.title == b.title && decide (a.year < b.year))

/-- The usual `==` of films, the same title and the same year; used in the examples. -/
def filmEqByTitleYear (a b : film) : Bool :=
  a.title == b.title && a.year == b.year

/-- An actor file with one actor, "Al", who played in the movie at offset 8 of the movie
file. -/
def sampleActorFile : Bytes :=
  [1, 0, 0, 0, 8, 0, 0, 0, 65, 108, 0, 0, 1, 0, 0, 0, 8, 0, 0, 0]

/-- A movie file with one movie, "Up" of the year 2009, whose cast is the actor at offset
8 of the actor file. -/
def sampleMovieFile : Bytes :=
  [1, 0, 0, 0, 8, 0, 0, 0, 85, 112, 0, 109, 1, 0, 0, 0, 8, 0, 0, 0]

end Assn2

/-!
Vector and hash set (`assn-3-vector-hashset/vector.c`, `hashset.c`).

* An element is a value of a type `α`; the address of an element stands for the element,
  and the `NULL` checks on addresses and on function pointers hold.
* A `vector` keeps its first `logSize` elements as a list, `logSize` being the length of
  the list. The free function only releases memory and is not part of the model.
* An `assert` that fails aborts the program: the function returns `none`.
* `int` values are integers; the counters stay far from the limits of `int`.
-/

namespace Assn3

/-- The `vector` record. -/
structure vector (α : Type) where
  elems : List α
  elemSize : Int
  allocSize : Int
  initAllocSize : Int

/-- The field `logSize` of a vector. -/
def vector.logSize {α : Type} (v : vector α) : Int :=
  (v.elems.length : Int)

/-- `VectorNew` of `vector.c`. -/
def VectorNew {α : Type} (elemSize : Int) (initialAllocation : Int) : Option (vector α) :=
  if initialAllocation < 0 then none
  else if elemSize ≤ 0 then none
  else
    some { elems := []
           elemSize := elemSize
           allocSize := if initialAllocation ≠ 0 then initialAllocation else 4
           initAllocSize := if initialAllocation ≠ 0 then initialAllocation else 4 }

/-- `VectorLength` of `vector.c`. -/
def VectorLength {α : Type} (v : vector α) : Int :=
  v.logSize

/-- `VectorNth` of `vector.c`. -/
def VectorNth {α : Type} (v : vector α) (position : Int) : Option α :=
  if position < 0 ∨ v.logSize ≤ position then none
  else v.elems[position.toNat]?

/-- `VectorReplace` of `vector.c`. -/
def VectorReplace {α : Type} (v : vector α) (elem : α) (position : Int) :
    Option (vector α) :=
  if position < 0 ∨ v.logSize ≤ position then none
  else some { v with elems := v.elems.set position.toNat elem }

/-- `VectorAppend` of `vector.c`. -/
def VectorAppend {α : Type} (v : vector α) (elem : α) : vector α :=
  { v with
    elems := v.elems ++ [elem]
    allocSize := if v.logSize = v.allocSize then v.allocSize + v.initAllocSize
                 else v.allocSize }

def kNotFound : Int := -1

/-- The linear loop of `VectorSearch`: the elements from index `i` on. -/
def searchLoop {α : Type} (searchFn : α → α → Int) (key : α) : List α → Int → Int
  | [], _ => kNotFound
  | x :: rest, i => if searchFn key x = 0 then i else searchLoop searchFn key rest (i + 1)

/-- `VectorSearch` of `vector.c`. -/
def VectorSearch {α : Type} (v : vector α) (key : α) (searchFn : α → α → Int)
    (startIndex : Int) (isSorted : Bool) : Option Int :=
  if startIndex < 0 ∨ v.logSize < startIndex then none
  else if isSorted then
    match Libc.bsearch
        (fun idx => (v.elems[startIndex.toNat + idx]?).map (fun x => searchFn key x))
        (v.logSize - startIndex).toNat with
    | none => none
    | some none => some kNotFound
    | some (some idx) => some (startIndex + (idx : Int))
  else some (searchLoop searchFn key (v.elems.drop startIndex.toNat) startIndex)

/-- The `hashset` record. -/
structure hashset (α : Type) where
  elemSize : Int
  numBuckets : Int
  hashFn : α → Int → Int
  compareFn : α → α → Int
  logSize : Int
  buckets : List (vector α)

/-- `HashSetNew` of `hashset.c`. -/
def HashSetNew {α : Type} (elemSize numBuckets : Int) (hashfn : α → Int → Int)
    (comparefn : α → α → Int) : Option (hashset α) :=
  if elemSize ≤ 0 then none
  else if numBuckets ≤ 0 then none
  else
    match VectorNew elemSize 0 with
    | none => none
    | some v =>
      some { elemSize := elemSize
             numBuckets := numBuckets
             hashFn := hashfn
             compareFn := comparefn
             logSize := 0
             buckets := List.replicate numBuckets.toNat v }

/-- `HashSetCount` of `hashset.c`. -/
def HashSetCount {α : Type} (h : hashset α) : Int :=
  h.logSize

/-- `HashSetEnter` of `hashset.c`. -/
def HashSetEnter {α : Type} (h : hashset α) (elem : α) : Option (hashset α) :=
  if h.hashFn elem h.numBuckets < 0 ∨ h.numBuckets ≤ h.hashFn elem h.numBuckets then none
  else
    match h.buckets[(h.hashFn elem h.numBuckets).toNat]? with
    | none => none
    | some bucket =>
      match VectorSearch bucket elem h.compareFn 0 false with
      | none => none
      | some prevElem =>
        if prevElem = -1 then
          some { h with
            buckets := h.buckets.set (h.hashFn elem h.numBuckets).toNat
              (VectorAppend bucket elem)
            logSize := h.logSize + 1 }
        else
          match VectorReplace bucket elem prevElem with
          | none => none
          | some bucket1 =>
            some { h with
              buckets := h.buckets.set (h.hashFn elem h.numBuckets).toNat bucket1 }

/-- `HashSetLookup` of `hashset.c`: `some none` is the result `NULL`. -/
def HashSetLookup {α : Type} (h : hashset α) (elem : α) : Option (Option α) :=
  if h.hashFn elem h.numBuckets < 0 ∨ h.numBuckets ≤ h.hashFn elem h.numBuckets then none
  else
    match h.buckets[(h.hashFn elem h.numBuckets).toNat]? with
    | none => none
    | some bucket =>
      match VectorSearch bucket elem h.compareFn 0 false with
      | none => none
      | some elemIn =>
        if elemIn = -1 then some none
        else
          match VectorNth bucket elemIn with
          | none => none
          | some x => some (some x)

/-- A run of `HashSetEnter` calls, one for each element of a list. -/
def enterAll {α : Type} : hashset α → List α → Option (hashset α)
  | h, [] => some h
  | h, e :: rest =>
    match HashSetEnter h e with
    | none => none
    | some h1 => enterAll h1 rest

/-- The elements of the bucket of an element. -/
def bucketOf {α : Type} (h : hashset α) (elem : α) : List α :=
  match h.buckets[(h.hashFn elem h.numBuckets).toNat]? with
  | none => []
  | some bucket => bucket.elems

/-- The hash set has one bucket for each bucket number. -/
def WellFormed {α : Type} (h : hashset α) : Prop :=
  (h.buckets.length : Int) = h.numBuckets

instance {α : Type} (h : hashset α) : Decidable (WellFormed h) :=
  inferInstanceAs (Decidable ((h.buckets.length : Int) = h.numBuckets))

/-- Equality under a comparison function, `compareFn(x, y) == 0`, is symmetric and
transitive. -/
def EqualityLike {α : Type} (compareFn : α → α → Int) : Prop :=
  (∀ x y, compareFn x y = 0 → compareFn y x = 0) ∧
  (∀ x y z, compareFn x y = 0 → compareFn y z = 0 → compareFn x z = 0)

/-- The count of the set is the sum of the lengths of its buckets. -/
def CountIsTotal {α : Type} (h : hashset α) : Prop :=
  h.logSize = (h.buckets.map (fun v => (v.elems.length : Int))).sum

/-- Every stored element is in the bucket its hash names. -/
def InOwnBucket {α : Type} (h : hashset α) : Prop :=
  ∀ (i : Nat) (v : vector α), h.buckets[i]? = some v →
    ∀ x ∈ v.elems, h.hashFn x h.numBuckets = (i : Int)

/-- No bucket has two elements, at different places, that compare equal. -/
def NoEqualPair {α : Type} (h : hashset α) : Prop :=
  ∀ v ∈ h.buckets, v.elems.Pairwise (fun x y => h.compareFn x y ≠ 0 ∧ h.compareFn y x ≠ 0)

/-- A comparison of integers whose equality is not transitive: two integers compare equal
when they differ by at most one. -/
def nearCmp (x y : Int) : Int :=
  if x - y ≤ 1 ∧ y - x ≤ 1 then 0 else x - y

/-- The comparison of integers by their difference. -/
def intCmp (x y : Int) : Int :=
  x - y

/-- The hash function that sends every element to bucket 0. -/
def zeroHash (_x : Int) (_numBuckets : Int) : Int :=
  0

/-- The hash function that takes an integer modulo the number of buckets. -/
def modHash (x : Int) (numBuckets : Int) : Int :=
  x % numBuckets

/-- A set of integers with three buckets that holds 5 and 8, both in bucket 2; it is the
set that `HashSetNew` and `HashSetEnter` of 5 and of 8 build. -/
def sampleSet : hashset Int :=
  { elemSize := 4
    numBuckets := 3
    hashFn := modHash
    compareFn := intCmp
    logSize := 2
    buckets := [⟨[], 4, 4, 4⟩, ⟨[], 4, 4, 4⟩, ⟨[5, 8], 4, 4, 4⟩] }

end Assn3

namespace Assn6

open ErrorCode

section

variable (AccountNum_GetBranchID : AccountNumber → BranchID)

/-! ## Lemmas on the account table -/

theorem findAccount_lt {n : AccountNumber} {l : List Account} {i : Nat}
    (h : findAccount n l = some i) : i < l.length := by
  induction l generalizing i with
  | nil => simp [findAccount] at h
  | cons a rest ih =>
    simp only [findAccount] at h
    split at h
    · cases h; simp
    · cases hrest : findAccount n rest with
      | none => simp [hrest] at h
      | some j =>
        simp [hrest] at h
        subst h
        simpa using ih hrest

theorem findAccount_getElem? {n : AccountNumber} {l : List Account} {i : Nat}
    (h : findAccount n l = some i) : ∃ a, l[i]? = some a ∧ a.accountNumber = n := by
  induction l generalizing i with
  | nil => simp [findAccount] at h
  | cons a rest ih =>
    simp only [findAccount] at h
    split at h
    · next heq => cases h; exact ⟨a, by simp, heq⟩
    · cases hrest : findAccount n rest with
      | none => simp [hrest] at h
      | some j =>
        simp [hrest] at h
        subst h
        simpa using ih hrest

theorem findAccount_set (n : AccountNumber) (l : List Account) (i : Nat) (x : Account)
    (hx : ∀ a, l[i]? = some a → x.accountNumber = a.accountNumber) :
    findAccount n (l.set i x) = findAccount n l := by
  induction l generalizing i with
  | nil => simp
  | cons a rest ih =>
    cases i with
    | zero =>
      have := hx a (by simp)
      simp [findAccount, this]
    | succ j =>
      have := ih j (fun a ha => hx a (by simpa using ha))
      simp [findAccount, this]

theorem deref_of_getElem? {bank : Bank} {h : Nat} {a : Account}
    (ha : bank.accounts[h]? = some a) : deref bank h = a := by
  simp [deref, List.getD_eq_getElem?_getD, ha]

theorem adjust_accounts (bank : Bank) (h : Nat) (amount : AccountAmount) (ub : Bool) :
    (Account_Adjust AccountNum_GetBranchID bank h amount ub).accounts =
      bank.accounts.set h
        { deref bank h with balance := (deref bank h).balance + amount } := by
  unfold Account_Adjust
  cases ub <;> simp

theorem adjust_branches (bank : Bank) (h : Nat) (amount : AccountAmount) (ub : Bool)
    (b : BranchID) :
    (Account_Adjust AccountNum_GetBranchID bank h amount ub).branches b =
      if ub = true ∧ AccountNum_GetBranchID (deref bank h).accountNumber = b then
        bank.branches b + amount
      else bank.branches b := by
  unfold Account_Adjust
  cases ub
  · simp
  · by_cases hb : AccountNum_GetBranchID (deref bank h).accountNumber = b
    · subst hb; simp
    · simp [hb, Function.update_noteq (Ne.symm hb)]

theorem adjust_getElem? (bank : Bank) (h : Nat) (amount : AccountAmount) (ub : Bool)
    (j : Nat) :
    (Account_Adjust AccountNum_GetBranchID bank h amount ub).accounts[j]? =
      if h = j then
        (bank.accounts[j]?).map (fun a => { a with balance := a.balance + amount })
      else bank.accounts[j]? := by
  rw [adjust_accounts, List.getElem?_set]
  by_cases hj : h = j
  · subst hj
    by_cases hlt : h < bank.accounts.length
    · have hsome : bank.accounts[h]? = some bank.accounts[h] := List.getElem?_eq_getElem hlt
      simp [hlt, deref_of_getElem? hsome]
    · have hnone : bank.accounts[h]? = none := List.getElem?_eq_none (Nat.le_of_not_lt hlt)
      simp [hlt, hnone]
  · simp [hj]

theorem adjust_lookup (bank : Bank) (h : Nat) (amount : AccountAmount) (ub : Bool)
    (n : AccountNumber) :
    Account_LookupByNumber (Account_Adjust AccountNum_GetBranchID bank h amount ub) n =
      Account_LookupByNumber bank n := by
  unfold Account_LookupByNumber
  rw [adjust_accounts]
  apply findAccount_set
  intro a ha
  simp [deref_of_getElem? ha]

theorem adjust_deref_same (bank : Bank) (h : Nat) (amount : AccountAmount) (ub : Bool)
    (hlt : h < bank.accounts.length) :
    deref (Account_Adjust AccountNum_GetBranchID bank h amount ub) h =
      { deref bank h with balance := (deref bank h).balance + amount } := by
  have hsome : bank.accounts[h]? = some bank.accounts[h] := List.getElem?_eq_getElem hlt
  apply deref_of_getElem?
  rw [adjust_getElem?]
  simp [hsome, deref_of_getElem? hsome]

theorem adjust_deref_other (bank : Bank) (h : Nat) (amount : AccountAmount) (ub : Bool)
    (j : Nat) (hj : h ≠ j) :
    deref (Account_Adjust AccountNum_GetBranchID bank h amount ub) j = deref bank j := by
  simp [deref, List.getD_eq_getElem?_getD, adjust_getElem?, hj]

theorem lookup_lt {bank : Bank} {n : AccountNumber} {h : Nat}
    (hl : Account_LookupByNumber bank n = some h) : h < bank.accounts.length :=
  findAccount_lt hl

theorem lookup_number {bank : Bank} {n : AccountNumber} {h : Nat}
    (hl : Account_LookupByNumber bank n = some h) : (deref bank h).accountNumber = n := by
  obtain ⟨a, ha, hn⟩ := findAccount_getElem? hl
  rw [deref_of_getElem? ha, hn]

theorem lookup_inj {bank : Bank} {n m : AccountNumber} {h : Nat}
    (hn : Account_LookupByNumber bank n = some h)
    (hm : Account_LookupByNumber bank m = some h) : n = m := by
  rw [← lookup_number hn, ← lookup_number hm]

theorem adjust_balanceOf (bank : Bank) (n : AccountNumber) (h : Nat)
    (amount : AccountAmount) (ub : Bool) (hl : Account_LookupByNumber bank n = some h)
    (m : AccountNumber) :
    balanceOf (Account_Adjust AccountNum_GetBranchID bank h amount ub) m =
      if m = n then (balanceOf bank m).map (fun b => b + amount) else balanceOf bank m := by
  unfold balanceOf
  rw [adjust_lookup]
  cases hm : Account_LookupByNumber bank m with
  | none => simp
  | some j =>
    by_cases hmn : m = n
    · subst hmn
      have hj : j = h := by rw [hm] at hl; exact Option.some.inj hl
      subst hj
      simp [Account_Balance, adjust_deref_same _ bank j amount ub (lookup_lt hm)]
    · have hj : h ≠ j := by
        intro hhj
        subst hhj
        exact hmn (lookup_inj hm hl)
      simp [hmn, Account_Balance, adjust_deref_other _ bank h amount ub j hj]

theorem balanceOf_some {bank : Bank} {n : AccountNumber} {b : AccountAmount}
    (hb : balanceOf bank n = some b) :
    ∃ h, Account_LookupByNumber bank n = some h ∧ Account_Balance bank h = b := by
  unfold balanceOf at hb
  cases hl : Account_LookupByNumber bank n with
  | none => simp [hl] at hb
  | some h => exact ⟨h, rfl, by simpa [hl] using hb⟩

theorem adjust_getElem?_other (bank : Bank) (h : Nat) (amount : AccountAmount) (ub : Bool)
    (j : Nat) (hj : h ≠ j) :
    (Account_Adjust AccountNum_GetBranchID bank h amount ub).accounts[j]? =
      bank.accounts[j]? := by
  rw [adjust_getElem?]; simp [hj]

theorem deposit_found {bank : Bank} {n : AccountNumber} {h : Nat} {amount : AccountAmount}
    (hl : Account_LookupByNumber bank n = some h) (hamt : 0 ≤ amount) :
    Teller_DoDeposit AccountNum_GetBranchID bank n amount =
      some ⟨ERROR_SUCCESS, Account_Adjust AccountNum_GetBranchID bank h amount true,
        [Event.lock (Mutex.account h), Event.lock (Mutex.branch (AccountNum_GetBranchID n)),
         Event.adjust h amount true,
         Event.unlock (Mutex.account h),
         Event.unlock (Mutex.branch (AccountNum_GetBranchID n))]⟩ := by
  simp [Teller_DoDeposit, not_lt.mpr hamt, hl]

theorem withdraw_found_ok {bank : Bank} {n : AccountNumber} {h : Nat}
    {amount : AccountAmount}
    (hl : Account_LookupByNumber bank n = some h) (hamt : 0 ≤ amount)
    (hle : amount ≤ Account_Balance bank h) :
    Teller_DoWithdraw AccountNum_GetBranchID bank n amount =
      some ⟨ERROR_SUCCESS, Account_Adjust AccountNum_GetBranchID bank h (-amount) true,
        [Event.lock (Mutex.account h), Event.lock (Mutex.branch (AccountNum_GetBranchID n)),
         Event.balance h,
         Event.adjust h (-amount) true,
         Event.unlock (Mutex.account h),
         Event.unlock (Mutex.branch (AccountNum_GetBranchID n))]⟩ := by
  simp [Teller_DoWithdraw, not_lt.mpr hamt, hl, not_lt.mpr hle]

theorem withdraw_found_short {bank : Bank} {n : AccountNumber} {h : Nat}
    {amount : AccountAmount}
    (hl : Account_LookupByNumber bank n = some h) (hamt : 0 ≤ amount)
    (hgt : amount > Account_Balance bank h) :
    Teller_DoWithdraw AccountNum_GetBranchID bank n amount =
      some ⟨ERROR_INSUFFICIENT_FUNDS, bank,
        [Event.lock (Mutex.account h), Event.lock (Mutex.branch (AccountNum_GetBranchID n)),
         Event.balance h,
         Event.unlock (Mutex.account h),
         Event.unlock (Mutex.branch (AccountNum_GetBranchID n))]⟩ := by
  have hgt2 : Account_Balance bank h < amount := hgt
  simp [Teller_DoWithdraw, not_lt.mpr hamt, hl, hgt2]

theorem transfer_found_ok {bank : Bank} {src dst : AccountNumber} {s d : Nat}
    {amount : AccountAmount} (hne : src ≠ dst)
    (hs : Account_LookupByNumber bank src = some s)
    (hd : Account_LookupByNumber bank dst = some d) (hamt : 0 ≤ amount)
    (hle : amount ≤ Account_Balance bank s) :
    ∃ r, Teller_DoTransfer AccountNum_GetBranchID bank src dst amount = some r ∧
      r.code = ERROR_SUCCESS ∧
      r.bank = Account_Adjust AccountNum_GetBranchID
        (Account_Adjust AccountNum_GetBranchID bank s (-amount)
          (!Account_IsSameBranch AccountNum_GetBranchID src dst))
        d amount (!Account_IsSameBranch AccountNum_GetBranchID src dst) := by
  simp [Teller_DoTransfer, not_lt.mpr hamt, hne, hs, hd, not_lt.mpr hle]

theorem transfer_found_short {bank : Bank} {src dst : AccountNumber} {s d : Nat}
    {amount : AccountAmount} (hne : src ≠ dst)
    (hs : Account_LookupByNumber bank src = some s)
    (hd : Account_LookupByNumber bank dst = some d) (hamt : 0 ≤ amount)
    (hgt : amount > Account_Balance bank s) :
    ∃ r, Teller_DoTransfer AccountNum_GetBranchID bank src dst amount = some r ∧
      r.code = ERROR_INSUFFICIENT_FUNDS ∧ r.bank = bank := by
  have hgt2 : Account_Balance bank s < amount := hgt
  simp [Teller_DoTransfer, not_lt.mpr hamt, hne, hs, hd, hgt2]


theorem deposit_cases (bank : Bank) (n : AccountNumber) (amount : AccountAmount)
    (hamt : 0 ≤ amount) :
    (Account_LookupByNumber bank n = none ∧
      Teller_DoDeposit AccountNum_GetBranchID bank n amount =
        some ⟨ERROR_ACCOUNT_NOT_FOUND, bank, []⟩) ∨
    (∃ h tr, Account_LookupByNumber bank n = some h ∧
      Teller_DoDeposit AccountNum_GetBranchID bank n amount =
        some ⟨ERROR_SUCCESS, Account_Adjust AccountNum_GetBranchID bank h amount true, tr⟩) := by
  cases hl : Account_LookupByNumber bank n with
  | none => left; simp [Teller_DoDeposit, not_lt.mpr hamt, hl]
  | some h => right; exact ⟨h, _, rfl, deposit_found AccountNum_GetBranchID hl hamt⟩

theorem withdraw_cases (bank : Bank) (n : AccountNumber) (amount : AccountAmount)
    (hamt : 0 ≤ amount) :
    (Account_LookupByNumber bank n = none ∧
      Teller_DoWithdraw AccountNum_GetBranchID bank n amount =
        some ⟨ERROR_ACCOUNT_NOT_FOUND, bank, []⟩) ∨
    (∃ h tr, Account_LookupByNumber bank n = some h ∧ amount > Account_Balance bank h ∧
      tr ≠ [] ∧
      Teller_DoWithdraw AccountNum_GetBranchID bank n amount =
        some ⟨ERROR_INSUFFICIENT_FUNDS, bank, tr⟩) ∨
    (∃ h tr, Account_LookupByNumber bank n = some h ∧ amount ≤ Account_Balance bank h ∧
      Teller_DoWithdraw AccountNum_GetBranchID bank n amount =
        some ⟨ERROR_SUCCESS, Account_Adjust AccountNum_GetBranchID bank h (-amount) true,
          tr⟩) := by
  cases hl : Account_LookupByNumber bank n with
  | none => left; simp [Teller_DoWithdraw, not_lt.mpr hamt, hl]
  | some h =>
    right
    by_cases hgt : amount > Account_Balance bank h
    · left
      exact ⟨h, _, rfl, hgt, by simp, withdraw_found_short AccountNum_GetBranchID hl hamt hgt⟩
    · right
      exact ⟨h, _, rfl, not_lt.mp hgt,
        withdraw_found_ok AccountNum_GetBranchID hl hamt (not_lt.mp hgt)⟩

theorem transfer_cases (bank : Bank) (src dst : AccountNumber) (amount : AccountAmount)
    (hamt : 0 ≤ amount) :
    (src = dst ∧
      Teller_DoTransfer AccountNum_GetBranchID bank src dst amount =
        some ⟨ERROR_SUCCESS, bank, []⟩) ∨
    (src ≠ dst ∧
      (Account_LookupByNumber bank src = none ∨ Account_LookupByNumber bank dst = none) ∧
      Teller_DoTransfer AccountNum_GetBranchID bank src dst amount =
        some ⟨ERROR_ACCOUNT_NOT_FOUND, bank, []⟩) ∨
    (∃ s d tr, src ≠ dst ∧ Account_LookupByNumber bank src = some s ∧
      Account_LookupByNumber bank dst = some d ∧ amount > Account_Balance bank s ∧
      Teller_DoTransfer AccountNum_GetBranchID bank src dst amount =
        some ⟨ERROR_INSUFFICIENT_FUNDS, bank, tr⟩) ∨
    (∃ s d tr, src ≠ dst ∧ Account_LookupByNumber bank src = some s ∧
      Account_LookupByNumber bank dst = some d ∧ amount ≤ Account_Balance bank s ∧
      Teller_DoTransfer AccountNum_GetBranchID bank src dst amount =
        some ⟨ERROR_SUCCESS,
          Account_Adjust AccountNum_GetBranchID
            (Account_Adjust AccountNum_GetBranchID bank s (-amount)
              (!Account_IsSameBranch AccountNum_GetBranchID src dst))
            d amount (!Account_IsSameBranch AccountNum_GetBranchID src dst), tr⟩) := by
  by_cases hne : src = dst
  · left; simp [Teller_DoTransfer, not_lt.mpr hamt, hne]
  · right
    cases hs : Account_LookupByNumber bank src with
    | none => left; simp [Teller_DoTransfer, not_lt.mpr hamt, hne, hs]
    | some s =>
      cases hd : Account_LookupByNumber bank dst with
      | none => left; simp [Teller_DoTransfer, not_lt.mpr hamt, hne, hs, hd]
      | some d =>
        right
        by_cases hgt : amount > Account_Balance bank s
        · left
          have hgt2 : Account_Balance bank s < amount := hgt
          exact ⟨s, d, _, hne, rfl, rfl, hgt,
            by simp [Teller_DoTransfer, not_lt.mpr hamt, hne, hs, hd, hgt2]; rfl⟩
        · right
          exact ⟨s, d, _, hne, rfl, rfl, not_lt.mp hgt,
            by simp [Teller_DoTransfer, not_lt.mpr hamt, hne, hs, hd, hgt]; rfl⟩

theorem filter_sum_set (p : Account → Bool) (l : List Account) (i : Nat) (x a : Account)
    (amount : AccountAmount) (ha : l[i]? = some a) (hp : p x = p a)
    (hx : x.balance = a.balance + amount) :
    (((l.set i x).filter p).map Account.balance).sum =
      ((l.filter p).map Account.balance).sum + (if p a = true then amount else 0) := by
  induction l generalizing i with
  | nil => simp at ha
  | cons c rest ih =>
    cases i with
    | zero =>
      simp at ha
      subst ha
      by_cases hpc : p c = true
      · have hpx : p x = true := hp ▸ hpc
        simp [List.filter_cons, hpc, hpx, hx]
        ring
      · have hpx : ¬ p x = true := hp ▸ hpc
        simp [List.filter_cons, hpc, hpx]
    | succ j =>
      have hrec := ih j (by simpa using ha)
      by_cases hpc : p c = true
      · simp [List.filter_cons, hpc, hrec]
        ring
      · simp [List.filter_cons, hpc, hrec]

theorem adjust_branchSum (bank : Bank) (h : Nat) (amount : AccountAmount) (ub : Bool)
    (hlt : h < bank.accounts.length) (b : BranchID) :
    branchSum AccountNum_GetBranchID
        (Account_Adjust AccountNum_GetBranchID bank h amount ub) b =
      branchSum AccountNum_GetBranchID bank b +
        (if AccountNum_GetBranchID (deref bank h).accountNumber = b then amount else 0) := by
  have hsome : bank.accounts[h]? = some bank.accounts[h] := List.getElem?_eq_getElem hlt
  have hderef := deref_of_getElem? hsome
  unfold branchSum
  rw [adjust_accounts,
    filter_sum_set _ bank.accounts h _ (bank.accounts[h]) amount hsome (by simp [hderef])
      (by simp [hderef])]
  simp [hderef]

theorem adjust_invariant (bank : Bank) (h : Nat) (amount : AccountAmount)
    (hlt : h < bank.accounts.length)
    (hinv : BranchInvariant AccountNum_GetBranchID bank) :
    BranchInvariant AccountNum_GetBranchID
      (Account_Adjust AccountNum_GetBranchID bank h amount true) := by
  intro b
  rw [adjust_branches, adjust_branchSum AccountNum_GetBranchID bank h amount true hlt, hinv b]
  by_cases hb : AccountNum_GetBranchID (deref bank h).accountNumber = b <;> simp [hb]

theorem adjust_pair_invariant (bank : Bank) (src dst : AccountNumber) (s d : Nat)
    (amount : AccountAmount) (ub : Bool)
    (hs : Account_LookupByNumber bank src = some s)
    (hd : Account_LookupByNumber bank dst = some d)
    (hub : ub = false → AccountNum_GetBranchID src = AccountNum_GetBranchID dst)
    (hinv : BranchInvariant AccountNum_GetBranchID bank) :
    BranchInvariant AccountNum_GetBranchID
      (Account_Adjust AccountNum_GetBranchID
        (Account_Adjust AccountNum_GetBranchID bank s (-amount) ub) d amount ub) := by
  have hd1 : Account_LookupByNumber
      (Account_Adjust AccountNum_GetBranchID bank s (-amount) ub) dst = some d := by
    rw [adjust_lookup]; exact hd
  cases ub with
  | true =>
    exact adjust_invariant _ _ d amount (lookup_lt hd1)
      (adjust_invariant _ bank s (-amount) (lookup_lt hs) hinv)
  | false =>
    have hbr := hub rfl
    intro b
    rw [adjust_branches, adjust_branchSum AccountNum_GetBranchID _ d amount false (lookup_lt hd1),
      adjust_branchSum AccountNum_GetBranchID bank s (-amount) false (lookup_lt hs),
      lookup_number hd1, lookup_number hs, adjust_branches, hinv b, hbr]
    by_cases hb : AccountNum_GetBranchID dst = b <;> simp [hb]

theorem nonneg_deref {bank : Bank} (hnn : NonNegative bank) (h : Nat) :
    0 ≤ (deref bank h).balance := by
  cases hj : bank.accounts[h]? with
  | none => simp [deref, List.getD_eq_getElem?_getD, hj]
  | some a =>
    rw [deref_of_getElem? hj]
    exact hnn a (List.getElem?_mem hj)

theorem nonneg_adjust {bank : Bank} (hnn : NonNegative bank) (h : Nat)
    (amount : AccountAmount) (ub : Bool) (hpos : 0 ≤ (deref bank h).balance + amount) :
    NonNegative (Account_Adjust AccountNum_GetBranchID bank h amount ub) := by
  intro a ha
  rw [adjust_accounts] at ha
  rcases List.mem_or_eq_of_mem_set ha with h1 | h1
  · exact hnn a h1
  · subst h1; exact hpos

theorem deposit_balance (bank : Bank) (a : AccountNumber) (amount b : AccountAmount)
    (hb : balanceOf bank a = some b) (hamt : 0 ≤ amount) :
    ∃ r, Teller_DoDeposit AccountNum_GetBranchID bank a amount = some r ∧
      r.code = ERROR_SUCCESS ∧ balanceOf r.bank a = some (b + amount) := by
  obtain ⟨h, hl, _⟩ := balanceOf_some hb
  refine ⟨_, deposit_found AccountNum_GetBranchID hl hamt, rfl, ?_⟩
  simp [adjust_balanceOf AccountNum_GetBranchID bank a h amount true hl, hb]

theorem withdraw_balance (bank : Bank) (a : AccountNumber) (amount b : AccountAmount)
    (hb : balanceOf bank a = some b) (hamt : 0 ≤ amount) :
    ∃ r, Teller_DoWithdraw AccountNum_GetBranchID bank a amount = some r ∧
      (amount > b → r.code = ERROR_INSUFFICIENT_FUNDS ∧ r.bank = bank) ∧
      (¬ amount > b → r.code = ERROR_SUCCESS ∧ balanceOf r.bank a = some (b - amount)) := by
  obtain ⟨h, hl, hbal⟩ := balanceOf_some hb
  by_cases hgt : amount > b
  · exact ⟨_, withdraw_found_short AccountNum_GetBranchID hl hamt (hbal ▸ hgt),
      fun _ => ⟨rfl, rfl⟩, fun hn => absurd hgt hn⟩
  · have hle : amount ≤ Account_Balance bank h := hbal ▸ not_lt.mp hgt
    refine ⟨_, withdraw_found_ok AccountNum_GetBranchID hl hamt hle,
      fun hn => absurd hn hgt, fun _ => ⟨rfl, ?_⟩⟩
    simp [adjust_balanceOf AccountNum_GetBranchID bank a h (-amount) true hl, hb,
      sub_eq_add_neg]

theorem transfer_balances (bank : Bank) (src dst : AccountNumber)
    (amount bs bd : AccountAmount) (hne : src ≠ dst) (hbs : balanceOf bank src = some bs)
    (hbd : balanceOf bank dst = some bd) (hamt : 0 ≤ amount) :
    ∃ r, Teller_DoTransfer AccountNum_GetBranchID bank src dst amount = some r ∧
      (amount > bs → r.code = ERROR_INSUFFICIENT_FUNDS) ∧
      (¬ amount > bs → r.code = ERROR_SUCCESS ∧
        balanceOf r.bank src = some (bs - amount) ∧
        balanceOf r.bank dst = some (bd + amount)) := by
  obtain ⟨s, hs, hsbal⟩ := balanceOf_some hbs
  obtain ⟨d, hd, _⟩ := balanceOf_some hbd
  by_cases hgt : amount > bs
  · obtain ⟨r, hr, hcode, _⟩ :=
      transfer_found_short AccountNum_GetBranchID hne hs hd hamt (hsbal ▸ hgt)
    exact ⟨r, hr, fun _ => hcode, fun hn => absurd hgt hn⟩
  · have hle : amount ≤ Account_Balance bank s := hsbal ▸ not_lt.mp hgt
    obtain ⟨r, hr, hcode, hbank⟩ :=
      transfer_found_ok AccountNum_GetBranchID hne hs hd hamt hle
    generalize (!Account_IsSameBranch AccountNum_GetBranchID src dst) = ub at hbank
    have hd1 : Account_LookupByNumber
        (Account_Adjust AccountNum_GetBranchID bank s (-amount) ub) dst = some d := by
      rw [adjust_lookup]; exact hd
    refine ⟨r, hr, fun hn => absurd hn hgt, fun _ => ⟨hcode, ?_, ?_⟩⟩
    · rw [hbank, adjust_balanceOf AccountNum_GetBranchID _ dst d amount _ hd1,
        adjust_balanceOf AccountNum_GetBranchID bank src s (-amount) _ hs]
      simp [hne, hbs, sub_eq_add_neg]
    · rw [hbank, adjust_balanceOf AccountNum_GetBranchID _ dst d amount _ hd1,
        adjust_balanceOf AccountNum_GetBranchID bank src s (-amount) _ hs]
      simp [Ne.symm hne, hbd]

theorem deposit_some_nonneg {bank : Bank} {n : AccountNumber} {amount : AccountAmount}
    {r : TellerResult}
    (hr : Teller_DoDeposit AccountNum_GetBranchID bank n amount = some r) : 0 ≤ amount := by
  by_contra hneg
  simp [Teller_DoDeposit, not_le.mp hneg] at hr

theorem withdraw_some_nonneg {bank : Bank} {n : AccountNumber} {amount : AccountAmount}
    {r : TellerResult}
    (hr : Teller_DoWithdraw AccountNum_GetBranchID bank n amount = some r) : 0 ≤ amount := by
  by_contra hneg
  simp [Teller_DoWithdraw, not_le.mp hneg] at hr

theorem transfer_some_nonneg {bank : Bank} {src dst : AccountNumber}
    {amount : AccountAmount} {r : TellerResult}
    (hr : Teller_DoTransfer AccountNum_GetBranchID bank src dst amount = some r) :
    0 ≤ amount := by
  by_contra hneg
  simp [Teller_DoTransfer, not_le.mp hneg] at hr

/-- One request on a provisioned account: the call completes when its amount is
non-negative, and a completed call moves the balance by the deposited amount, or by the
withdrawn amount when the withdrawal succeeded. -/
theorem call_balance (bank : Bank) (a : AccountNumber) (b0 : AccountAmount) (q : Request)
    (hb : balanceOf bank a = some b0) :
    (0 ≤ q.amount → ∃ r, q.call AccountNum_GetBranchID bank a = some r) ∧
    (∀ r, q.call AccountNum_GetBranchID bank a = some r →
      balanceOf r.bank a =
        some (b0 + deposited [(q, r.code)] - withdrawn [(q, r.code)])) := by
  cases q with
  | deposit x =>
    constructor
    · intro hx
      obtain ⟨r, hr, _⟩ := deposit_balance AccountNum_GetBranchID bank a x b0 hb hx
      exact ⟨r, hr⟩
    · intro r hr
      have hx : 0 ≤ x := deposit_some_nonneg AccountNum_GetBranchID hr
      obtain ⟨r1, hr1, _, hbal⟩ :=
        deposit_balance AccountNum_GetBranchID bank a x b0 hb hx
      have hrr : r1 = r := Option.some.inj (hr1.symm.trans hr)
      subst hrr
      simp [hbal, deposited, withdrawn]
  | withdraw y =>
    constructor
    · intro hy
      obtain ⟨r, hr, _⟩ := withdraw_balance AccountNum_GetBranchID bank a y b0 hb hy
      exact ⟨r, hr⟩
    · intro r hr
      have hy : 0 ≤ y := withdraw_some_nonneg AccountNum_GetBranchID hr
      obtain ⟨r1, hr1, hshort, hok⟩ :=
        withdraw_balance AccountNum_GetBranchID bank a y b0 hb hy
      have hrr : r1 = r := Option.some.inj (hr1.symm.trans hr)
      subst hrr
      by_cases hgt : y > b0
      · obtain ⟨hcode, hsame⟩ := hshort hgt
        rw [hsame, hcode]
        simp [hb, deposited, withdrawn]
      · obtain ⟨hcode, hbal⟩ := hok hgt
        rw [hbal, hcode]
        simp [deposited, withdrawn]

theorem deposited_cons (q : Request) (c : ErrorCode) (log : List (Request × ErrorCode)) :
    deposited ((q, c) :: log) = deposited [(q, c)] + deposited log := by
  cases q <;> simp [deposited]

theorem withdrawn_cons (q : Request) (c : ErrorCode) (log : List (Request × ErrorCode)) :
    withdrawn ((q, c) :: log) = withdrawn [(q, c)] + withdrawn log := by
  cases q <;> cases c <;> simp [withdrawn]

/-! ## The claims -/

/-- C1: for distinct provisioned accounts `src` and `dst` and `amount ≥ 0`, if
`Teller_DoTransfer(src, dst, amount)` returns `ERROR_SUCCESS`, both accounts still have a
balance after the call and the sum of the two balances is what it was before the call. -/
theorem transfer_conserves (bank : Bank) (src dst : AccountNumber)
    (amount bs bd : AccountAmount) (r : TellerResult)
    (hne : src ≠ dst) (hbs : balanceOf bank src = some bs)
    (hbd : balanceOf bank dst = some bd) (hamt : 0 ≤ amount)
    (hr : Teller_DoTransfer AccountNum_GetBranchID bank src dst amount = some r)
    (hcode : r.code = ERROR_SUCCESS) :
    ∃ bs1 bd1, balanceOf r.bank src = some bs1 ∧ balanceOf r.bank dst = some bd1 ∧
      bs1 + bd1 = bs + bd := by
  obtain ⟨r1, hr1, hshort, hok⟩ :=
    transfer_balances AccountNum_GetBranchID bank src dst amount bs bd hne hbs hbd hamt
  have hrr : r1 = r := Option.some.inj (hr1.symm.trans hr)
  subst hrr
  have hngt : ¬ amount > bs := by
    intro hgt
    have := hshort hgt
    rw [hcode] at this
    cases this
  obtain ⟨_, hsrc, hdst⟩ := hok hngt
  exact ⟨bs - amount, bd + amount, hsrc, hdst, by ring⟩

/-- Witness of C1 on the scenario bank: `Transfer(100, 200, 30)` succeeds and the two
balances still add up to 50 + 10. -/
theorem transfer_conserves_witness :
    ∃ r, Teller_DoTransfer scenarioBranchID scenarioBank 100 200 30 = some r ∧
      r.code = ERROR_SUCCESS ∧
      ∃ bs1 bd1, balanceOf r.bank 100 = some bs1 ∧ balanceOf r.bank 200 = some bd1 ∧
        bs1 + bd1 = 50 + 10 := by
  obtain ⟨r, hr, hcode, _⟩ :=
    @transfer_found_ok scenarioBranchID scenarioBank 100 200 0 1 30 (by decide) (by decide)
      (by decide) (by decide) (by decide)
  exact ⟨r, hr, hcode,
    transfer_conserves scenarioBranchID scenarioBank 100 200 30 50 10 r (by decide)
      (by decide) (by decide) (by decide) hr hcode⟩

/-- C2: non-negativity of balances is an invariant of the teller layer: from a bank in
which every account balance is `≥ 0`, each of `Teller_DoDeposit`, `Teller_DoWithdraw` and
`Teller_DoTransfer`, called with `amount ≥ 0` on any account numbers, completes and
leaves every account balance `≥ 0`, whatever code it returns. -/
theorem teller_keeps_balances_nonnegative (bank : Bank) (a src dst : AccountNumber)
    (amount : AccountAmount) (hnn : NonNegative bank) (hamt : 0 ≤ amount) :
    (∃ r, Teller_DoDeposit AccountNum_GetBranchID bank a amount = some r ∧
      NonNegative r.bank) ∧
    (∃ r, Teller_DoWithdraw AccountNum_GetBranchID bank a amount = some r ∧
      NonNegative r.bank) ∧
    (∃ r, Teller_DoTransfer AccountNum_GetBranchID bank src dst amount = some r ∧
      NonNegative r.bank) := by
  refine ⟨?_, ?_, ?_⟩
  · rcases deposit_cases AccountNum_GetBranchID bank a amount hamt with
      ⟨_, hr⟩ | ⟨h, tr, _, hr⟩
    · exact ⟨_, hr, hnn⟩
    · exact ⟨_, hr, nonneg_adjust AccountNum_GetBranchID hnn h amount true
        (add_nonneg (nonneg_deref hnn h) hamt)⟩
  · rcases withdraw_cases AccountNum_GetBranchID bank a amount hamt with
      ⟨_, hr⟩ | ⟨h, tr, _, _, _, hr⟩ | ⟨h, tr, _, hle, hr⟩
    · exact ⟨_, hr, hnn⟩
    · exact ⟨_, hr, hnn⟩
    · refine ⟨_, hr, nonneg_adjust AccountNum_GetBranchID hnn h (-amount) true ?_⟩
      unfold Account_Balance at hle
      linarith
  · rcases transfer_cases AccountNum_GetBranchID bank src dst amount hamt with
      ⟨_, hr⟩ | ⟨_, _, hr⟩ | ⟨s, d, tr, _, _, _, _, hr⟩ | ⟨s, d, tr, _, _, _, hle, hr⟩
    · exact ⟨_, hr, hnn⟩
    · exact ⟨_, hr, hnn⟩
    · exact ⟨_, hr, hnn⟩
    · have h1 : NonNegative (Account_Adjust AccountNum_GetBranchID bank s (-amount)
          (!Account_IsSameBranch AccountNum_GetBranchID src dst)) := by
        apply nonneg_adjust AccountNum_GetBranchID hnn
        unfold Account_Balance at hle
        linarith
      exact ⟨_, hr, nonneg_adjust AccountNum_GetBranchID h1 d amount _
        (add_nonneg (nonneg_deref h1 d) hamt)⟩

/-- Witness of C2 on the scenario bank, whose balances 50 and 10 are non-negative:
withdrawing 50 from account 100 and transferring 50 from account 100 to account 200. -/
theorem teller_keeps_balances_nonnegative_witness :
    NonNegative scenarioBank ∧
    (∃ r, Teller_DoDeposit scenarioBranchID scenarioBank 100 50 = some r ∧
      NonNegative r.bank) ∧
    (∃ r, Teller_DoWithdraw scenarioBranchID scenarioBank 100 50 = some r ∧
      NonNegative r.bank) ∧
    (∃ r, Teller_DoTransfer scenarioBranchID scenarioBank 100 200 50 = some r ∧
      NonNegative r.bank) :=
  ⟨by decide,
    teller_keeps_balances_nonnegative scenarioBranchID scenarioBank 100 100 200 50
      (by decide) (by decide)⟩

/-- C3: the branch-aggregate invariant (every branch balance equals the sum of the
balances of the accounts whose number maps to that branch) is preserved by every teller
operation: when it holds before the call, each of `Teller_DoDeposit`, `Teller_DoWithdraw`
and `Teller_DoTransfer`, with `amount ≥ 0` and any account numbers, completes and the
invariant holds in the bank it leaves, whatever code it returns; the transfer may be
within one branch (no aggregate is updated) or between two branches (both are). -/
theorem teller_preserves_branch_invariant (bank : Bank) (a src dst : AccountNumber)
    (amount : AccountAmount) (hinv : BranchInvariant AccountNum_GetBranchID bank)
    (hamt : 0 ≤ amount) :
    (∃ r, Teller_DoDeposit AccountNum_GetBranchID bank a amount = some r ∧
      BranchInvariant AccountNum_GetBranchID r.bank) ∧
    (∃ r, Teller_DoWithdraw AccountNum_GetBranchID bank a amount = some r ∧
      BranchInvariant AccountNum_GetBranchID r.bank) ∧
    (∃ r, Teller_DoTransfer AccountNum_GetBranchID bank src dst amount = some r ∧
      BranchInvariant AccountNum_GetBranchID r.bank) := by
  refine ⟨?_, ?_, ?_⟩
  · rcases deposit_cases AccountNum_GetBranchID bank a amount hamt with
      ⟨_, hr⟩ | ⟨h, tr, hl, hr⟩
    · exact ⟨_, hr, hinv⟩
    · exact ⟨_, hr, adjust_invariant AccountNum_GetBranchID bank h amount (lookup_lt hl) hinv⟩
  · rcases withdraw_cases AccountNum_GetBranchID bank a amount hamt with
      ⟨_, hr⟩ | ⟨h, tr, _, _, _, hr⟩ | ⟨h, tr, hl, _, hr⟩
    · exact ⟨_, hr, hinv⟩
    · exact ⟨_, hr, hinv⟩
    · exact ⟨_, hr,
        adjust_invariant AccountNum_GetBranchID bank h (-amount) (lookup_lt hl) hinv⟩
  · rcases transfer_cases AccountNum_GetBranchID bank src dst amount hamt with
      ⟨_, hr⟩ | ⟨_, _, hr⟩ | ⟨s, d, tr, _, _, _, _, hr⟩ | ⟨s, d, tr, _, hs, hd, _, hr⟩
    · exact ⟨_, hr, hinv⟩
    · exact ⟨_, hr, hinv⟩
    · exact ⟨_, hr, hinv⟩
    · refine ⟨_, hr,
        adjust_pair_invariant AccountNum_GetBranchID bank src dst s d amount _ hs hd ?_ hinv⟩
      intro hub
      simpa [Account_IsSameBranch] using hub

/-- The scenario bank satisfies the branch-aggregate invariant. -/
theorem scenarioBank_invariant : BranchInvariant scenarioBranchID scenarioBank := by
  intro b
  by_cases h1 : b = 1
  · subst h1; decide
  · by_cases h2 : b = 2
    · subst h2; decide
    · have e1 : ¬ (1 = b) := fun h => h1 h.symm
      have e2 : ¬ (2 = b) := fun h => h2 h.symm
      simp [scenarioBank, branchSum, scenarioBranchID, List.filter_cons, h1, h2, e1, e2]

/-- Witness of C3 on the scenario bank: a deposit, a withdrawal and a transfer between
the two branches. -/
theorem teller_preserves_branch_invariant_witness :
    BranchInvariant scenarioBranchID scenarioBank ∧
    (∃ r, Teller_DoDeposit scenarioBranchID scenarioBank 100 7 = some r ∧
      BranchInvariant scenarioBranchID r.bank) ∧
    (∃ r, Teller_DoWithdraw scenarioBranchID scenarioBank 100 7 = some r ∧
      BranchInvariant scenarioBranchID r.bank) ∧
    (∃ r, Teller_DoTransfer scenarioBranchID scenarioBank 100 200 7 = some r ∧
      BranchInvariant scenarioBranchID r.bank) :=
  ⟨scenarioBank_invariant,
    teller_preserves_branch_invariant scenarioBranchID scenarioBank 100 100 200 7
      scenarioBank_invariant (by decide)⟩

/-- C4: failure is atomic: whenever `Teller_DoDeposit`, `Teller_DoWithdraw` or
`Teller_DoTransfer` returns a code other than `ERROR_SUCCESS`, the bank after the call
(every account record and every branch aggregate) is the bank before the call. -/
theorem failure_is_atomic (bank : Bank) (a src dst : AccountNumber)
    (amount : AccountAmount) :
    (∀ r, Teller_DoDeposit AccountNum_GetBranchID bank a amount = some r →
      r.code ≠ ERROR_SUCCESS → r.bank = bank) ∧
    (∀ r, Teller_DoWithdraw AccountNum_GetBranchID bank a amount = some r →
      r.code ≠ ERROR_SUCCESS → r.bank = bank) ∧
    (∀ r, Teller_DoTransfer AccountNum_GetBranchID bank src dst amount = some r →
      r.code ≠ ERROR_SUCCESS → r.bank = bank) := by
  refine ⟨?_, ?_, ?_⟩
  · intro r hr hcode
    rcases deposit_cases AccountNum_GetBranchID bank a amount
        (deposit_some_nonneg AccountNum_GetBranchID hr) with ⟨_, h1⟩ | ⟨h, tr, _, h1⟩
    · rw [h1] at hr; cases hr; rfl
    · rw [h1] at hr; cases hr; exact absurd rfl hcode
  · intro r hr hcode
    rcases withdraw_cases AccountNum_GetBranchID bank a amount
        (withdraw_some_nonneg AccountNum_GetBranchID hr) with
      ⟨_, h1⟩ | ⟨h, tr, _, _, _, h1⟩ | ⟨h, tr, _, _, h1⟩
    · rw [h1] at hr; cases hr; rfl
    · rw [h1] at hr; cases hr; rfl
    · rw [h1] at hr; cases hr; exact absurd rfl hcode
  · intro r hr hcode
    rcases transfer_cases AccountNum_GetBranchID bank src dst amount
        (transfer_some_nonneg AccountNum_GetBranchID hr) with
      ⟨_, h1⟩ | ⟨_, _, h1⟩ | ⟨s, d, tr, _, _, _, _, h1⟩ | ⟨s, d, tr, _, _, _, _, h1⟩
    · rw [h1] at hr; cases hr; rfl
    · rw [h1] at hr; cases hr; rfl
    · rw [h1] at hr; cases hr; rfl
    · rw [h1] at hr; cases hr; exact absurd rfl hcode

/-- Witness of C4 on the scenario bank: `Transfer(100, 200, 80)` fails for lack of funds
and leaves the bank as it was. -/
theorem failure_is_atomic_witness :
    ∃ r, Teller_DoTransfer scenarioBranchID scenarioBank 100 200 80 = some r ∧
      r.code = ERROR_INSUFFICIENT_FUNDS ∧ r.bank = scenarioBank := by
  obtain ⟨r, hr, hcode, _⟩ :=
    @transfer_found_short scenarioBranchID scenarioBank 100 200 0 1 80 (by decide)
      (by decide) (by decide) (by decide) (by decide)
  exact ⟨r, hr, hcode,
    (failure_is_atomic scenarioBranchID scenarioBank 100 100 200 80).2.2 r hr
      (by rw [hcode]; decide)⟩

/-- C5: for every account number `a`, provisioned or not, and every `amount ≥ 0`,
`Teller_DoTransfer(a, a, amount)` returns `ERROR_SUCCESS`, makes no call on any mutex
(its trace is empty) and leaves the bank unchanged. -/
theorem transfer_to_self (bank : Bank) (a : AccountNumber) (amount : AccountAmount)
    (hamt : 0 ≤ amount) :
    Teller_DoTransfer AccountNum_GetBranchID bank a a amount =
      some ⟨ERROR_SUCCESS, bank, []⟩ := by
  simp [Teller_DoTransfer, not_lt.mpr hamt]

/-- Witness of C5: a transfer of 1000 from the unprovisioned account 999 to itself. -/
theorem transfer_to_self_witness :
    Account_LookupByNumber scenarioBank 999 = none ∧
    Teller_DoTransfer scenarioBranchID scenarioBank 999 999 1000 =
      some ⟨ERROR_SUCCESS, scenarioBank, []⟩ :=
  ⟨by decide, transfer_to_self scenarioBranchID scenarioBank 999 1000 (by decide)⟩

/-- C6: for a provisioned account `a` with balance `b` and `amount ≥ 0`,
`Teller_DoWithdraw(a, amount)` completes; it returns `ERROR_INSUFFICIENT_FUNDS` exactly
when `amount > b`, and then the bank is unchanged; otherwise (also when `amount = b`) it
returns `ERROR_SUCCESS`, the balance of `a` becomes `b - amount`, the aggregate of the
branch of `a` decreases by exactly `amount` and every other account and branch is
unchanged. -/
theorem withdraw_spec (bank : Bank) (a : AccountNumber) (amount b : AccountAmount)
    (hb : balanceOf bank a = some b) (hamt : 0 ≤ amount) :
    ∃ r, Teller_DoWithdraw AccountNum_GetBranchID bank a amount = some r ∧
      (r.code = ERROR_INSUFFICIENT_FUNDS ↔ amount > b) ∧
      (amount > b → r.bank = bank) ∧
      (¬ amount > b →
        r.code = ERROR_SUCCESS ∧
        balanceOf r.bank a = some (b - amount) ∧
        r.bank.branches (AccountNum_GetBranchID a) =
          bank.branches (AccountNum_GetBranchID a) - amount ∧
        (∀ n, n ≠ a → balanceOf r.bank n = balanceOf bank n) ∧
        (∀ j, Account_LookupByNumber bank a ≠ some j →
          r.bank.accounts[j]? = bank.accounts[j]?) ∧
        (∀ c, c ≠ AccountNum_GetBranchID a → r.bank.branches c = bank.branches c)) := by
  obtain ⟨h, hl, hbal⟩ := balanceOf_some hb
  by_cases hgt : amount > b
  · refine ⟨_, withdraw_found_short AccountNum_GetBranchID hl hamt (hbal ▸ hgt), ?_, ?_, ?_⟩
    · simp [hgt]
    · intro _; rfl
    · intro hn; exact absurd hgt hn
  · have hle : amount ≤ Account_Balance bank h := hbal ▸ not_lt.mp hgt
    refine ⟨_, withdraw_found_ok AccountNum_GetBranchID hl hamt hle, ?_, ?_, ?_⟩
    · simp [hgt]
    · intro hn; exact absurd hn hgt
    · intro _
      refine ⟨rfl, ?_, ?_, ?_, ?_, ?_⟩
      · simp [adjust_balanceOf AccountNum_GetBranchID bank a h (-amount) true hl, hb,
          sub_eq_add_neg]
      · simp [adjust_branches, lookup_number hl, sub_eq_add_neg]
      · intro n hn
        simp [adjust_balanceOf AccountNum_GetBranchID bank a h (-amount) true hl, hn]
      · intro j hj
        apply adjust_getElem?_other
        intro hhj
        exact hj (hhj ▸ hl)
      · intro c hc
        simp [adjust_branches, lookup_number hl, Ne.symm hc]

/-- Witness of C6, the scenario of the specification: account 100 has balance 50 and
`Withdraw(100, 80)` fails with `ERROR_INSUFFICIENT_FUNDS`, the balance staying 50. -/
theorem withdraw_spec_witness :
    ∃ r, Teller_DoWithdraw scenarioBranchID scenarioBank 100 80 = some r ∧
      r.code = ERROR_INSUFFICIENT_FUNDS ∧ balanceOf r.bank 100 = some 50 := by
  obtain ⟨r, hr, hcode, hsame, _⟩ :=
    withdraw_spec scenarioBranchID scenarioBank 100 80 50 (by decide) (by decide)
  have hbank : r.bank = scenarioBank := hsame (by decide)
  exact ⟨r, hr, hcode.mpr (by decide), by rw [hbank]; decide⟩

/-- C7: for distinct provisioned accounts `src` (balance `bs`) and `dst` (balance `bd`)
and `amount ≥ 0`, `Teller_DoTransfer(src, dst, amount)` completes; it returns
`ERROR_INSUFFICIENT_FUNDS` exactly when `amount > bs`; otherwise it returns
`ERROR_SUCCESS`, the balance of `src` becomes `bs - amount`, that of `dst` becomes
`bd + amount`, when the accounts are in different branches the aggregate of the source
branch decreases by `amount` and that of the destination branch increases by `amount`,
and every other account and every other branch aggregate (every branch aggregate when
the two accounts share a branch) is unchanged. -/
theorem transfer_spec (bank : Bank) (src dst : AccountNumber) (amount bs bd : AccountAmount)
    (hne : src ≠ dst) (hbs : balanceOf bank src = some bs)
    (hbd : balanceOf bank dst = some bd) (hamt : 0 ≤ amount) :
    ∃ r, Teller_DoTransfer AccountNum_GetBranchID bank src dst amount = some r ∧
      (r.code = ERROR_INSUFFICIENT_FUNDS ↔ amount > bs) ∧
      (¬ amount > bs →
        r.code = ERROR_SUCCESS ∧
        balanceOf r.bank src = some (bs - amount) ∧
        balanceOf r.bank dst = some (bd + amount) ∧
        (AccountNum_GetBranchID src ≠ AccountNum_GetBranchID dst →
          r.bank.branches (AccountNum_GetBranchID src) =
            bank.branches (AccountNum_GetBranchID src) - amount ∧
          r.bank.branches (AccountNum_GetBranchID dst) =
            bank.branches (AccountNum_GetBranchID dst) + amount) ∧
        (AccountNum_GetBranchID src = AccountNum_GetBranchID dst →
          ∀ c, r.bank.branches c = bank.branches c) ∧
        (∀ n, n ≠ src → n ≠ dst → balanceOf r.bank n = balanceOf bank n) ∧
        (∀ j, Account_LookupByNumber bank src ≠ some j →
          Account_LookupByNumber bank dst ≠ some j →
          r.bank.accounts[j]? = bank.accounts[j]?) ∧
        (∀ c, c ≠ AccountNum_GetBranchID src → c ≠ AccountNum_GetBranchID dst →
          r.bank.branches c = bank.branches c)) := by
  obtain ⟨s, hs, hsbal⟩ := balanceOf_some hbs
  obtain ⟨d, hd, _⟩ := balanceOf_some hbd
  by_cases hgt : amount > bs
  · obtain ⟨r, hr, hcode, _⟩ :=
      transfer_found_short AccountNum_GetBranchID hne hs hd hamt (hsbal ▸ hgt)
    exact ⟨r, hr, by simp [hcode, hgt], fun hn => absurd hgt hn⟩
  · have hle : amount ≤ Account_Balance bank s := hsbal ▸ not_lt.mp hgt
    obtain ⟨r, hr, hcode, hbank⟩ :=
      transfer_found_ok AccountNum_GetBranchID hne hs hd hamt hle
    generalize hub : (!Account_IsSameBranch AccountNum_GetBranchID src dst) = ub at hbank
    have hd1 : Account_LookupByNumber
        (Account_Adjust AccountNum_GetBranchID bank s (-amount) ub) dst = some d := by
      rw [adjust_lookup]; exact hd
    have hnum1 :
        (deref (Account_Adjust AccountNum_GetBranchID bank s (-amount) ub) d).accountNumber
          = dst :=
      lookup_number hd1
    refine ⟨r, hr, by simp [hcode, hgt], fun _ => ⟨hcode, ?_, ?_, ?_, ?_, ?_, ?_, ?_⟩⟩
    · rw [hbank, adjust_balanceOf AccountNum_GetBranchID _ dst d amount _ hd1,
        adjust_balanceOf AccountNum_GetBranchID bank src s (-amount) _ hs]
      simp [hne, hbs, sub_eq_add_neg]
    · rw [hbank, adjust_balanceOf AccountNum_GetBranchID _ dst d amount _ hd1,
        adjust_balanceOf AccountNum_GetBranchID bank src s (-amount) _ hs]
      simp [Ne.symm hne, hbd]
    · intro hbr
      have hubt : ub = true := by rw [← hub]; simp [Account_IsSameBranch, hbr]
      subst hubt
      rw [hbank]
      simp [adjust_branches, hnum1, lookup_number hs, hbr, Ne.symm hbr, sub_eq_add_neg]
    · intro hbr c
      have hubf : ub = false := by rw [← hub]; simp [Account_IsSameBranch, hbr]
      subst hubf
      rw [hbank]
      simp [adjust_branches]
    · intro n hns hnd
      rw [hbank, adjust_balanceOf AccountNum_GetBranchID _ dst d amount _ hd1,
        adjust_balanceOf AccountNum_GetBranchID bank src s (-amount) _ hs]
      simp [hns, hnd]
    · intro j hjs hjd
      rw [hbank, adjust_getElem?_other, adjust_getElem?_other]
      · intro hh; exact hjs (hh ▸ hs)
      · intro hh; exact hjd (hh ▸ hd)
    · intro c hcs hcd
      rw [hbank]
      simp [adjust_branches, hnum1, lookup_number hs, Ne.symm hcs, Ne.symm hcd]

/-- Witness of C7, the scenario of the specification: account 100 (branch 1, balance 50)
and account 200 (branch 2, balance 10); `Transfer(100, 200, 30)` succeeds and gives the
balances 20 and 40, branch 1 losing 30 and branch 2 gaining 30. -/
theorem transfer_spec_witness :
    ∃ r, Teller_DoTransfer scenarioBranchID scenarioBank 100 200 30 = some r ∧
      r.code = ERROR_SUCCESS ∧
      balanceOf r.bank 100 = some 20 ∧ balanceOf r.bank 200 = some 40 ∧
      r.bank.branches 1 = scenarioBank.branches 1 - 30 ∧
      r.bank.branches 2 = scenarioBank.branches 2 + 30 := by
  obtain ⟨r, hr, _, hok⟩ :=
    transfer_spec scenarioBranchID scenarioBank 100 200 30 50 10 (by decide) (by decide)
      (by decide) (by decide)
  obtain ⟨hcode, hsrc, hdst, hbr, _⟩ := hok (by decide)
  obtain ⟨hb1, hb2⟩ := hbr (by decide)
  exact ⟨r, hr, hcode, hsrc, hdst, hb1, hb2⟩

/-- C8: for a provisioned account `a` (with balance `b`) and `amount ≥ 0`,
`Teller_DoDeposit(a, amount)` completes with `ERROR_SUCCESS`, the balance of `a` becomes
`b + amount`, the aggregate of the branch of `a` grows by exactly `amount`, and every
other account (by number, and every other record of the account table) and every other
branch aggregate is unchanged. -/
theorem deposit_spec (bank : Bank) (a : AccountNumber) (amount b : AccountAmount)
    (hb : balanceOf bank a = some b) (hamt : 0 ≤ amount) :
    ∃ r, Teller_DoDeposit AccountNum_GetBranchID bank a amount = some r ∧
      r.code = ERROR_SUCCESS ∧
      balanceOf r.bank a = some (b + amount) ∧
      r.bank.branches (AccountNum_GetBranchID a) =
        bank.branches (AccountNum_GetBranchID a) + amount ∧
      (∀ n, n ≠ a → balanceOf r.bank n = balanceOf bank n) ∧
      (∀ j, Account_LookupByNumber bank a ≠ some j →
        r.bank.accounts[j]? = bank.accounts[j]?) ∧
      (∀ c, c ≠ AccountNum_GetBranchID a → r.bank.branches c = bank.branches c) := by
  obtain ⟨h, hl, _⟩ := balanceOf_some hb
  refine ⟨_, deposit_found AccountNum_GetBranchID hl hamt, rfl, ?_, ?_, ?_, ?_, ?_⟩
  · simp [adjust_balanceOf AccountNum_GetBranchID bank a h amount true hl, hb]
  · simp [adjust_branches, lookup_number hl]
  · intro n hn
    simp [adjust_balanceOf AccountNum_GetBranchID bank a h amount true hl, hn]
  · intro j hj
    apply adjust_getElem?_other
    intro hhj
    exact hj (hhj ▸ hl)
  · intro c hc
    simp [adjust_branches, lookup_number hl, Ne.symm hc]

/-- Witness of C8 on the scenario bank: depositing 5 into account 100. -/
theorem deposit_spec_witness :
    balanceOf scenarioBank 100 = some 50 ∧ (0 : AccountAmount) ≤ 5 ∧
    ∃ r, Teller_DoDeposit scenarioBranchID scenarioBank 100 5 = some r ∧
      r.code = ERROR_SUCCESS ∧
      balanceOf r.bank 100 = some (50 + 5) ∧
      r.bank.branches (scenarioBranchID 100) =
        scenarioBank.branches (scenarioBranchID 100) + 5 ∧
      (∀ n, n ≠ 100 → balanceOf r.bank n = balanceOf scenarioBank n) ∧
      (∀ j, Account_LookupByNumber scenarioBank 100 ≠ some j →
        r.bank.accounts[j]? = scenarioBank.accounts[j]?) ∧
      (∀ c, c ≠ scenarioBranchID 100 → r.bank.branches c = scenarioBank.branches c) :=
  ⟨by decide, by decide,
    deposit_spec scenarioBranchID scenarioBank 100 5 50 (by decide) (by decide)⟩

/-- C9: with `amount ≥ 0`, `Teller_DoDeposit(n, amount)` and `Teller_DoWithdraw(n, amount)`
complete and return `ERROR_ACCOUNT_NOT_FOUND` exactly when `Account_LookupByNumber` finds
no account for `n`; `Teller_DoTransfer(src, dst, amount)` with `src ≠ dst` completes and
returns `ERROR_ACCOUNT_NOT_FOUND` exactly when `src` or `dst` is not provisioned; in each
of these cases the call made no call on a mutex (its trace is empty) and the bank is
unchanged. -/
theorem account_not_found_spec (bank : Bank) (n src dst : AccountNumber)
    (amount : AccountAmount) (hamt : 0 ≤ amount) (hne : src ≠ dst) :
    (∃ r, Teller_DoDeposit AccountNum_GetBranchID bank n amount = some r ∧
      (r.code = ERROR_ACCOUNT_NOT_FOUND ↔ Account_LookupByNumber bank n = none) ∧
      (r.code = ERROR_ACCOUNT_NOT_FOUND → r.trace = [] ∧ r.bank = bank)) ∧
    (∃ r, Teller_DoWithdraw AccountNum_GetBranchID bank n amount = some r ∧
      (r.code = ERROR_ACCOUNT_NOT_FOUND ↔ Account_LookupByNumber bank n = none) ∧
      (r.code = ERROR_ACCOUNT_NOT_FOUND → r.trace = [] ∧ r.bank = bank)) ∧
    (∃ r, Teller_DoTransfer AccountNum_GetBranchID bank src dst amount = some r ∧
      (r.code = ERROR_ACCOUNT_NOT_FOUND ↔
        (Account_LookupByNumber bank src = none ∨
          Account_LookupByNumber bank dst = none)) ∧
      (r.code = ERROR_ACCOUNT_NOT_FOUND → r.trace = [] ∧ r.bank = bank)) := by
  refine ⟨?_, ?_, ?_⟩
  · rcases deposit_cases AccountNum_GetBranchID bank n amount hamt with
      ⟨hl, hr⟩ | ⟨h, tr, hl, hr⟩
    · exact ⟨_, hr, by simp [hl], fun _ => ⟨rfl, rfl⟩⟩
    · exact ⟨_, hr, by simp [hl], fun hc => by cases hc⟩
  · rcases withdraw_cases AccountNum_GetBranchID bank n amount hamt with
      ⟨hl, hr⟩ | ⟨h, tr, hl, _, _, hr⟩ | ⟨h, tr, hl, _, hr⟩
    · exact ⟨_, hr, by simp [hl], fun _ => ⟨rfl, rfl⟩⟩
    · exact ⟨_, hr, by simp [hl], fun hc => by cases hc⟩
    · exact ⟨_, hr, by simp [hl], fun hc => by cases hc⟩
  · rcases transfer_cases AccountNum_GetBranchID bank src dst amount hamt with
      ⟨heq, _⟩ | ⟨_, hl, hr⟩ | ⟨s, d, tr, _, hs, hd, _, hr⟩ | ⟨s, d, tr, _, hs, hd, _, hr⟩
    · exact absurd heq hne
    · exact ⟨_, hr, by simp [hl], fun _ => ⟨rfl, rfl⟩⟩
    · exact ⟨_, hr, by simp [hs, hd], fun hc => by cases hc⟩
    · exact ⟨_, hr, by simp [hs, hd], fun hc => by cases hc⟩

/-- Witness of C9, the scenario of the specification: `Deposit(999, 10)` with 999
unprovisioned returns `ERROR_ACCOUNT_NOT_FOUND`, with an empty trace and the bank
unchanged. -/
theorem account_not_found_spec_witness :
    Account_LookupByNumber scenarioBank 999 = none ∧
    ∃ r, Teller_DoDeposit scenarioBranchID scenarioBank 999 10 = some r ∧
      r.code = ERROR_ACCOUNT_NOT_FOUND ∧ r.trace = [] ∧ r.bank = scenarioBank := by
  obtain ⟨⟨r, hr, hiff, hnone⟩, _⟩ :=
    account_not_found_spec scenarioBranchID scenarioBank 999 100 200 10 (by decide)
      (by decide)
  have hcode : r.code = ERROR_ACCOUNT_NOT_FOUND := hiff.mpr (by decide)
  exact ⟨by decide, r, hr, hcode, hnone hcode⟩

/-- C10: for a provisioned account `a` with initial balance `b0` and every finite
sequence of `Teller_DoDeposit(a, x)` and `Teller_DoWithdraw(a, y)` calls executed one
after the other, in whatever order: the run completes when every amount is `≥ 0`, and
the final balance of `a` after a completed run is `b0` plus the sum of all deposited
amounts minus the sum of the amounts of exactly those withdrawals that returned
`ERROR_SUCCESS`. -/
theorem deposits_withdrawals_balance (bank : Bank) (a : AccountNumber)
    (b0 : AccountAmount) (reqs : List Request) (hb : balanceOf bank a = some b0) :
    ((∀ q ∈ reqs, 0 ≤ q.amount) →
      ∃ final log, runRequests AccountNum_GetBranchID a bank reqs = some (final, log)) ∧
    (∀ final log, runRequests AccountNum_GetBranchID a bank reqs = some (final, log) →
      log.map Prod.fst = reqs ∧
      balanceOf final a = some (b0 + deposited log - withdrawn log)) := by
  induction reqs generalizing bank b0 with
  | nil =>
    constructor
    · intro _; exact ⟨bank, [], rfl⟩
    · intro final log hrun
      simp [runRequests] at hrun
      obtain ⟨h1, h2⟩ := hrun
      subst h1; subst h2
      simp [hb, deposited, withdrawn]
  | cons q rest ih =>
    obtain ⟨hcomp, hstep⟩ := call_balance AccountNum_GetBranchID bank a b0 q hb
    constructor
    · intro hall
      obtain ⟨r, hr⟩ := hcomp (hall q (List.mem_cons_self q rest))
      obtain ⟨final, log, hrun⟩ :=
        (ih r.bank _ (hstep r hr)).1 (fun q1 hq1 => hall q1 (List.mem_cons_of_mem q hq1))
      exact ⟨final, (q, r.code) :: log, by simp [runRequests, hr, hrun]⟩
    · intro final log hrun
      cases hr : q.call AccountNum_GetBranchID bank a with
      | none => simp [runRequests, hr] at hrun
      | some r =>
        cases hrest : runRequests AccountNum_GetBranchID a r.bank rest with
        | none => simp [runRequests, hr, hrest] at hrun
        | some res =>
          obtain ⟨final1, log1⟩ := res
          simp [runRequests, hr, hrest] at hrun
          obtain ⟨h1, h2⟩ := hrun
          subst h1; subst h2
          obtain ⟨hmap, hbal⟩ := (ih r.bank _ (hstep r hr)).2 final1 log1 hrest
          refine ⟨by simp [hmap], ?_⟩
          rw [hbal, deposited_cons q r.code log1, withdrawn_cons q r.code log1]
          congr 1
          ring

/-- Witness of C10 on the scenario bank: on account 100 (balance 50), deposit 5,
withdraw 80 (refused), withdraw 20 and withdraw 35 leave 50 + 5 - (20 + 35) = 0. -/
theorem deposits_withdrawals_balance_witness :
    ∃ final log,
      runRequests scenarioBranchID 100 scenarioBank
        [Request.deposit 5, Request.withdraw 80, Request.withdraw 20,
          Request.withdraw 35] = some (final, log) ∧
      log.map Prod.snd =
        [ERROR_SUCCESS, ERROR_INSUFFICIENT_FUNDS, ERROR_SUCCESS, ERROR_SUCCESS] ∧
      balanceOf final 100 = some (50 + deposited log - withdrawn log) ∧
      balanceOf final 100 = some 0 := by
  have hthm :=
    deposits_withdrawals_balance scenarioBranchID scenarioBank 100 50
      [Request.deposit 5, Request.withdraw 80, Request.withdraw 20, Request.withdraw 35]
      (by decide)
  obtain ⟨final, log, hrun⟩ := hthm.1 (by decide)
  have hbal := (hthm.2 final log hrun).2
  have hcodes :
      (runRequests scenarioBranchID 100 scenarioBank
        [Request.deposit 5, Request.withdraw 80, Request.withdraw 20,
          Request.withdraw 35]).map (fun res => (res.2.map Prod.snd, balanceOf res.1 100)) =
        some ([ERROR_SUCCESS, ERROR_INSUFFICIENT_FUNDS, ERROR_SUCCESS, ERROR_SUCCESS],
          some 0) := by
    decide
  rw [hrun] at hcodes
  simp only [Option.map_some', Option.some.injEq, Prod.mk.injEq] at hcodes
  exact ⟨final, log, hrun, hcodes.1, hbal, hcodes.2⟩

/-! ## Lemmas on traces -/

theorem transfer_trace {bank : Bank} {src dst : AccountNumber} {s d : Nat}
    {amount : AccountAmount} {r : TellerResult} (hne : src ≠ dst)
    (hs : Account_LookupByNumber bank src = some s)
    (hd : Account_LookupByNumber bank dst = some d)
    (hr : Teller_DoTransfer AccountNum_GetBranchID bank src dst amount = some r) :
    ∃ mid, acquired mid = [] ∧ released mid = [] ∧
      (∀ held, runHeld held mid = some held) ∧
      r.trace =
        transferLocks bank s d (AccountNum_GetBranchID src) (AccountNum_GetBranchID dst)
            (!Account_IsSameBranch AccountNum_GetBranchID src dst) ++ mid ++
          transferUnlocks s d (AccountNum_GetBranchID src) (AccountNum_GetBranchID dst)
            (!Account_IsSameBranch AccountNum_GetBranchID src dst) := by
  have hamt : 0 ≤ amount := transfer_some_nonneg AccountNum_GetBranchID hr
  by_cases hgt : Account_Balance bank s < amount
  · simp [Teller_DoTransfer, not_lt.mpr hamt, hne, hs, hd, hgt] at hr
    subst hr
    exact ⟨[Event.balance s], rfl, rfl, fun _ => rfl, by simp⟩
  · simp [Teller_DoTransfer, not_lt.mpr hamt, hne, hs, hd, hgt] at hr
    subst hr
    exact ⟨[Event.balance s,
        Event.adjust s (-amount) (!Account_IsSameBranch AccountNum_GetBranchID src dst),
        Event.adjust d amount (!Account_IsSameBranch AccountNum_GetBranchID src dst)],
      rfl, rfl, fun _ => rfl, by simp⟩

theorem transferLocks_plan {bank : Bank} {src dst : AccountNumber} {s d : Nat}
    (hs : Account_LookupByNumber bank src = some s)
    (hd : Account_LookupByNumber bank dst = some d) :
    transferLocks bank s d (AccountNum_GetBranchID src) (AccountNum_GetBranchID dst)
        (!Account_IsSameBranch AccountNum_GetBranchID src dst) =
      (transferPlan AccountNum_GetBranchID src dst s d).map Event.lock := by
  unfold transferLocks transferPlan Account_IsSameBranch
  rw [lookup_number hs, lookup_number hd]
  by_cases hlt : src < dst <;>
    by_cases hbr : AccountNum_GetBranchID src = AccountNum_GetBranchID dst <;>
    simp [hlt, hbr]

theorem acquired_append (t1 t2 : List Event) :
    acquired (t1 ++ t2) = acquired t1 ++ acquired t2 := by
  induction t1 with
  | nil => rfl
  | cons e rest ih => cases e <;> simp [acquired, ih]

theorem released_append (t1 t2 : List Event) :
    released (t1 ++ t2) = released t1 ++ released t2 := by
  induction t1 with
  | nil => rfl
  | cons e rest ih => cases e <;> simp [released, ih]

theorem acquired_map_lock (ls : List Mutex) : acquired (ls.map Event.lock) = ls := by
  induction ls with
  | nil => rfl
  | cons m rest ih => simp [acquired, ih]

theorem released_map_lock (ls : List Mutex) : released (ls.map Event.lock) = [] := by
  induction ls with
  | nil => rfl
  | cons m rest ih => simp [released, ih]

theorem acquired_transferUnlocks (s d : Nat) (bs bd : BranchID) (ub : Bool) :
    acquired (transferUnlocks s d bs bd ub) = [] := by
  cases ub <;> simp [transferUnlocks, acquired]

theorem released_transferUnlocks (s d : Nat) (bs bd : BranchID) (ub : Bool) :
    released (transferUnlocks s d bs bd ub) =
      [Mutex.account d, Mutex.account s] ++
        (if ub then [Mutex.branch bs, Mutex.branch bd] else []) := by
  cases ub <;> simp [transferUnlocks, released]

/-- The locks and unlocks of a transfer between two accounts it found. -/
theorem transfer_locks_unlocks {bank : Bank} {src dst : AccountNumber} {s d : Nat}
    {amount : AccountAmount} {r : TellerResult} (hne : src ≠ dst)
    (hs : Account_LookupByNumber bank src = some s)
    (hd : Account_LookupByNumber bank dst = some d)
    (hr : Teller_DoTransfer AccountNum_GetBranchID bank src dst amount = some r) :
    acquired r.trace = transferPlan AccountNum_GetBranchID src dst s d ∧
    released r.trace =
      [Mutex.account d, Mutex.account s] ++
        (if AccountNum_GetBranchID src = AccountNum_GetBranchID dst then []
         else [Mutex.branch (AccountNum_GetBranchID src),
               Mutex.branch (AccountNum_GetBranchID dst)]) := by
  obtain ⟨mid, hacq, hrel, _, htrace⟩ :=
    transfer_trace AccountNum_GetBranchID hne hs hd hr
  rw [htrace, transferLocks_plan AccountNum_GetBranchID hs hd]
  constructor
  · simp [acquired_append, acquired_map_lock, hacq, acquired_transferUnlocks]
  · simp only [released_append, released_map_lock, hrel, released_transferUnlocks,
      List.nil_append, List.append_nil]
    by_cases hbr : AccountNum_GetBranchID src = AccountNum_GetBranchID dst <;>
      simp [Account_IsSameBranch, hbr]

theorem transferPlan_swap (src dst : AccountNumber) (s d : Nat) (hne : src ≠ dst) :
    transferPlan AccountNum_GetBranchID dst src d s =
      transferPlan AccountNum_GetBranchID src dst s d := by
  unfold transferPlan
  rcases Nat.lt_or_gt_of_ne hne with hlt | hgt
  · have h2 : ¬ dst < src := Nat.lt_asymm hlt
    by_cases hbr : AccountNum_GetBranchID src = AccountNum_GetBranchID dst
    · simp [hlt, h2, hbr]
    · simp [hlt, h2, hbr, Ne.symm hbr]
  · have h2 : ¬ src < dst := Nat.lt_asymm hgt
    by_cases hbr : AccountNum_GetBranchID src = AccountNum_GetBranchID dst
    · simp [hgt, h2, hbr]
    · simp [hgt, h2, hbr, Ne.symm hbr]

theorem acquired_map_unlock (us : List Mutex) : acquired (us.map Event.unlock) = [] := by
  induction us with
  | nil => rfl
  | cons m rest ih => simp [acquired, ih]

theorem released_map_unlock (us : List Mutex) : released (us.map Event.unlock) = us := by
  induction us with
  | nil => rfl
  | cons m rest ih => simp [released, ih]

theorem LockShape.acquired_eq {t : List Event} {ls us : List Mutex}
    (h : LockShape t ls us) : acquired t = ls := by
  obtain ⟨mid, hacq, _, ht⟩ := h
  rw [ht]
  simp [acquired_append, acquired_map_lock, acquired_map_unlock, hacq]

theorem LockShape.released_eq {t : List Event} {ls us : List Mutex}
    (h : LockShape t ls us) : released t = us := by
  obtain ⟨mid, _, hrel, ht⟩ := h
  rw [ht]
  simp [released_append, released_map_lock, released_map_unlock, hrel]

theorem runHeld_append (held : List Mutex) (t1 t2 : List Event) :
    runHeld held (t1 ++ t2) = (runHeld held t1).bind (fun h => runHeld h t2) := by
  induction t1 generalizing held with
  | nil => rfl
  | cons e rest ih =>
    simp only [List.cons_append, runHeld]
    cases holdStep held e with
    | none => rfl
    | some h1 => exact ih h1

theorem runHeld_neutral (held : List Mutex) (mid : List Event)
    (hacq : acquired mid = []) (hrel : released mid = []) : runHeld held mid = some held := by
  induction mid with
  | nil => rfl
  | cons e rest ih =>
    cases e with
    | lock m => simp [acquired] at hacq
    | unlock m => simp [released] at hrel
    | balance h => exact ih (by simpa [acquired] using hacq) (by simpa [released] using hrel)
    | adjust h a u =>
      exact ih (by simpa [acquired] using hacq) (by simpa [released] using hrel)

theorem runHeld_locks (held ls : List Mutex) (hnd : ls.Nodup)
    (hdis : ∀ m ∈ ls, m ∉ held) :
    runHeld held (ls.map Event.lock) = some (ls.reverse ++ held) := by
  induction ls generalizing held with
  | nil => rfl
  | cons m rest ih =>
    have hm : m ∉ held := hdis m (List.mem_cons_self m rest)
    obtain ⟨hmrest, hndrest⟩ := List.nodup_cons.mp hnd
    simp only [List.map_cons, runHeld, holdStep, hm, if_false]
    rw [ih (m :: held) hndrest]
    · simp
    · intro x hx
      simp only [List.mem_cons, not_or]
      exact ⟨fun hxm => hmrest (hxm ▸ hx), hdis x (List.mem_cons_of_mem m hx)⟩

theorem runHeld_unlocks (held us : List Mutex) :
    ∀ own : List Mutex, own.Perm us → own.Nodup →
      runHeld (own ++ held) (us.map Event.unlock) = some held := by
  induction us with
  | nil =>
    intro own hperm _
    rw [List.perm_nil.mp hperm]
    rfl
  | cons m rest ih =>
    intro own hperm hnd
    have hm : m ∈ own := hperm.symm.subset (List.mem_cons_self m rest)
    have hm2 : m ∈ own ++ held := List.mem_append_left held hm
    simp only [List.map_cons, runHeld, holdStep, hm2, if_true]
    rw [List.erase_append_left held hm]
    apply ih
    · exact (List.perm_cons m).mp ((List.perm_cons_erase hm).symm.trans hperm)
    · exact hnd.erase m

/-- A thread that runs a trace of lock shape ends with the locks it started with. -/
theorem LockShape.runHeld_eq {t : List Event} {ls us : List Mutex}
    (h : LockShape t ls us) (hnd : ls.Nodup) (hperm : us.Perm ls) (held : List Mutex)
    (hdis : ∀ m ∈ ls, m ∉ held) : runHeld held t = some held := by
  obtain ⟨mid, hacq, hrel, ht⟩ := h
  rw [ht, runHeld_append, runHeld_append, runHeld_locks held ls hnd hdis]
  simp only [Option.some_bind, runHeld_neutral _ mid hacq hrel]
  exact runHeld_unlocks held us ls.reverse ((List.reverse_perm ls).trans hperm.symm)
    (List.nodup_reverse.mpr hnd)

theorem lockShape_nil : LockShape [] [] [] := ⟨[], rfl, rfl, rfl⟩

theorem deposit_shape {bank : Bank} {n : AccountNumber} {amount : AccountAmount}
    {r : TellerResult}
    (hr : Teller_DoDeposit AccountNum_GetBranchID bank n amount = some r) :
    (Account_LookupByNumber bank n = none ∧ r.trace = []) ∨
    (∃ h, Account_LookupByNumber bank n = some h ∧
      LockShape r.trace
        [Mutex.account h, Mutex.branch (AccountNum_GetBranchID n)]
        [Mutex.account h, Mutex.branch (AccountNum_GetBranchID n)]) := by
  have hamt : 0 ≤ amount := deposit_some_nonneg AccountNum_GetBranchID hr
  cases hl : Account_LookupByNumber bank n with
  | none =>
    simp [Teller_DoDeposit, not_lt.mpr hamt, hl] at hr
    subst hr
    exact Or.inl ⟨rfl, rfl⟩
  | some h =>
    rw [deposit_found AccountNum_GetBranchID hl hamt] at hr
    cases hr
    exact Or.inr ⟨h, rfl, [Event.adjust h amount true], rfl, rfl, rfl⟩

theorem withdraw_shape {bank : Bank} {n : AccountNumber} {amount : AccountAmount}
    {r : TellerResult}
    (hr : Teller_DoWithdraw AccountNum_GetBranchID bank n amount = some r) :
    (Account_LookupByNumber bank n = none ∧ r.trace = []) ∨
    (∃ h, Account_LookupByNumber bank n = some h ∧
      LockShape r.trace
        [Mutex.account h, Mutex.branch (AccountNum_GetBranchID n)]
        [Mutex.account h, Mutex.branch (AccountNum_GetBranchID n)]) := by
  have hamt : 0 ≤ amount := withdraw_some_nonneg AccountNum_GetBranchID hr
  cases hl : Account_LookupByNumber bank n with
  | none =>
    simp [Teller_DoWithdraw, not_lt.mpr hamt, hl] at hr
    subst hr
    exact Or.inl ⟨rfl, rfl⟩
  | some h =>
    by_cases hgt : amount > Account_Balance bank h
    · rw [withdraw_found_short AccountNum_GetBranchID hl hamt hgt] at hr
      cases hr
      exact Or.inr ⟨h, rfl, [Event.balance h], rfl, rfl, rfl⟩
    · rw [withdraw_found_ok AccountNum_GetBranchID hl hamt (not_lt.mp hgt)] at hr
      cases hr
      exact Or.inr ⟨h, rfl, [Event.balance h, Event.adjust h (-amount) true], rfl, rfl, rfl⟩

theorem transfer_shape {bank : Bank} {src dst : AccountNumber} {amount : AccountAmount}
    {r : TellerResult}
    (hr : Teller_DoTransfer AccountNum_GetBranchID bank src dst amount = some r) :
    ((src = dst ∨ Account_LookupByNumber bank src = none ∨
        Account_LookupByNumber bank dst = none) ∧ r.trace = []) ∨
    (∃ s d, src ≠ dst ∧ Account_LookupByNumber bank src = some s ∧
      Account_LookupByNumber bank dst = some d ∧
      LockShape r.trace (transferPlan AccountNum_GetBranchID src dst s d)
        ([Mutex.account d, Mutex.account s] ++
          (if AccountNum_GetBranchID src = AccountNum_GetBranchID dst then []
           else [Mutex.branch (AccountNum_GetBranchID src),
                 Mutex.branch (AccountNum_GetBranchID dst)]))) := by
  have hamt : 0 ≤ amount := transfer_some_nonneg AccountNum_GetBranchID hr
  by_cases hne : src = dst
  · simp [Teller_DoTransfer, not_lt.mpr hamt, hne] at hr
    subst hr
    exact Or.inl ⟨Or.inl hne, rfl⟩
  · cases hs : Account_LookupByNumber bank src with
    | none =>
      simp [Teller_DoTransfer, not_lt.mpr hamt, hne, hs] at hr
      subst hr
      exact Or.inl ⟨Or.inr (Or.inl rfl), rfl⟩
    | some s =>
      cases hd : Account_LookupByNumber bank dst with
      | none =>
        simp [Teller_DoTransfer, not_lt.mpr hamt, hne, hs, hd] at hr
        subst hr
        exact Or.inl ⟨Or.inr (Or.inr rfl), rfl⟩
      | some d =>
        obtain ⟨mid, hacq, hrel, _, htrace⟩ :=
          transfer_trace AccountNum_GetBranchID hne hs hd hr
        refine Or.inr ⟨s, d, hne, rfl, rfl, mid, hacq, hrel, ?_⟩
        rw [htrace, transferLocks_plan AccountNum_GetBranchID hs hd]
        congr 1
        by_cases hbr : AccountNum_GetBranchID src = AccountNum_GetBranchID dst <;>
          simp [transferUnlocks, Account_IsSameBranch, hbr]

theorem transferPlan_nodup {bank : Bank} {src dst : AccountNumber} {s d : Nat}
    (hne : src ≠ dst) (hs : Account_LookupByNumber bank src = some s)
    (hd : Account_LookupByNumber bank dst = some d) :
    (transferPlan AccountNum_GetBranchID src dst s d).Nodup := by
  have hsd : s ≠ d := fun h => hne (lookup_inj hs (h ▸ hd))
  unfold transferPlan
  by_cases hlt : src < dst <;>
    by_cases hbr : AccountNum_GetBranchID src = AccountNum_GetBranchID dst
  · simp [hlt, hbr, hsd, Ne.symm hsd]
  · simp [hlt, hbr, hsd, Ne.symm hsd, Ne.symm hbr]
  · simp [hlt, hbr, hsd, Ne.symm hsd]
  · simp [hlt, hbr, hsd, Ne.symm hsd, Ne.symm hbr]

theorem transferPlan_perm (src dst : AccountNumber) (s d : Nat) :
    ([Mutex.account d, Mutex.account s] ++
      (if AccountNum_GetBranchID src = AccountNum_GetBranchID dst then []
       else [Mutex.branch (AccountNum_GetBranchID src),
             Mutex.branch (AccountNum_GetBranchID dst)])).Perm
      (transferPlan AccountNum_GetBranchID src dst s d) := by
  unfold transferPlan
  by_cases hlt : src < dst <;>
    by_cases hbr : AccountNum_GetBranchID src = AccountNum_GetBranchID dst
  · simp [hlt, hbr]; exact List.Perm.swap _ _ _
  · simp [hlt, hbr]; exact List.Perm.swap _ _ _
  · simp [hlt, hbr]
  · simp [hlt, hbr]; exact List.Perm.swap _ _ _

/-- The trace of every completed teller call has lock shape: it locks distinct mutexes
and then unlocks the same mutexes. -/
theorem call_shape {bank : Bank} {call : TellerCall} {r : TellerResult}
    (hr : call.run AccountNum_GetBranchID bank = some r) :
    ∃ ls us, LockShape r.trace ls us ∧ ls.Nodup ∧ us.Perm ls := by
  cases call with
  | deposit n amount =>
    rcases deposit_shape AccountNum_GetBranchID hr with ⟨_, ht⟩ | ⟨h, _, hshape⟩
    · exact ⟨[], [], ht ▸ lockShape_nil, List.nodup_nil, List.Perm.refl _⟩
    · exact ⟨_, _, hshape, by simp, List.Perm.refl _⟩
  | withdraw n amount =>
    rcases withdraw_shape AccountNum_GetBranchID hr with ⟨_, ht⟩ | ⟨h, _, hshape⟩
    · exact ⟨[], [], ht ▸ lockShape_nil, List.nodup_nil, List.Perm.refl _⟩
    · exact ⟨_, _, hshape, by simp, List.Perm.refl _⟩
  | transfer src dst amount =>
    rcases transfer_shape AccountNum_GetBranchID hr with
      ⟨_, ht⟩ | ⟨s, d, hne, hs, hd, hshape⟩
    · exact ⟨[], [], ht ▸ lockShape_nil, List.nodup_nil, List.Perm.refl _⟩
    · exact ⟨_, _, hshape, transferPlan_nodup AccountNum_GetBranchID hne hs hd,
        transferPlan_perm AccountNum_GetBranchID src dst s d⟩

theorem call_completes (bank : Bank) (call : TellerCall) (hamt : 0 ≤ call.amount) :
    ∃ r, call.run AccountNum_GetBranchID bank = some r := by
  cases call with
  | deposit n amount =>
    rcases deposit_cases AccountNum_GetBranchID bank n amount hamt with
      ⟨_, hr⟩ | ⟨h, tr, _, hr⟩
    · exact ⟨_, hr⟩
    · exact ⟨_, hr⟩
  | withdraw n amount =>
    rcases withdraw_cases AccountNum_GetBranchID bank n amount hamt with
      ⟨_, hr⟩ | ⟨h, tr, _, _, _, hr⟩ | ⟨h, tr, _, _, hr⟩
    · exact ⟨_, hr⟩
    · exact ⟨_, hr⟩
    · exact ⟨_, hr⟩
  | transfer src dst amount =>
    rcases transfer_cases AccountNum_GetBranchID bank src dst amount hamt with
      ⟨_, hr⟩ | ⟨_, _, hr⟩ | ⟨s, d, tr, _, _, _, _, hr⟩ | ⟨s, d, tr, _, _, _, _, hr⟩
    · exact ⟨_, hr⟩
    · exact ⟨_, hr⟩
    · exact ⟨_, hr⟩
    · exact ⟨_, hr⟩

theorem mem_acquired {t : List Event} {m : Mutex} : Event.lock m ∈ t ↔ m ∈ acquired t := by
  induction t with
  | nil => simp [acquired]
  | cons e rest ih => cases e <;> simp [acquired, ih]

theorem mem_released {t : List Event} {m : Mutex} :
    Event.unlock m ∈ t ↔ m ∈ released t := by
  induction t with
  | nil => simp [released]
  | cons e rest ih => cases e <;> simp [released, ih]

/-! ## The claims on locks -/

/-- C11: no teller operation leaves a lock held. Every call of `Teller_DoDeposit`,
`Teller_DoWithdraw` or `Teller_DoTransfer` with `amount ≥ 0` completes, on whichever exit
path; it locks no mutex twice, the mutexes it unlocks are exactly the mutexes it locked,
each once; and a thread that holds the locks `held` (none of them a lock the call takes)
makes only calls that are allowed (no unlock of a mutex it does not hold) and holds
exactly `held` again when the call returns. -/
theorem teller_releases_every_lock (bank : Bank) (call : TellerCall)
    (hamt : 0 ≤ call.amount) :
    ∃ r, call.run AccountNum_GetBranchID bank = some r ∧
      (acquired r.trace).Nodup ∧
      (released r.trace).Perm (acquired r.trace) ∧
      (∀ held, (∀ m ∈ acquired r.trace, m ∉ held) → runHeld held r.trace = some held) := by
  obtain ⟨r, hr⟩ := call_completes AccountNum_GetBranchID bank call hamt
  obtain ⟨ls, us, hshape, hnd, hperm⟩ := call_shape AccountNum_GetBranchID hr
  refine ⟨r, hr, ?_, ?_, ?_⟩
  · rw [hshape.acquired_eq]; exact hnd
  · rw [hshape.acquired_eq, hshape.released_eq]; exact hperm
  · intro held hdis
    rw [hshape.acquired_eq] at hdis
    exact hshape.runHeld_eq hnd hperm held hdis

/-- Witness of C11 on the scenario bank: `Transfer(100, 200, 80)`, which fails for lack of
funds after taking four locks, run by a thread that holds nothing. -/
theorem teller_releases_every_lock_witness :
    ∃ r, (TellerCall.transfer 100 200 80).run scenarioBranchID scenarioBank = some r ∧
      r.code = ERROR_INSUFFICIENT_FUNDS ∧
      acquired r.trace =
        [Mutex.account 0, Mutex.account 1, Mutex.branch 1, Mutex.branch 2] ∧
      runHeld [] r.trace = some [] := by
  obtain ⟨r, hr, _, _, hheld⟩ :=
    teller_releases_every_lock scenarioBranchID scenarioBank
      (TellerCall.transfer 100 200 80) (by decide)
  have hcode :
      ((TellerCall.transfer 100 200 80).run scenarioBranchID scenarioBank).map
          (fun x => (x.code, acquired x.trace)) =
        some (ERROR_INSUFFICIENT_FUNDS,
          [Mutex.account 0, Mutex.account 1, Mutex.branch 1, Mutex.branch 2]) := by
    decide
  rw [hr] at hcode
  simp only [Option.map_some', Option.some.injEq, Prod.mk.injEq] at hcode
  exact ⟨r, hr, hcode.1, hcode.2, hheld [] (by simp)⟩

/-- C17 as stated fails, for each of the three operations, on the scenario bank.
`Deposit(100, 5)` and `Withdraw(100, 5)` lock the account lock and then the branch lock,
and release the account lock first. `Transfer(200, 100, 3)`, which succeeds, locks account
100, account 200, branch 1, branch 2 and releases account 100, account 200, branch 2,
branch 1. `Transfer(100, 200, 80)`, which fails for lack of funds, locks account 100,
account 200, branch 1, branch 2 and releases account 200, account 100, branch 1,
branch 2. None of the four releases in the reverse of the order of acquisition. -/
theorem release_order_counterexample :
    (∃ r, Teller_DoDeposit scenarioBranchID scenarioBank 100 5 = some r ∧
      acquired r.trace = [Mutex.account 0, Mutex.branch 1] ∧
      released r.trace = [Mutex.account 0, Mutex.branch 1] ∧
      released r.trace ≠ (acquired r.trace).reverse) ∧
    (∃ r, Teller_DoWithdraw scenarioBranchID scenarioBank 100 5 = some r ∧
      acquired r.trace = [Mutex.account 0, Mutex.branch 1] ∧
      released r.trace = [Mutex.account 0, Mutex.branch 1] ∧
      released r.trace ≠ (acquired r.trace).reverse) ∧
    (∃ r, Teller_DoTransfer scenarioBranchID scenarioBank 200 100 3 = some r ∧
      r.code = ERROR_SUCCESS ∧
      acquired r.trace =
        [Mutex.account 0, Mutex.account 1, Mutex.branch 1, Mutex.branch 2] ∧
      released r.trace =
        [Mutex.account 0, Mutex.account 1, Mutex.branch 2, Mutex.branch 1] ∧
      released r.trace ≠ (acquired r.trace).reverse) ∧
    (∃ r, Teller_DoTransfer scenarioBranchID scenarioBank 100 200 80 = some r ∧
      r.code = ERROR_INSUFFICIENT_FUNDS ∧
      acquired r.trace =
        [Mutex.account 0, Mutex.account 1, Mutex.branch 1, Mutex.branch 2] ∧
      released r.trace =
        [Mutex.account 1, Mutex.account 0, Mutex.branch 1, Mutex.branch 2] ∧
      released r.trace ≠ (acquired r.trace).reverse) := by
  have hd : (Teller_DoDeposit scenarioBranchID scenarioBank 100 5).map
      (fun r => (acquired r.trace, released r.trace)) =
      some ([Mutex.account 0, Mutex.branch 1], [Mutex.account 0, Mutex.branch 1]) := by
    decide
  have hw : (Teller_DoWithdraw scenarioBranchID scenarioBank 100 5).map
      (fun r => (acquired r.trace, released r.trace)) =
      some ([Mutex.account 0, Mutex.branch 1], [Mutex.account 0, Mutex.branch 1]) := by
    decide
  have ht : (Teller_DoTransfer scenarioBranchID scenarioBank 200 100 3).map
      (fun r => (r.code, acquired r.trace, released r.trace)) =
      some (ERROR_SUCCESS,
        [Mutex.account 0, Mutex.account 1, Mutex.branch 1, Mutex.branch 2],
        [Mutex.account 0, Mutex.account 1, Mutex.branch 2, Mutex.branch 1]) := by
    decide
  have hf : (Teller_DoTransfer scenarioBranchID scenarioBank 100 200 80).map
      (fun r => (r.code, acquired r.trace, released r.trace)) =
      some (ERROR_INSUFFICIENT_FUNDS,
        [Mutex.account 0, Mutex.account 1, Mutex.branch 1, Mutex.branch 2],
        [Mutex.account 1, Mutex.account 0, Mutex.branch 1, Mutex.branch 2]) := by
    decide
  refine ⟨?_, ?_, ?_, ?_⟩
  · cases hr : Teller_DoDeposit scenarioBranchID scenarioBank 100 5 with
    | none => rw [hr] at hd; cases hd
    | some r =>
      rw [hr] at hd
      simp only [Option.map_some', Option.some.injEq, Prod.mk.injEq] at hd
      exact ⟨r, rfl, hd.1, hd.2, by rw [hd.1, hd.2]; decide⟩
  · cases hr : Teller_DoWithdraw scenarioBranchID scenarioBank 100 5 with
    | none => rw [hr] at hw; cases hw
    | some r =>
      rw [hr] at hw
      simp only [Option.map_some', Option.some.injEq, Prod.mk.injEq] at hw
      exact ⟨r, rfl, hw.1, hw.2, by rw [hw.1, hw.2]; decide⟩
  · cases hr : Teller_DoTransfer scenarioBranchID scenarioBank 200 100 3 with
    | none => rw [hr] at ht; cases ht
    | some r =>
      rw [hr] at ht
      simp only [Option.map_some', Option.some.injEq, Prod.mk.injEq] at ht
      exact ⟨r, rfl, ht.1, ht.2.1, ht.2.2, by rw [ht.2.1, ht.2.2]; decide⟩
  · cases hr : Teller_DoTransfer scenarioBranchID scenarioBank 100 200 80 with
    | none => rw [hr] at hf; cases hf
    | some r =>
      rw [hr] at hf
      simp only [Option.map_some', Option.some.injEq, Prod.mk.injEq] at hf
      exact ⟨r, rfl, hf.1, hf.2.1, hf.2.2, by rw [hf.2.1, hf.2.2]; decide⟩

/-- C17, amended: every teller operation that completes (the amount is not negative)
releases exactly the locks it acquired, in the reverse of the order of acquisition only in
one case. `Teller_DoDeposit` and `Teller_DoWithdraw`, on every path that takes locks (the
account exists), lock the account lock and then the branch lock and release the account
lock and then the branch lock, which is the order of acquisition and not its reverse.
`Teller_DoTransfer` between two different existing accounts, on both its success path and
its `ERROR_INSUFFICIENT_FUNDS` path, locks the two account locks by increasing account
number and then, only when the accounts are in different branches, the two branch locks in
the order of their accounts; it releases the lock of `dst`, then the lock of `src`, then,
only when the accounts are in different branches, the lock of the branch of `src` and the
lock of the branch of `dst`. This is the reverse of the order of acquisition exactly when
the two accounts are in the same branch and `src < dst`. -/
theorem release_order (bank : Bank) (n src dst : AccountNumber) (amount : AccountAmount)
    (hamt : 0 ≤ amount) :
    (∀ h, Account_LookupByNumber bank n = some h →
      (∃ r, Teller_DoDeposit AccountNum_GetBranchID bank n amount = some r ∧
        acquired r.trace = [Mutex.account h, Mutex.branch (AccountNum_GetBranchID n)] ∧
        released r.trace = [Mutex.account h, Mutex.branch (AccountNum_GetBranchID n)] ∧
        released r.trace ≠ (acquired r.trace).reverse) ∧
      (∃ r, Teller_DoWithdraw AccountNum_GetBranchID bank n amount = some r ∧
        acquired r.trace = [Mutex.account h, Mutex.branch (AccountNum_GetBranchID n)] ∧
        released r.trace = [Mutex.account h, Mutex.branch (AccountNum_GetBranchID n)] ∧
        released r.trace ≠ (acquired r.trace).reverse)) ∧
    (∀ s d, src ≠ dst → Account_LookupByNumber bank src = some s →
      Account_LookupByNumber bank dst = some d →
      ∃ r, Teller_DoTransfer AccountNum_GetBranchID bank src dst amount = some r ∧
        (r.code = ERROR_SUCCESS ∨ r.code = ERROR_INSUFFICIENT_FUNDS) ∧
        acquired r.trace =
          (if src < dst then [Mutex.account s, Mutex.account d]
           else [Mutex.account d, Mutex.account s]) ++
            (if AccountNum_GetBranchID src = AccountNum_GetBranchID dst then []
             else if src < dst then
               [Mutex.branch (AccountNum_GetBranchID src),
                Mutex.branch (AccountNum_GetBranchID dst)]
             else
               [Mutex.branch (AccountNum_GetBranchID dst),
                Mutex.branch (AccountNum_GetBranchID src)]) ∧
        released r.trace =
          [Mutex.account d, Mutex.account s] ++
            (if AccountNum_GetBranchID src = AccountNum_GetBranchID dst then []
             else [Mutex.branch (AccountNum_GetBranchID src),
                   Mutex.branch (AccountNum_GetBranchID dst)]) ∧
        (released r.trace).Perm (acquired r.trace) ∧
        (released r.trace = (acquired r.trace).reverse ↔
          (AccountNum_GetBranchID src = AccountNum_GetBranchID dst ∧ src < dst))) ∧
    (∀ call : TellerCall, 0 ≤ call.amount →
      ∃ r, call.run AccountNum_GetBranchID bank = some r ∧
        (released r.trace).Perm (acquired r.trace)) := by
  refine ⟨?_, ?_, ?_⟩
  · intro h hl
    constructor
    · obtain ⟨r, hr⟩ :=
        call_completes AccountNum_GetBranchID bank (TellerCall.deposit n amount) hamt
      rcases deposit_shape AccountNum_GetBranchID hr with ⟨hnone, _⟩ | ⟨h1, hl1, hshape⟩
      · rw [hl] at hnone; cases hnone
      · have hh : h1 = h := Option.some.inj (hl1.symm.trans hl)
        subst hh
        refine ⟨r, hr, hshape.acquired_eq, hshape.released_eq, ?_⟩
        rw [hshape.acquired_eq, hshape.released_eq]
        simp
    · obtain ⟨r, hr⟩ :=
        call_completes AccountNum_GetBranchID bank (TellerCall.withdraw n amount) hamt
      rcases withdraw_shape AccountNum_GetBranchID hr with ⟨hnone, _⟩ | ⟨h1, hl1, hshape⟩
      · rw [hl] at hnone; cases hnone
      · have hh : h1 = h := Option.some.inj (hl1.symm.trans hl)
        subst hh
        refine ⟨r, hr, hshape.acquired_eq, hshape.released_eq, ?_⟩
        rw [hshape.acquired_eq, hshape.released_eq]
        simp
  · intro s d hne hs hd
    have hex : ∃ r, Teller_DoTransfer AccountNum_GetBranchID bank src dst amount = some r ∧
        (r.code = ERROR_SUCCESS ∨ r.code = ERROR_INSUFFICIENT_FUNDS) := by
      rcases le_or_lt amount (Account_Balance bank s) with hle | hgt
      · obtain ⟨r, hr, hc, _⟩ :=
          transfer_found_ok AccountNum_GetBranchID hne hs hd hamt hle
        exact ⟨r, hr, Or.inl hc⟩
      · obtain ⟨r, hr, hc, _⟩ :=
          transfer_found_short AccountNum_GetBranchID hne hs hd hamt hgt
        exact ⟨r, hr, Or.inr hc⟩
    obtain ⟨r, hr, hcode⟩ := hex
    obtain ⟨hacq, hrel⟩ := transfer_locks_unlocks AccountNum_GetBranchID hne hs hd hr
    have hsd : s ≠ d := fun e => hne (lookup_inj hs (e ▸ hd))
    refine ⟨r, hr, hcode, ?_, hrel, ?_, ?_⟩
    · rw [hacq]
      unfold transferPlan
      by_cases hlt : src < dst <;>
        by_cases hbr : AccountNum_GetBranchID src = AccountNum_GetBranchID dst <;>
        simp [hlt, hbr]
    · rw [hrel, hacq]
      exact transferPlan_perm AccountNum_GetBranchID src dst s d
    · rw [hrel, hacq]
      unfold transferPlan
      by_cases hlt : src < dst <;>
        by_cases hbr : AccountNum_GetBranchID src = AccountNum_GetBranchID dst <;>
        simp [hlt, hbr, hsd, Ne.symm hsd]
  · intro call hcall
    obtain ⟨r, hr⟩ := call_completes AccountNum_GetBranchID bank call hcall
    obtain ⟨ls, us, hshape, _, hperm⟩ := call_shape AccountNum_GetBranchID hr
    refine ⟨r, hr, ?_⟩
    rw [hshape.acquired_eq, hshape.released_eq]
    exact hperm

/-- Witness of C17 (amended). On the scenario bank `Transfer(200, 100, 3)` locks account
100, account 200, branch 1, branch 2 and unlocks account 100, account 200, branch 2,
branch 1, which is not the reverse order. On the bank with accounts 100 and 150 in branch
1, `Transfer(100, 150, 5)` locks account 100 and account 150 and unlocks account 150 and
account 100, the reverse order; `Deposit(150, 1)` unlocks in the order of acquisition. -/
theorem release_order_witness :
    (∃ r, Teller_DoTransfer scenarioBranchID scenarioBank 200 100 3 = some r ∧
      acquired r.trace =
        [Mutex.account 0, Mutex.account 1, Mutex.branch 1, Mutex.branch 2] ∧
      released r.trace =
        [Mutex.account 0, Mutex.account 1, Mutex.branch 2, Mutex.branch 1] ∧
      released r.trace ≠ (acquired r.trace).reverse) ∧
    (∃ r, Teller_DoTransfer scenarioBranchID threeAccountBank 100 150 5 = some r ∧
      acquired r.trace = [Mutex.account 0, Mutex.account 1] ∧
      released r.trace = [Mutex.account 1, Mutex.account 0] ∧
      released r.trace = (acquired r.trace).reverse) ∧
    (∃ r, Teller_DoDeposit scenarioBranchID threeAccountBank 150 1 = some r ∧
      acquired r.trace = [Mutex.account 1, Mutex.branch 1] ∧
      released r.trace = [Mutex.account 1, Mutex.branch 1]) := by
  obtain ⟨r1, hr1, _, hacq1, hrel1, _, hiff1⟩ :=
    (release_order scenarioBranchID scenarioBank 100 200 100 3 (by decide)).2.1 1 0
      (by decide) (by decide) (by decide)
  obtain ⟨r2, hr2, _, hacq2, hrel2, _, hiff2⟩ :=
    (release_order scenarioBranchID threeAccountBank 150 100 150 5 (by decide)).2.1 0 1
      (by decide) (by decide) (by decide)
  obtain ⟨r3, hr3, hacq3, hrel3, _⟩ :=
    ((release_order scenarioBranchID threeAccountBank 150 100 150 1 (by decide)).1 1
      (by decide)).1
  refine ⟨⟨r1, hr1, ?_, ?_, ?_⟩, ⟨r2, hr2, ?_, ?_, ?_⟩, ⟨r3, hr3, ?_, ?_⟩⟩
  · rw [hacq1]; decide
  · rw [hrel1]; decide
  · exact fun h => absurd (hiff1.mp h).2 (by decide)
  · rw [hacq2]; decide
  · rw [hrel2]; decide
  · exact hiff2.mpr ⟨by decide, by decide⟩
  · rw [hacq3]; decide
  · rw [hrel3]; decide

theorem findAccount_congr (n : AccountNumber) (l1 l2 : List Account)
    (h : l1.map Account.accountNumber = l2.map Account.accountNumber) :
    findAccount n l1 = findAccount n l2 := by
  induction l1 generalizing l2 with
  | nil =>
    cases l2 with
    | nil => rfl
    | cons b rest => simp at h
  | cons a rest ih =>
    cases l2 with
    | nil => simp at h
    | cons b rest2 =>
      simp only [List.map_cons, List.cons.injEq] at h
      simp [findAccount, h.1, ih rest2 h.2]

theorem SamePopulation.lookup {bank1 bank2 : Bank} (h : SamePopulation bank1 bank2)
    (n : AccountNumber) :
    Account_LookupByNumber bank2 n = Account_LookupByNumber bank1 n :=
  (findAccount_congr n bank1.accounts bank2.accounts h).symm

/-- C18: for two distinct provisioned accounts, the lower-numbered `a` and the
higher-numbered `b`, `Teller_DoTransfer` from `a` to `b` locks the account lock of `a`,
then the account lock of `b`, then, only when the accounts are in different branches,
the branch lock of `a` and the branch lock of `b`; and `Teller_DoTransfer` from `b` to
`a`, whatever the amounts and the balances at the time, locks exactly the same sequence
of locks. -/
theorem transfer_lock_order (bank bank2 : Bank) (a b : AccountNumber)
    (x y : AccountAmount) (s d : Nat) (hlt : a < b)
    (hpop : SamePopulation bank bank2)
    (hs : Account_LookupByNumber bank a = some s)
    (hd : Account_LookupByNumber bank b = some d) (hx : 0 ≤ x) (hy : 0 ≤ y) :
    ∃ r1 r2, Teller_DoTransfer AccountNum_GetBranchID bank a b x = some r1 ∧
      Teller_DoTransfer AccountNum_GetBranchID bank2 b a y = some r2 ∧
      acquired r1.trace =
        [Mutex.account s, Mutex.account d] ++
          (if AccountNum_GetBranchID a = AccountNum_GetBranchID b then []
           else [Mutex.branch (AccountNum_GetBranchID a),
                 Mutex.branch (AccountNum_GetBranchID b)]) ∧
      acquired r2.trace = acquired r1.trace := by
  have hne : a ≠ b := Nat.ne_of_lt hlt
  obtain ⟨r1, hr1⟩ :=
    call_completes AccountNum_GetBranchID bank (TellerCall.transfer a b x) hx
  obtain ⟨r2, hr2⟩ :=
    call_completes AccountNum_GetBranchID bank2 (TellerCall.transfer b a y) hy
  have hs2 : Account_LookupByNumber bank2 a = some s := by rw [hpop.lookup]; exact hs
  have hd2 : Account_LookupByNumber bank2 b = some d := by rw [hpop.lookup]; exact hd
  have h1 := (transfer_locks_unlocks AccountNum_GetBranchID hne hs hd hr1).1
  have h2 := (transfer_locks_unlocks AccountNum_GetBranchID (Ne.symm hne) hd2 hs2 hr2).1
  refine ⟨r1, r2, hr1, hr2, ?_, ?_⟩
  · rw [h1]; simp [transferPlan, hlt]
  · rw [h1, h2]; exact transferPlan_swap AccountNum_GetBranchID a b s d hne

/-- Witness of C18 on the scenario bank: `Transfer(100, 200, 30)` and
`Transfer(200, 100, 80)` both lock account 100, account 200, branch 1, branch 2. -/
theorem transfer_lock_order_witness :
    ∃ r1 r2, Teller_DoTransfer scenarioBranchID scenarioBank 100 200 30 = some r1 ∧
      Teller_DoTransfer scenarioBranchID scenarioBank 200 100 80 = some r2 ∧
      acquired r1.trace =
        [Mutex.account 0, Mutex.account 1, Mutex.branch 1, Mutex.branch 2] ∧
      acquired r2.trace = acquired r1.trace := by
  obtain ⟨r1, r2, hr1, hr2, hacq, hsame⟩ :=
    transfer_lock_order scenarioBranchID scenarioBank scenarioBank 100 200 30 80 0 1
      (by decide) rfl (by decide) (by decide) (by decide) (by decide)
  exact ⟨r1, r2, hr1, hr2, by rw [hacq]; decide, hsame⟩

/-- C20: for two distinct provisioned accounts in the same branch, `Teller_DoTransfer`
completes, with `ERROR_INSUFFICIENT_FUNDS` exactly when the amount exceeds the balance of
`src` and with `ERROR_SUCCESS` otherwise; on both paths it locks only the two account
locks and unlocks only these, no call on a branch lock is in its trace, and every branch
aggregate, that of the shared branch included, is unchanged. -/
theorem intra_branch_transfer (bank : Bank) (src dst : AccountNumber)
    (amount : AccountAmount) (s d : Nat) (hne : src ≠ dst)
    (hs : Account_LookupByNumber bank src = some s)
    (hd : Account_LookupByNumber bank dst = some d)
    (hbr : AccountNum_GetBranchID src = AccountNum_GetBranchID dst) (hamt : 0 ≤ amount) :
    ∃ r, Teller_DoTransfer AccountNum_GetBranchID bank src dst amount = some r ∧
      (r.code = ERROR_INSUFFICIENT_FUNDS ↔ amount > Account_Balance bank s) ∧
      (r.code = ERROR_SUCCESS ↔ ¬ amount > Account_Balance bank s) ∧
      acquired r.trace =
        (if src < dst then [Mutex.account s, Mutex.account d]
         else [Mutex.account d, Mutex.account s]) ∧
      released r.trace = [Mutex.account d, Mutex.account s] ∧
      (∀ b, Event.lock (Mutex.branch b) ∉ r.trace ∧
        Event.unlock (Mutex.branch b) ∉ r.trace) ∧
      (∀ c, r.bank.branches c = bank.branches c) := by
  obtain ⟨r, hr0⟩ :=
    call_completes AccountNum_GetBranchID bank (TellerCall.transfer src dst amount) hamt
  have hr : Teller_DoTransfer AccountNum_GetBranchID bank src dst amount = some r := hr0
  obtain ⟨hacq, hrel⟩ := transfer_locks_unlocks AccountNum_GetBranchID hne hs hd hr
  have hacq2 : acquired r.trace =
      (if src < dst then [Mutex.account s, Mutex.account d]
       else [Mutex.account d, Mutex.account s]) := by
    rw [hacq]; unfold transferPlan; by_cases hlt : src < dst <;> simp [hlt, hbr]
  have hrel2 : released r.trace = [Mutex.account d, Mutex.account s] := by
    rw [hrel]; simp [hbr]
  have hcases := transfer_cases AccountNum_GetBranchID bank src dst amount hamt
  have hub : (!Account_IsSameBranch AccountNum_GetBranchID src dst) = false := by
    simp [Account_IsSameBranch, hbr]
  have hcb : (r.code = ERROR_INSUFFICIENT_FUNDS ↔ amount > Account_Balance bank s) ∧
      (r.code = ERROR_SUCCESS ↔ ¬ amount > Account_Balance bank s) ∧
      (∀ c, r.bank.branches c = bank.branches c) := by
    rcases hcases with ⟨heq, _⟩ | ⟨_, hl, _⟩ | ⟨s1, d1, tr, _, hs1, hd1, hgt, h1⟩ |
      ⟨s1, d1, tr, _, hs1, hd1, hle, h1⟩
    · exact absurd heq hne
    · rcases hl with hl | hl
      · rw [hs] at hl; cases hl
      · rw [hd] at hl; cases hl
    · have hss : s1 = s := Option.some.inj (hs1.symm.trans hs)
      subst hss
      rw [h1] at hr; cases hr
      exact ⟨by simp [hgt], by simp [hgt], fun _ => rfl⟩
    · have hss : s1 = s := Option.some.inj (hs1.symm.trans hs)
      subst hss
      rw [h1] at hr; cases hr
      refine ⟨by simp [not_lt.mpr hle], by simp [not_lt.mpr hle], fun c => ?_⟩
      simp only [hub]
      simp [adjust_branches]
  refine ⟨r, hr, hcb.1, hcb.2.1, hacq2, hrel2, ?_, hcb.2.2⟩
  intro b
  constructor
  · rw [mem_acquired, hacq2]; by_cases hlt : src < dst <;> simp [hlt]
  · rw [mem_released, hrel2]; simp

/-- Witness of C20 on the bank with accounts 100 and 150 in branch 1:
`Transfer(150, 100, 5)` succeeds, locks the locks of account 100 and account 150 only and
leaves the aggregate of branch 1 at 55. -/
theorem intra_branch_transfer_witness :
    ∃ r, Teller_DoTransfer scenarioBranchID threeAccountBank 150 100 5 = some r ∧
      r.code = ERROR_SUCCESS ∧
      acquired r.trace = [Mutex.account 0, Mutex.account 1] ∧
      released r.trace = [Mutex.account 0, Mutex.account 1] ∧
      r.bank.branches 1 = 55 := by
  obtain ⟨r, hr, _, hok, hacq, hrel, _, hbr⟩ :=
    intra_branch_transfer scenarioBranchID threeAccountBank 150 100 5 1 0 (by decide)
      (by decide) (by decide) (by decide) (by decide)
  exact ⟨r, hr, hok.mpr (by decide), by rw [hacq]; decide, hrel, by rw [hbr 1]; decide⟩

/-- The high-order bits of a number, the number shifted right by `k` bits, do not decrease
when the number grows. -/
theorem highBits_monotone (k : Nat) : Monotone (fun n : AccountNumber => n / 2 ^ k) := by
  intro a b hab
  exact Nat.div_le_div_right hab

theorem not_mem_take_of_nodup (ls : List Mutex) (hnd : ls.Nodup) :
    ∀ (p q : Nat) (m : Mutex), ls[p]? = some m → q ≤ p → m ∉ ls.take q := by
  induction ls with
  | nil => intro p q m hm; simp at hm
  | cons a rest ih =>
    intro p q m hm hqp
    obtain ⟨harest, hndrest⟩ := List.nodup_cons.mp hnd
    cases q with
    | zero => simp
    | succ q1 =>
      cases p with
      | zero => omega
      | succ p1 =>
        have hm1 : rest[p1]? = some m := by simpa using hm
        have hmem : m ∈ rest := List.getElem?_mem hm1
        simp only [List.take_succ_cons, List.mem_cons, not_or]
        exact ⟨fun hma => harest (hma ▸ hmem), ih hndrest p1 q1 m hm1 (by omega)⟩

theorem canStep_of_not_lock {own other : List Event} {p q : Nat} {e : Event}
    (he : own[p]? = some e) (hnl : ∀ m, e ≠ Event.lock m) :
    canStep own other p q = true := by
  unfold canStep
  rw [he]
  cases e with
  | lock m => exact absurd rfl (hnl m)
  | unlock m => rfl
  | balance h => rfl
  | adjust h a u => rfl

theorem canStep_of_free {own other : List Event} {p q : Nat} {m : Mutex}
    (he : own[p]? = some (Event.lock m)) (h1 : m ∉ heldAt other q)
    (h2 : m ∉ heldAt own p) : canStep own other p q = true := by
  unfold canStep
  rw [he]
  simp [h1, h2]

theorem canStep_lt {own other : List Event} {p q : Nat}
    (h : canStep own other p q = true) : p < own.length := by
  by_contra hge
  have : own[p]? = none := List.getElem?_eq_none (Nat.le_of_not_lt hge)
  simp [canStep, this] at h

/-- Where a thread stands in a trace of lock shape: about to lock the next mutex of `ls`,
holding the ones before it; or about to make a call that is not a lock; or done, holding
nothing. -/
theorem LockShape.position {t : List Event} {ls us : List Mutex} (h : LockShape t ls us)
    (hnd : ls.Nodup) (hperm : us.Perm ls) (p : Nat) :
    (∃ m, ls[p]? = some m ∧ t[p]? = some (Event.lock m) ∧
      ∀ x, x ∈ heldAt t p ↔ x ∈ ls.take p) ∨
    (∃ e, t[p]? = some e ∧ ∀ m, e ≠ Event.lock m) ∨
    (t.length ≤ p ∧ heldAt t p = []) := by
  have hbal : runHeld [] t = some [] := h.runHeld_eq hnd hperm [] (by simp)
  obtain ⟨mid, hacq, hrel, ht⟩ := h
  by_cases hp : p < ls.length
  · left
    refine ⟨ls[p], List.getElem?_eq_getElem hp, ?_, ?_⟩
    · rw [ht, List.append_assoc,
        List.getElem?_append_left (by simpa using hp)]
      simp [List.getElem?_eq_getElem hp]
    · intro x
      have htake : t.take p = (ls.take p).map Event.lock := by
        rw [ht, List.append_assoc,
          List.take_append_of_le_length (by simpa using Nat.le_of_lt hp), List.map_take]
      unfold heldAt
      rw [htake, runHeld_locks [] (ls.take p) (hnd.sublist (List.take_sublist p ls))
        (by simp)]
      simp
  · by_cases hp2 : p < t.length
    · right; left
      refine ⟨t[p], List.getElem?_eq_getElem hp2, ?_⟩
      intro m hm
      have hmem : Event.lock m ∈ mid ++ us.map Event.unlock := by
        have hget : t[p]? = some (Event.lock m) := by
          rw [List.getElem?_eq_getElem hp2, hm]
        rw [ht, List.append_assoc,
          List.getElem?_append_right (by simpa using Nat.le_of_not_lt hp)] at hget
        exact List.getElem?_mem hget
      rw [mem_acquired, acquired_append, hacq, acquired_map_unlock] at hmem
      simp at hmem
    · right; right
      refine ⟨Nat.le_of_not_lt hp2, ?_⟩
      unfold heldAt
      rw [List.take_of_length_le (Nat.le_of_not_lt hp2), hbal]
      rfl

/-- Two threads whose traces have lock shape and lock the same mutexes in the same order:
in every state in which one of them is not done, one of them can make its next call. -/
theorem lockShape_progress {t1 t2 : List Event} {ls us1 us2 : List Mutex}
    (h1 : LockShape t1 ls us1) (h2 : LockShape t2 ls us2) (hnd : ls.Nodup)
    (hp1 : us1.Perm ls) (hp2 : us2.Perm ls) (p1 p2 : Nat)
    (hnf : ¬ (t1.length ≤ p1 ∧ t2.length ≤ p2)) :
    canStep t1 t2 p1 p2 = true ∨ canStep t2 t1 p2 p1 = true := by
  rcases h1.position hnd hp1 p1 with ⟨m1, hm1, he1, hheld1⟩ | ⟨e1, he1, hnl1⟩ | ⟨hd1, hz1⟩
  · rcases h2.position hnd hp2 p2 with ⟨m2, hm2, he2, hheld2⟩ | ⟨e2, he2, hnl2⟩ | ⟨hd2, hz2⟩
    · by_cases hle : p2 ≤ p1
      · left
        apply canStep_of_free he1
        · rw [hheld2]; exact not_mem_take_of_nodup ls hnd p1 p2 m1 hm1 hle
        · rw [hheld1]; exact not_mem_take_of_nodup ls hnd p1 p1 m1 hm1 (Nat.le_refl _)
      · right
        apply canStep_of_free he2
        · rw [hheld1]
          exact not_mem_take_of_nodup ls hnd p2 p1 m2 hm2 (Nat.le_of_lt (Nat.lt_of_not_le hle))
        · rw [hheld2]; exact not_mem_take_of_nodup ls hnd p2 p2 m2 hm2 (Nat.le_refl _)
    · exact Or.inr (canStep_of_not_lock he2 hnl2)
    · left
      apply canStep_of_free he1
      · rw [hz2]; simp
      · rw [hheld1]; exact not_mem_take_of_nodup ls hnd p1 p1 m1 hm1 (Nat.le_refl _)
  · exact Or.inl (canStep_of_not_lock he1 hnl1)
  · rcases h2.position hnd hp2 p2 with ⟨m2, hm2, he2, hheld2⟩ | ⟨e2, he2, hnl2⟩ | ⟨hd2, hz2⟩
    · right
      apply canStep_of_free he2
      · rw [hz1]; simp
      · rw [hheld2]; exact not_mem_take_of_nodup ls hnd p2 p2 m2 hm2 (Nat.le_refl _)
    · exact Or.inr (canStep_of_not_lock he2 hnl2)
    · exact absurd ⟨hd1, hd2⟩ hnf

theorem successors_bound {t1 t2 : List Event} {pcs next : Nat × Nat}
    (h : next ∈ successors t1 t2 pcs) :
    next.1 + next.2 = pcs.1 + pcs.2 + 1 ∧
      (pcs.1 ≤ t1.length → next.1 ≤ t1.length) ∧
      (pcs.2 ≤ t2.length → next.2 ≤ t2.length) := by
  unfold successors at h
  rcases List.mem_append.mp h with h | h
  · by_cases hc : canStep t1 t2 pcs.1 pcs.2 = true
    · simp [hc] at h
      subst h
      exact ⟨by simp; omega, fun _ => canStep_lt hc, fun hle => hle⟩
    · simp [hc] at h
  · by_cases hc : canStep t2 t1 pcs.2 pcs.1 = true
    · simp [hc] at h
      subst h
      exact ⟨by simp; omega, fun hle => hle, fun _ => canStep_lt hc⟩
    · simp [hc] at h

theorem reachable_bound {t1 t2 : List Event} {pcs : Nat × Nat}
    (h : Reachable t1 t2 pcs) : pcs.1 ≤ t1.length ∧ pcs.2 ≤ t2.length := by
  induction h with
  | refl => exact ⟨Nat.zero_le _, Nat.zero_le _⟩
  | tail _ hstep ih =>
    obtain ⟨_, hb1, hb2⟩ := successors_bound hstep
    exact ⟨hb1 ih.1, hb2 ih.2⟩

/-- Two threads whose traces have lock shape and lock the same mutexes in the same order
never deadlock: a reachable state in which no thread can move is the state in which
both are done. -/
theorem lockShape_no_deadlock {t1 t2 : List Event} {ls us1 us2 : List Mutex}
    (h1 : LockShape t1 ls us1) (h2 : LockShape t2 ls us2) (hnd : ls.Nodup)
    (hp1 : us1.Perm ls) (hp2 : us2.Perm ls) (pcs : Nat × Nat)
    (hreach : Reachable t1 t2 pcs) :
    pcs = (t1.length, t2.length) ∨ successors t1 t2 pcs ≠ [] := by
  obtain ⟨hb1, hb2⟩ := reachable_bound hreach
  by_cases hdone : t1.length ≤ pcs.1 ∧ t2.length ≤ pcs.2
  · left
    exact Prod.ext (Nat.le_antisymm hb1 hdone.1) (Nat.le_antisymm hb2 hdone.2)
  · right
    rcases lockShape_progress h1 h2 hnd hp1 hp2 pcs.1 pcs.2 hdone with hc | hc
    · simp [successors, hc]
    · simp [successors, hc]

/-- C12: concurrent transfers forming a cycle never deadlock. Thread 1 runs
`Teller_DoTransfer(A, B, x)` and thread 2 runs `Teller_DoTransfer(B, A, y)`, each with
the balances it finds when it runs (banks with the same population). Both calls have a
trace, and under every interleaving of the two traces in which a thread waits only for a
lock that is held: every reachable state other than the one in which both calls are
complete has a next step (no deadlock), every step is one more call of one of the
threads, and no thread goes beyond the end of its trace; so every interleaving ends, with
both calls complete. -/
theorem cyclic_transfers_do_not_deadlock (bank1 bank2 : Bank)
    (hpop : SamePopulation bank1 bank2) (a b : AccountNumber) (x y : AccountAmount)
    (hx : 0 ≤ x) (hy : 0 ≤ y) :
    ∃ r1 r2, Teller_DoTransfer AccountNum_GetBranchID bank1 a b x = some r1 ∧
      Teller_DoTransfer AccountNum_GetBranchID bank2 b a y = some r2 ∧
      (∀ pcs, Reachable r1.trace r2.trace pcs →
        pcs = (r1.trace.length, r2.trace.length) ∨
          successors r1.trace r2.trace pcs ≠ []) ∧
      (∀ pcs next, next ∈ successors r1.trace r2.trace pcs →
        next.1 + next.2 = pcs.1 + pcs.2 + 1) ∧
      (∀ pcs, Reachable r1.trace r2.trace pcs →
        pcs.1 ≤ r1.trace.length ∧ pcs.2 ≤ r2.trace.length) := by
  obtain ⟨r1, hr1⟩ :=
    call_completes AccountNum_GetBranchID bank1 (TellerCall.transfer a b x) hx
  obtain ⟨r2, hr2⟩ :=
    call_completes AccountNum_GetBranchID bank2 (TellerCall.transfer b a y) hy
  have hshape : ∃ ls us1 us2, LockShape r1.trace ls us1 ∧ LockShape r2.trace ls us2 ∧
      ls.Nodup ∧ us1.Perm ls ∧ us2.Perm ls := by
    rcases transfer_shape AccountNum_GetBranchID hr1 with
      ⟨hwhy, ht1⟩ | ⟨s, d, hne, hs, hd, hshape1⟩
    · rcases transfer_shape AccountNum_GetBranchID hr2 with
        ⟨_, ht2⟩ | ⟨s2, d2, hne2, hs2, hd2, _⟩
      · exact ⟨[], [], [], ht1 ▸ lockShape_nil, ht2 ▸ lockShape_nil, List.nodup_nil,
          List.Perm.refl _, List.Perm.refl _⟩
      · rw [hpop.lookup] at hs2 hd2
        rcases hwhy with heq | hnone | hnone
        · exact absurd heq.symm hne2
        · rw [hnone] at hd2; cases hd2
        · rw [hnone] at hs2; cases hs2
    · have hs2 : Account_LookupByNumber bank2 a = some s := by rw [hpop.lookup]; exact hs
      have hd2 : Account_LookupByNumber bank2 b = some d := by rw [hpop.lookup]; exact hd
      rcases transfer_shape AccountNum_GetBranchID hr2 with
        ⟨hwhy, _⟩ | ⟨s3, d3, hne3, hs3, hd3, hshape2⟩
      · rcases hwhy with heq | hnone | hnone
        · exact absurd heq.symm hne
        · rw [hd2] at hnone; cases hnone
        · rw [hs2] at hnone; cases hnone
      · have e1 : s3 = d := Option.some.inj (hs3.symm.trans hd2)
        have e2 : d3 = s := Option.some.inj (hd3.symm.trans hs2)
        subst e1; subst e2
        rw [transferPlan_swap AccountNum_GetBranchID a b d3 s3 hne] at hshape2
        refine ⟨_, _, _, hshape1, hshape2,
          transferPlan_nodup AccountNum_GetBranchID hne hs hd,
          transferPlan_perm AccountNum_GetBranchID a b d3 s3, ?_⟩
        rw [← transferPlan_swap AccountNum_GetBranchID a b d3 s3 hne]
        exact transferPlan_perm AccountNum_GetBranchID b a s3 d3
  obtain ⟨ls, us1, us2, h1, h2, hnd, hp1, hp2⟩ := hshape
  exact ⟨r1, r2, hr1, hr2,
    fun pcs hreach => lockShape_no_deadlock h1 h2 hnd hp1 hp2 pcs hreach,
    fun pcs next hstep => (successors_bound hstep).1,
    fun pcs hreach => reachable_bound hreach⟩

/-- Witness of C12 on the scenario bank: `Transfer(100, 200, 30)` against
`Transfer(200, 100, 5)`; each thread has eleven calls to make, and the start state has a
next step. -/
theorem cyclic_transfers_do_not_deadlock_witness :
    ∃ r1 r2, Teller_DoTransfer scenarioBranchID scenarioBank 100 200 30 = some r1 ∧
      Teller_DoTransfer scenarioBranchID scenarioBank 200 100 5 = some r2 ∧
      r1.trace.length = 11 ∧ r2.trace.length = 11 ∧
      successors r1.trace r2.trace (0, 0) ≠ [] ∧
      (∀ pcs, Reachable r1.trace r2.trace pcs →
        pcs = (r1.trace.length, r2.trace.length) ∨
          successors r1.trace r2.trace pcs ≠ []) := by
  obtain ⟨r1, r2, hr1, hr2, hfree, _, _⟩ :=
    cyclic_transfers_do_not_deadlock scenarioBranchID scenarioBank scenarioBank rfl
      100 200 30 5 (by decide) (by decide)
  have hl1 :
      (Teller_DoTransfer scenarioBranchID scenarioBank 100 200 30).map
        (fun r => r.trace.length) = some 11 := by decide
  have hl2 :
      (Teller_DoTransfer scenarioBranchID scenarioBank 200 100 5).map
        (fun r => r.trace.length) = some 11 := by decide
  rw [hr1] at hl1
  rw [hr2] at hl2
  simp only [Option.map_some', Option.some.injEq] at hl1 hl2
  refine ⟨r1, r2, hr1, hr2, hl1, hl2, ?_, hfree⟩
  rcases hfree (0, 0) Relation.ReflTransGen.refl with h | h
  · have := congrArg Prod.fst h
    simp [hl1] at this
  · exact h

/-! ## Deposit and withdrawal: locks around the accesses, and round trip -/

theorem two_lock_trace_held (a b : Mutex) (hab : a ≠ b) (mid : List Event)
    (hacq : acquired mid = []) (hrel : released mid = []) (i : Nat) (e : Event)
    (he : ([Event.lock a, Event.lock b] ++ mid ++ [Event.unlock a, Event.unlock b])[i]? =
      some e)
    (hacc : e.isAccess = true) :
    a ∈ heldAt ([Event.lock a, Event.lock b] ++ mid ++ [Event.unlock a, Event.unlock b]) i ∧
    b ∈ heldAt ([Event.lock a, Event.lock b] ++ mid ++ [Event.unlock a, Event.unlock b])
      i := by
  have hi2 : 2 ≤ i := by
    by_contra hlt
    have hi : i = 0 ∨ i = 1 := by omega
    rcases hi with hi | hi <;> subst hi <;> simp at he <;> subst he <;>
      simp [Event.isAccess] at hacc
  have him : i < 2 + mid.length := by
    by_contra hge
    have hlen : ([Event.lock a, Event.lock b] ++ mid).length ≤ i := by simp; omega
    rw [List.getElem?_append_right hlen] at he
    have hmem := List.getElem?_mem he
    simp only [List.mem_cons, List.mem_singleton, List.not_mem_nil, or_false] at hmem
    rcases hmem with hmem | hmem <;> subst hmem <;> simp [Event.isAccess] at hacc
  have htake : ([Event.lock a, Event.lock b] ++ mid ++ [Event.unlock a, Event.unlock b]).take i
      = [Event.lock a, Event.lock b] ++ mid.take (i - 2) := by
    rw [List.append_assoc, List.take_append_eq_append_take]
    have h1 : List.take i [Event.lock a, Event.lock b] = [Event.lock a, Event.lock b] :=
      List.take_of_length_le (by simpa using hi2)
    rw [h1, List.take_append_eq_append_take]
    have h2 : i - [Event.lock a, Event.lock b].length - mid.length = 0 := by simp; omega
    simp only [h2, List.take_zero, List.append_nil]
    rfl
  have hacq2 : acquired (mid.take (i - 2)) = [] := by
    have := congrArg List.length (acquired_append (mid.take (i - 2)) (mid.drop (i - 2)))
    rw [List.take_append_drop, hacq] at this
    simp at this
    exact List.length_eq_zero.mp (by omega)
  have hrel2 : released (mid.take (i - 2)) = [] := by
    have := congrArg List.length (released_append (mid.take (i - 2)) (mid.drop (i - 2)))
    rw [List.take_append_drop, hrel] at this
    simp at this
    exact List.length_eq_zero.mp (by omega)
  have hrun : runHeld [] ([Event.lock a, Event.lock b] ++ mid.take (i - 2)) = some [b, a] := by
    rw [runHeld_append]
    have : runHeld [] [Event.lock a, Event.lock b] = some [b, a] := by
      simp [runHeld, holdStep, Ne.symm hab]
    rw [this]
    exact runHeld_neutral [b, a] _ hacq2 hrel2
  unfold heldAt
  rw [htake, hrun]
  simp

/-- C21: for a provisioned account `a` (handle `h`) and `amount ≥ 0`, `Teller_DoDeposit`
and `Teller_DoWithdraw` complete and lock exactly two mutexes, first the lock of the
account and then the lock of the branch `AccountNum_GetBranchID(a)`; the deposit calls
`Account_Adjust`, the withdrawal reads the balance and, when it succeeds, calls
`Account_Adjust`; and whenever a call of the trace is a balance read or an
`Account_Adjust`, the thread holds both locks at that point. -/
theorem deposit_withdraw_locking (bank : Bank) (n : AccountNumber) (amount : AccountAmount)
    (h : Nat) (hl : Account_LookupByNumber bank n = some h) (hamt : 0 ≤ amount) :
    (∃ r, Teller_DoDeposit AccountNum_GetBranchID bank n amount = some r ∧
      acquired r.trace = [Mutex.account h, Mutex.branch (AccountNum_GetBranchID n)] ∧
      Event.adjust h amount true ∈ r.trace ∧
      ∀ i e, r.trace[i]? = some e → e.isAccess = true →
        Mutex.account h ∈ heldAt r.trace i ∧
        Mutex.branch (AccountNum_GetBranchID n) ∈ heldAt r.trace i) ∧
    (∃ r, Teller_DoWithdraw AccountNum_GetBranchID bank n amount = some r ∧
      acquired r.trace = [Mutex.account h, Mutex.branch (AccountNum_GetBranchID n)] ∧
      Event.balance h ∈ r.trace ∧
      (r.code = ERROR_SUCCESS → Event.adjust h (-amount) true ∈ r.trace) ∧
      ∀ i e, r.trace[i]? = some e → e.isAccess = true →
        Mutex.account h ∈ heldAt r.trace i ∧
        Mutex.branch (AccountNum_GetBranchID n) ∈ heldAt r.trace i) := by
  have hab : Mutex.account h ≠ Mutex.branch (AccountNum_GetBranchID n) := by
    intro heq; cases heq
  constructor
  · refine ⟨_, deposit_found AccountNum_GetBranchID hl hamt, rfl, by simp, ?_⟩
    intro i e he hacc
    exact two_lock_trace_held _ _ hab [Event.adjust h amount true] rfl rfl i e he hacc
  · by_cases hgt : amount > Account_Balance bank h
    · refine ⟨_, withdraw_found_short AccountNum_GetBranchID hl hamt hgt, rfl, by simp,
        (fun hc => by cases hc), ?_⟩
      intro i e he hacc
      exact two_lock_trace_held _ _ hab [Event.balance h] rfl rfl i e he hacc
    · refine ⟨_, withdraw_found_ok AccountNum_GetBranchID hl hamt (not_lt.mp hgt), rfl,
        by simp, (fun _ => by simp), ?_⟩
      intro i e he hacc
      exact two_lock_trace_held _ _ hab
        [Event.balance h, Event.adjust h (-amount) true] rfl rfl i e he hacc

/-- Witness of C21 on the scenario bank: `Withdraw(100, 20)`; its third call is the balance
read and its fourth call is `Account_Adjust`, and the thread holds the lock of account
100 (handle 0) and the lock of branch 1 at both. -/
theorem deposit_withdraw_locking_witness :
    ∃ r, Teller_DoWithdraw scenarioBranchID scenarioBank 100 20 = some r ∧
      r.trace[2]? = some (Event.balance 0) ∧
      r.trace[3]? = some (Event.adjust 0 (-20) true) ∧
      Mutex.account 0 ∈ heldAt r.trace 2 ∧ Mutex.branch 1 ∈ heldAt r.trace 2 ∧
      Mutex.account 0 ∈ heldAt r.trace 3 ∧ Mutex.branch 1 ∈ heldAt r.trace 3 := by
  obtain ⟨_, r, hr, _, _, _, hheld⟩ :=
    deposit_withdraw_locking scenarioBranchID scenarioBank 100 20 0 (by decide) (by decide)
  have htr :
      (Teller_DoWithdraw scenarioBranchID scenarioBank 100 20).map (fun x => x.trace) =
        some [Event.lock (Mutex.account 0), Event.lock (Mutex.branch 1), Event.balance 0,
          Event.adjust 0 (-20) true, Event.unlock (Mutex.account 0),
          Event.unlock (Mutex.branch 1)] := by
    decide
  rw [hr] at htr
  simp only [Option.map_some', Option.some.injEq] at htr
  have h2 : r.trace[2]? = some (Event.balance 0) := by rw [htr]; rfl
  have h3 : r.trace[3]? = some (Event.adjust 0 (-20) true) := by rw [htr]; rfl
  have g2 := hheld 2 _ h2 rfl
  have g3 := hheld 3 _ h3 rfl
  exact ⟨r, hr, h2, h3, g2.1, g2.2, g3.1, g3.2⟩

/-- C22: for a provisioned account `a` with balance `b ≥ 0` and `x ≥ 0`,
`Teller_DoDeposit(a, x)` followed by `Teller_DoWithdraw(a, x)` both return
`ERROR_SUCCESS`, and the bank after the two calls has every account record and every
branch aggregate as before the deposit. -/
theorem deposit_then_withdraw (bank : Bank) (a : AccountNumber) (x b : AccountAmount)
    (hb : balanceOf bank a = some b) (hb0 : 0 ≤ b) (hx : 0 ≤ x) :
    ∃ r1 r2, Teller_DoDeposit AccountNum_GetBranchID bank a x = some r1 ∧
      Teller_DoWithdraw AccountNum_GetBranchID r1.bank a x = some r2 ∧
      r1.code = ERROR_SUCCESS ∧ r2.code = ERROR_SUCCESS ∧
      r2.bank.accounts = bank.accounts ∧
      (∀ c, r2.bank.branches c = bank.branches c) := by
  obtain ⟨h, hl, hbal⟩ := balanceOf_some hb
  have hlt := lookup_lt hl
  have hl1 : Account_LookupByNumber
      (Account_Adjust AccountNum_GetBranchID bank h x true) a = some h := by
    rw [adjust_lookup]; exact hl
  have hderef1 := adjust_deref_same AccountNum_GetBranchID bank h x true hlt
  have hbal1 : Account_Balance (Account_Adjust AccountNum_GetBranchID bank h x true) h
      = b + x := by
    unfold Account_Balance at hbal ⊢
    rw [hderef1, hbal]
  have hle : x ≤ Account_Balance (Account_Adjust AccountNum_GetBranchID bank h x true) h := by
    rw [hbal1]; exact le_add_of_nonneg_left hb0
  refine ⟨_, _, deposit_found AccountNum_GetBranchID hl hx,
    withdraw_found_ok AccountNum_GetBranchID hl1 hx hle, rfl, rfl, ?_, ?_⟩
  · apply List.ext_getElem?
    intro j
    simp only [adjust_getElem?]
    by_cases hj : h = j
    · subst hj
      cases hget : bank.accounts[h]? with
      | none => simp
      | some acc =>
        cases acc with
        | mk num bal => simp
    · simp [hj]
  · intro c
    simp only [adjust_branches, hderef1]
    by_cases hc : AccountNum_GetBranchID (deref bank h).accountNumber = c
    · simp [hc]
    · simp [hc]

/-- Witness of C22 on the scenario bank: depositing 7 into account 100 and withdrawing 7
again. -/
theorem deposit_then_withdraw_witness :
    ∃ r1 r2, Teller_DoDeposit scenarioBranchID scenarioBank 100 7 = some r1 ∧
      Teller_DoWithdraw scenarioBranchID r1.bank 100 7 = some r2 ∧
      r1.code = ERROR_SUCCESS ∧ r2.code = ERROR_SUCCESS ∧
      r2.bank.accounts = scenarioBank.accounts ∧
      (∀ c, r2.bank.branches c = scenarioBank.branches c) :=
  deposit_then_withdraw scenarioBranchID scenarioBank 100 7 50 (by decide) (by decide)
    (by decide)

end

end Assn6

namespace Assn4

/-! ## Lemmas on chars and on the hash loop -/

theorem toULong_cast (v : Int) : ((toULong v : Nat) : Int) = v % 2 ^ 64 := by
  unfold toULong
  exact Int.toNat_of_nonneg (Int.emod_nonneg v (by norm_num))

theorem toULong_of_range (v : Int) (h0 : 0 ≤ v) (h1 : v < 2 ^ 64) :
    toULong v = v.toNat := by
  unfold toULong
  rw [Int.emod_eq_of_lt h0 h1]

theorem hashLoop_snoc (sg : Bool) (hashcode : Nat) (t : CString) (c : Nat) :
    hashLoop sg hashcode (t ++ [c]) =
      (hashLoop sg hashcode t * toULong kHashMultiplier +
        toULong (tolower (charToInt sg c))) % 2 ^ 64 := by
  induction t generalizing hashcode with
  | nil => simp [hashLoop]
  | cons a rest ih =>
    show hashLoop sg _ (rest ++ [c]) = _
    exact ih _

theorem hash_step_cast (a : Nat) (k x : Int) :
    (((a * toULong k + toULong x) % 2 ^ 64 : Nat) : Int) = ((a : Int) * k + x) % 2 ^ 64 := by
  push_cast
  rw [toULong_cast, toULong_cast]
  have h1 : ((a : Int) * (k % 2 ^ 64) + x % 2 ^ 64) ≡ (a : Int) * k + x [ZMOD 2 ^ 64] :=
    Int.ModEq.add (Int.ModEq.mul_left _ (Int.mod_modEq k _)) (Int.mod_modEq x _)
  exact h1

theorem tolower_eq_zero {c : Int} (h : tolower c = 0) : c = 0 := by
  unfold tolower at h
  split_ifs at h <;> omega

theorem charToInt_cases (sg : Bool) (c : Nat) :
    (charToInt sg c = ((c % 256 : Nat) : Int) ∧ (sg = false ∨ c % 256 < 128)) ∨
    (charToInt sg c = ((c % 256 : Nat) : Int) - 256 ∧ 128 ≤ c % 256) := by
  unfold charToInt
  cases sg
  · left; simp
  · by_cases h : 128 ≤ c % 256
    · right; simp [h]
    · left; simp [h]; omega

theorem tolower_char (sg : Bool) (c1 c2 : Nat)
    (h : tolower (ucharToInt c1) = tolower (ucharToInt c2)) :
    tolower (charToInt sg c1) = tolower (charToInt sg c2) := by
  have b1 : c1 % 256 < 256 := Nat.mod_lt _ (by norm_num)
  have b2 : c2 % 256 < 256 := Nat.mod_lt _ (by norm_num)
  cases sg
  · simpa [charToInt, ucharToInt] using h
  · unfold tolower ucharToInt at h
    unfold tolower charToInt
    simp only [Bool.true_and, decide_eq_true_eq]
    split_ifs at h ⊢ <;> omega

theorem strcasecmp_hash (sg : Bool) (s1 : CString) :
    ∀ (s2 : CString) (hashcode : Nat), NoNul s1 → NoNul s2 → strcasecmp s1 s2 = 0 →
      hashLoop sg hashcode s1 = hashLoop sg hashcode s2 := by
  induction s1 with
  | nil =>
    intro s2 hashcode _ h2 hcmp
    cases s2 with
    | nil => rfl
    | cons c2 r2 =>
      simp only [strcasecmp] at hcmp
      have hz : ucharToInt c2 = 0 := tolower_eq_zero (by omega)
      have := h2 c2 (List.mem_cons_self c2 r2)
      unfold ucharToInt at hz
      omega
  | cons c1 r1 ih =>
    intro s2 hashcode h1 h2 hcmp
    cases s2 with
    | nil =>
      simp only [strcasecmp] at hcmp
      have hz : ucharToInt c1 = 0 := tolower_eq_zero (by omega)
      have := h1 c1 (List.mem_cons_self c1 r1)
      unfold ucharToInt at hz
      omega
    | cons c2 r2 =>
      simp only [strcasecmp] at hcmp
      by_cases heq : tolower (ucharToInt c1) = tolower (ucharToInt c2)
      · rw [if_pos heq] at hcmp
        simp only [hashLoop, tolower_char sg c1 c2 heq]
        exact ih r2 _ (fun c hc => h1 c (List.mem_cons_of_mem c1 hc))
          (fun c hc => h2 c (List.mem_cons_of_mem c2 hc)) hcmp
      · rw [if_neg heq] at hcmp
        exact absurd (by omega) heq

theorem isalpha_char (sg : Bool) (c : Nat) :
    isalpha (charToInt sg c) = true ↔ IsLetter c := by
  have b : c % 256 < 256 := Nat.mod_lt _ (by norm_num)
  unfold isalpha IsLetter
  rw [decide_eq_true_eq]
  rcases charToInt_cases sg c with ⟨e, _⟩ | ⟨e, g⟩ <;> rw [e] <;> omega

theorem isalnum_char (sg : Bool) (c : Nat) :
    isalnum (charToInt sg c) = true ↔ IsLetter c ∨ IsDigit c := by
  have b : c % 256 < 256 := Nat.mod_lt _ (by norm_num)
  unfold isalnum
  rw [Bool.or_eq_true, isalpha_char, decide_eq_true_eq]
  apply or_congr Iff.rfl
  unfold IsDigit
  rcases charToInt_cases sg c with ⟨e, _⟩ | ⟨e, g⟩ <;> rw [e] <;> omega

theorem hyphen_char (sg : Bool) (c : Nat) : charToInt sg c = 45 ↔ c % 256 = 45 := by
  have b : c % 256 < 256 := Nat.mod_lt _ (by norm_num)
  rcases charToInt_cases sg c with ⟨e, _⟩ | ⟨e, g⟩ <;> rw [e] <;> omega

theorem wellFormedLoop_iff (sg : Bool) (rest : CString) :
    wellFormedLoop sg rest = true ↔
      ∀ x ∈ rest, IsLetter x ∨ IsDigit x ∨ x % 256 = 45 := by
  induction rest with
  | nil => simp [wellFormedLoop]
  | cons c r ih =>
    have hstep : (!isalnum (charToInt sg c) && decide (charToInt sg c ≠ 45)) = true ↔
        ¬ (IsLetter c ∨ IsDigit c ∨ c % 256 = 45) := by
      rw [Bool.and_eq_true, Bool.not_eq_true', decide_eq_true_eq, ← Bool.not_eq_true,
        isalnum_char, Ne, hyphen_char]
      tauto
    simp only [wellFormedLoop, List.mem_cons, forall_eq_or_imp]
    by_cases hc : IsLetter c ∨ IsDigit c ∨ c % 256 = 45
    · rw [if_neg (fun h => (hstep.mp h) hc), ih]
      exact ⟨fun h => ⟨hc, h⟩, fun h => h.2⟩
    · rw [if_pos (hstep.mpr hc)]
      exact ⟨fun h => Bool.noConfusion h, fun h => absurd h.1 hc⟩

/-! ## The claims on the news search -/

/-- C13: for every string `s` and every `numBuckets > 0` (an `int`), `StringHash` returns
an integer `h` with `0 ≤ h < numBuckets`, the hash code reduced modulo `numBuckets`; the
hash code starts at 0 and each char `c` turns it into
`hashcode * kHashMultiplier + tolower(c)` modulo `2^64`, with
`kHashMultiplier = -1664117991`. -/
theorem stringHash_range (charIsSigned : Bool) (s : CString) (numBuckets : Int)
    (hpos : 0 < numBuckets) (hint : numBuckets < 2 ^ 31) :
    ∃ h, StringHash charIsSigned s numBuckets = some h ∧ 0 ≤ h ∧ h < numBuckets ∧
      h = ((hashLoop charIsSigned 0 s : Nat) : Int) % numBuckets ∧
      hashLoop charIsSigned 0 [] = 0 ∧
      kHashMultiplier = -1664117991 ∧
      ∀ (t : CString) (c : Nat),
        ((hashLoop charIsSigned 0 (t ++ [c]) : Nat) : Int) =
          (((hashLoop charIsSigned 0 t : Nat) : Int) * kHashMultiplier +
            tolower (charToInt charIsSigned c)) % 2 ^ 64 := by
  have hnb : toULong numBuckets = numBuckets.toNat :=
    toULong_of_range numBuckets (Int.le_of_lt hpos) (by omega)
  have hnat : 0 < numBuckets.toNat := by omega
  have hlt : hashLoop charIsSigned 0 s % numBuckets.toNat < numBuckets.toNat :=
    Nat.mod_lt _ hnat
  have hcast : ((hashLoop charIsSigned 0 s % numBuckets.toNat : Nat) : Int) =
      ((hashLoop charIsSigned 0 s : Nat) : Int) % numBuckets := by
    rw [Int.natCast_mod, Int.toNat_of_nonneg (Int.le_of_lt hpos)]
  have hconv : toInt32 (hashLoop charIsSigned 0 s % numBuckets.toNat) =
      ((hashLoop charIsSigned 0 s % numBuckets.toNat : Nat) : Int) := by
    unfold toInt32
    omega
  refine ⟨toInt32 (hashLoop charIsSigned 0 s % numBuckets.toNat), ?_, ?_, ?_, ?_, rfl, rfl,
    ?_⟩
  · unfold StringHash
    rw [hnb, if_neg (by omega)]
  · rw [hconv]; omega
  · rw [hconv]; omega
  · rw [hconv, hcast]
  · intro t c
    rw [hashLoop_snoc]
    exact hash_step_cast _ _ _

/-- Witness of C13: "Peter Pawlowski" in the 1009 buckets of the stop-word set hashes to
bucket 149. Where plain `char` is signed, the one-char string of the byte 0xE9 hashes to
233 (`tolower(-23)` is 233) and that of the byte 0xFF to 383 (`tolower(-1)` is -1, which
is `2^64 - 1` as an `unsigned long`); where it is unsigned they hash to 233 and 255. -/
theorem stringHash_range_witness :
    StringHash true peterPawlowski 1009 = some 149 ∧
    StringHash true [233] 1009 = some 233 ∧
    StringHash true [255] 1009 = some 383 ∧
    StringHash false [233] 1009 = some 233 ∧
    StringHash false [255] 1009 = some 255 ∧
    ∃ h, StringHash true peterPawlowski 1009 = some h ∧ 0 ≤ h ∧ h < 1009 := by
  obtain ⟨h, hh, h0, h1, _⟩ :=
    stringHash_range true peterPawlowski 1009 (by decide) (by decide)
  exact ⟨by decide, by decide, by decide, by decide, by decide, h, hh, h0, h1⟩

/-- C14: `StringHash` is case-insensitive, consistent with `StringCmp`: two strings that
`StringCmp` finds equal (`StringCmp(s1, s2) == 0`) have the same hash for every number of
buckets. -/
theorem stringHash_case_insensitive (charIsSigned : Bool) (s1 s2 : CString)
    (numBuckets : Int) (h1 : NoNul s1) (h2 : NoNul s2) (hcmp : StringCmp s1 s2 = 0) :
    StringHash charIsSigned s1 numBuckets = StringHash charIsSigned s2 numBuckets := by
  unfold StringHash
  rw [strcasecmp_hash charIsSigned s1 s2 0 h1 h2 hcmp]

/-- Witness of C14: "Peter Pawlowski" and "PETER PAWLOWSKI" compare equal and hash to the
same one of 10007 buckets. -/
theorem stringHash_case_insensitive_witness :
    StringCmp peterPawlowski peterPawlowskiUpper = 0 ∧
    peterPawlowski ≠ peterPawlowskiUpper ∧
    StringHash true peterPawlowski 10007 = StringHash true peterPawlowskiUpper 10007 :=
  ⟨by decide, by decide,
    stringHash_case_insensitive true peterPawlowski peterPawlowskiUpper 10007 (by decide)
      (by decide) (by decide)⟩

/-- C15 as stated fails: the empty word does not begin with a letter, and
`WordIsWellFormed` returns true on it. -/
theorem wordIsWellFormed_empty_counterexample :
    WordIsWellFormed true [] = true ∧ ¬ BeginsWithLetter [] := by
  refine ⟨rfl, ?_⟩
  rintro ⟨c, rest, h, _⟩
  cases h

/-- C15, amended: `WordIsWellFormed(word)` returns true if and only if the word is
empty, or begins with a letter of the alphabet and has only letters, digits and `-` after
it. -/
theorem wordIsWellFormed_iff (charIsSigned : Bool) (word : CString) :
    WordIsWellFormed charIsSigned word = true ↔ word = [] ∨ BeginsWithLetter word := by
  cases word with
  | nil => simp [WordIsWellFormed]
  | cons c rest =>
    unfold WordIsWellFormed BeginsWithLetter
    by_cases hc : IsLetter c
    · have ha : isalpha (charToInt charIsSigned c) = true := (isalpha_char _ c).mpr hc
      simp only [ha, Bool.not_true, Bool.false_eq_true, if_false, wellFormedLoop_iff]
      constructor
      · intro h; exact Or.inr ⟨c, rest, rfl, hc, h⟩
      · rintro (h | ⟨c1, r1, heq, _, hall⟩)
        · cases h
        · cases heq; exact hall
    · have ha : isalpha (charToInt charIsSigned c) = false := by
        rw [← Bool.not_eq_true, isalpha_char]; exact hc
      simp only [ha, Bool.not_false, if_true]
      constructor
      · intro h; cases h
      · rintro (h | ⟨c1, r1, heq, hl, _⟩)
        · cases h
        · cases heq; exact absurd hl hc

/-- C16: `VectorCmp` is the reverse of the comparison of integers on `freq`: it returns
-1 when `a1.freq > a2.freq`, 1 when `a1.freq < a2.freq` and 0 when they are equal; its
sign is antisymmetric, it is transitive and total, and a list in which each article
compares `≤ 0` with the next lists the articles by non-increasing frequency. -/
theorem vectorCmp_spec (a1 a2 a3 : Article) (l : List Article) :
    (a1.freq > a2.freq → VectorCmp a1 a2 = -1) ∧
    (a1.freq < a2.freq → VectorCmp a1 a2 = 1) ∧
    (a1.freq = a2.freq → VectorCmp a1 a2 = 0) ∧
    VectorCmp a2 a1 = - VectorCmp a1 a2 ∧
    (VectorCmp a1 a2 ≤ 0 → VectorCmp a2 a3 ≤ 0 → VectorCmp a1 a3 ≤ 0) ∧
    (VectorCmp a1 a2 ≤ 0 ∨ VectorCmp a2 a1 ≤ 0) ∧
    (l.Chain' (fun x y => VectorCmp x y ≤ 0) →
      l.Pairwise (fun x y => y.freq ≤ x.freq)) := by
  have key : ∀ x y : Article, VectorCmp x y ≤ 0 ↔ y.freq ≤ x.freq := by
    intro x y
    unfold VectorCmp
    simp only
    split_ifs <;> omega
  refine ⟨?_, ?_, ?_, ?_, ?_, ?_, ?_⟩
  · intro h; unfold VectorCmp; simp only; rw [if_pos h]
  · intro h; unfold VectorCmp; simp only; split_ifs <;> omega
  · intro h; unfold VectorCmp; simp only; split_ifs <;> omega
  · unfold VectorCmp; simp only; split_ifs <;> omega
  · rw [key, key, key]; omega
  · rw [key, key]; omega
  · intro hchain
    have hchain2 : l.Chain' (fun x y => y.freq ≤ x.freq) :=
      hchain.imp (fun {x y} h => (key x y).mp h)
    have htrans : ∀ a b c : Article, b.freq ≤ a.freq → c.freq ≤ b.freq → c.freq ≤ a.freq :=
      fun a b c h1 h2 => Int.le_trans h2 h1
    clear hchain
    induction l with
    | nil => exact List.Pairwise.nil
    | cons a rest ih =>
      have hrest := ih (List.Chain'.tail hchain2)
      refine List.Pairwise.cons ?_ hrest
      intro b hb
      cases rest with
      | nil => cases hb
      | cons c rest2 =>
        have hac : c.freq ≤ a.freq := (List.chain'_cons.mp hchain2).1
        rcases List.mem_cons.mp hb with hbc | hbr
        · rw [hbc]; exact hac
        · exact htrans a c b hac ((List.pairwise_cons.mp hrest).1 b hbr)

/-- Witness of C16: articles with frequencies 3 and 1, and the list of frequencies
3, 2, 2, 1. -/
theorem vectorCmp_spec_witness :
    VectorCmp ⟨[], [], 3⟩ ⟨[], [], 1⟩ = -1 ∧ VectorCmp ⟨[], [], 1⟩ ⟨[], [], 3⟩ = 1 ∧
    VectorCmp ⟨[], [], 2⟩ ⟨[], [], 2⟩ = 0 ∧
    List.Pairwise (fun x y => y.freq ≤ x.freq)
      [(⟨[], [], 3⟩ : Article), ⟨[], [], 2⟩, ⟨[], [], 2⟩, ⟨[], [], 1⟩] := by
  have h :=
    vectorCmp_spec ⟨[], [], 3⟩ ⟨[], [], 1⟩ ⟨[], [], 1⟩
      [(⟨[], [], 3⟩ : Article), ⟨[], [], 2⟩, ⟨[], [], 2⟩, ⟨[], [], 1⟩]
  exact ⟨h.1 (by decide), by decide, by decide, h.2.2.2.2.2.2 (by simp [VectorCmp])⟩

end Assn4

namespace Assn2

/-! ## The movie database -/

/-- Whatever the film and the files, a call of `getCast` that completes returns false. -/
theorem getCast_returns_false (filmLess filmEq : film → film → Bool) (charIsSigned : Bool)
    (actorFile movieFile : Bytes) (movie : film) (players : List (List Nat)) (b : Bool)
    (players1 : List (List Nat))
    (h : getCast filmLess filmEq charIsSigned actorFile movieFile movie players =
      some (b, players1)) : b = false := by
  unfold getCast at h
  repeat' split at h
  all_goals (cases h <;> rfl)

/-- A call of `getCredits` that completes returns true exactly when `bsearch` finds the
player in the actor table. -/
theorem getCredits_true_iff_found (charIsSigned : Bool) (actorFile movieFile : Bytes)
    (player : List Nat) (films films1 : List film) (b : Bool)
    (h : getCredits charIsSigned actorFile movieFile player films = some (b, films1)) :
    b = true ↔
      ∃ actorSize idx, readInt actorFile 0 = some actorSize ∧
        Libc.bsearch (cmprActors actorFile player) actorSize.toNat = some (some idx) := by
  unfold getCredits at h
  split at h
  · cases h
  · rename_i actorSize hsize
    split at h
    · cases h
    · split at h
      · cases h
      · rename_i hfound
        simp only [Option.some.injEq, Prod.mk.injEq] at h
        constructor
        · intro hb; rw [← h.1] at hb; cases hb
        · rintro ⟨size2, idx, hs2, hf2⟩
          rw [hsize] at hs2
          cases hs2
          rw [hfound] at hf2
          cases hf2
      · rename_i idx hfound
        have hb : b = true := by
          repeat' split at h
          all_goals (cases h <;> rfl)
        exact ⟨fun _ => ⟨actorSize, idx, hsize, hfound⟩, fun _ => hb⟩

/-- C23, the code at the failing input: in the sample movie file `bsearch` finds the film
"Up" (2009), and `getCast` appends its cast, the actor "Al", to `players` and returns
false, where the claim says true; `getCredits`, on the player "Al", whom `bsearch` finds
in the sample actor file, appends the film and returns true. -/
theorem getCast_found_returns_false :
    Libc.bsearch
        (cmprMovies filmLessByTitleYear filmEqByTitleYear true sampleMovieFile
          ⟨[85, 112], 2009⟩) 1 = some (some 0) ∧
    getCast filmLessByTitleYear filmEqByTitleYear true sampleActorFile sampleMovieFile
        ⟨[85, 112], 2009⟩ [] = some (false, [[65, 108]]) ∧
    Libc.bsearch (cmprActors sampleActorFile [65, 108]) 1 = some (some 0) ∧
    getCredits true sampleActorFile sampleMovieFile [65, 108] [] =
      some (true, [⟨[85, 112], 2009⟩]) := by
  decide

/-! ## The padded layout of the records -/

theorem smallestEven_unique {lo c c2 : Nat} (h : SmallestEvenAtLeast lo c)
    (h2 : SmallestEvenAtLeast lo c2) : c = c2 :=
  Nat.le_antisymm (h.2.2 c2 h2.1 h2.2.1) (h2.2.2 c h.1 h.2.1)

theorem smallestMultipleOf4_unique {lo a a2 : Nat} (h : SmallestMultipleOf4AtLeast lo a)
    (h2 : SmallestMultipleOf4AtLeast lo a2) : a = a2 :=
  Nat.le_antisymm (h.2.2 a2 h2.1 h2.2.1) (h2.2.2 a h.1 h.2.1)

theorem filmSizeOffset_smallest (n : Nat) :
    SmallestEvenAtLeast (n + 1) (filmSizeOffset n) := by
  unfold SmallestEvenAtLeast filmSizeOffset
  refine ⟨?_, ?_, ?_⟩
  all_goals (try intro k hk hle)
  all_goals (split_ifs at * <;> omega)

theorem filmLocOffset_smallest (n : Nat) :
    SmallestMultipleOf4AtLeast (filmSizeOffset n + 2) (filmLocOffset n) := by
  unfold SmallestMultipleOf4AtLeast filmLocOffset filmSizeOffset
  refine ⟨?_, ?_, ?_⟩
  all_goals (try intro k hk hle)
  all_goals (split_ifs at * <;> omega)

theorem castSizeOffset_smallest (n : Nat) :
    SmallestEvenAtLeast (n + 2) (castSizeOffset n) := by
  unfold SmallestEvenAtLeast castSizeOffset
  refine ⟨?_, ?_, ?_⟩
  all_goals (try intro k hk hle)
  all_goals (split_ifs at * <;> omega)

theorem actorLocOffset_smallest (n : Nat) :
    SmallestMultipleOf4AtLeast (castSizeOffset n + 2) (actorLocOffset n) := by
  unfold SmallestMultipleOf4AtLeast actorLocOffset castSizeOffset
  refine ⟨?_, ?_, ?_⟩
  all_goals (try intro k hk hle)
  all_goals (split_ifs at * <;> omega)

theorem creditsLoop_iff (sg : Bool) (actorFile movieFile : Bytes) (filmLoc : Int) :
    ∀ (count i : Nat) (films films1 : List film),
      creditsLoop sg actorFile movieFile filmLoc count i films = some films1 ↔
        ∃ new : List film, new.length = count ∧
          (∀ j, j < count → ∃ movieLoc title yearByte,
            readInt actorFile (filmLoc + 4 * ((i + j : Nat) : Int)) = some movieLoc ∧
            readString movieFile movieLoc = some title ∧
            byteAt movieFile (movieLoc + (title.length : Int) + 1) = some yearByte ∧
            new[j]? = some ⟨title, 1900 + Assn4.charToInt sg yearByte⟩) ∧
          films1 = films ++ new := by
  intro count
  induction count with
  | zero =>
    intro i films films1
    simp only [creditsLoop]
    constructor
    · intro h
      cases h
      exact ⟨[], rfl, fun j hj => absurd hj (Nat.not_lt_zero j), by simp⟩
    · rintro ⟨new, hlen, _, rfl⟩
      have hnil : new = [] := List.length_eq_zero.mp hlen
      subst hnil
      simp
  | succ count ih =>
    intro i films films1
    simp only [creditsLoop]
    cases h1 : readInt actorFile (filmLoc + 4 * (i : Int)) with
    | none =>
      constructor
      · intro h; cases h
      · rintro ⟨new, _, hall, _⟩
        obtain ⟨m, t, y, hm, _⟩ := hall 0 (Nat.succ_pos _)
        rw [Nat.add_zero, h1] at hm
        cases hm
    | some movieLoc =>
      dsimp only
      cases h2 : readString movieFile movieLoc with
      | none =>
        constructor
        · intro h; cases h
        · rintro ⟨new, _, hall, _⟩
          obtain ⟨m, t, y, hm, ht, _⟩ := hall 0 (Nat.succ_pos _)
          rw [Nat.add_zero, h1] at hm
          cases hm
          rw [h2] at ht
          cases ht
      | some title =>
        dsimp only
        cases h3 : byteAt movieFile (movieLoc + (title.length : Int) + 1) with
        | none =>
          constructor
          · intro h; cases h
          · rintro ⟨new, _, hall, _⟩
            obtain ⟨m, t, y, hm, ht, hy, _⟩ := hall 0 (Nat.succ_pos _)
            rw [Nat.add_zero, h1] at hm
            cases hm
            rw [h2] at ht
            cases ht
            rw [h3] at hy
            cases hy
        | some yearByte =>
          dsimp only
          show creditsLoop sg actorFile movieFile filmLoc count (i + 1) _ = some films1 ↔ _
          rw [ih]
          constructor
          · rintro ⟨new, hlen, hall, heq⟩
            refine ⟨⟨title, 1900 + Assn4.charToInt sg yearByte⟩ :: new, by simp [hlen],
              ?_, by simp [heq]⟩
            intro j hj
            cases j with
            | zero => exact ⟨movieLoc, title, yearByte, by simpa using h1, h2, h3, by simp⟩
            | succ j =>
              obtain ⟨m, t, y, hm, ht, hy, hn⟩ := hall j (by omega)
              have e : i + (j + 1) = i + 1 + j := by omega
              exact ⟨m, t, y, by rw [e]; exact hm, ht, hy, by simpa using hn⟩
          · rintro ⟨new, hlen, hall, heq⟩
            cases new with
            | nil => simp at hlen
            | cons x rest =>
              obtain ⟨m, t, y, hm, ht, hy, hn⟩ := hall 0 (Nat.succ_pos _)
              rw [Nat.add_zero, h1] at hm
              cases hm
              rw [h2] at ht
              cases ht
              rw [h3] at hy
              cases hy
              simp only [List.getElem?_cons_zero, Option.some.injEq] at hn
              subst hn
              refine ⟨rest, by simpa using hlen, ?_, by simp [heq]⟩
              intro j hj
              obtain ⟨m, t, y, hm, ht, hy, hn⟩ := hall (j + 1) (by omega)
              have e : i + (j + 1) = i + 1 + j := by omega
              exact ⟨m, t, y, by rw [← e]; exact hm, ht, hy, by simpa using hn⟩

theorem castLoop_iff (actorFile movieFile : Bytes) (actorLoc : Int) :
    ∀ (count i : Nat) (players players1 : List (List Nat)),
      castLoop actorFile movieFile actorLoc count i players = some players1 ↔
        ∃ new : List (List Nat), new.length = count ∧
          (∀ j, j < count → ∃ playerLoc name,
            readInt movieFile (actorLoc + 4 * ((i + j : Nat) : Int)) = some playerLoc ∧
            readString actorFile playerLoc = some name ∧
            new[j]? = some name) ∧
          players1 = players ++ new := by
  intro count
  induction count with
  | zero =>
    intro i players players1
    simp only [castLoop]
    constructor
    · intro h
      cases h
      exact ⟨[], rfl, fun j hj => absurd hj (Nat.not_lt_zero j), by simp⟩
    · rintro ⟨new, hlen, _, rfl⟩
      have hnil : new = [] := List.length_eq_zero.mp hlen
      subst hnil
      simp
  | succ count ih =>
    intro i players players1
    simp only [castLoop]
    cases h1 : readInt movieFile (actorLoc + 4 * (i : Int)) with
    | none =>
      constructor
      · intro h; cases h
      · rintro ⟨new, _, hall, _⟩
        obtain ⟨m, t, hm, _⟩ := hall 0 (Nat.succ_pos _)
        rw [Nat.add_zero, h1] at hm
        cases hm
    | some playerLoc =>
      dsimp only
      cases h2 : readString actorFile playerLoc with
      | none =>
        constructor
        · intro h; cases h
        · rintro ⟨new, _, hall, _⟩
          obtain ⟨m, t, hm, ht, _⟩ := hall 0 (Nat.succ_pos _)
          rw [Nat.add_zero, h1] at hm
          cases hm
          rw [h2] at ht
          cases ht
      | some name =>
        dsimp only
        show castLoop actorFile movieFile actorLoc count (i + 1) _ = some players1 ↔ _
        rw [ih]
        constructor
        · rintro ⟨new, hlen, hall, heq⟩
          refine ⟨name :: new, by simp [hlen], ?_, by simp [heq]⟩
          intro j hj
          cases j with
          | zero => exact ⟨playerLoc, name, by simpa using h1, h2, by simp⟩
          | succ j =>
            obtain ⟨m, t, hm, ht, hn⟩ := hall j (by omega)
            have e : i + (j + 1) = i + 1 + j := by omega
            exact ⟨m, t, by rw [e]; exact hm, ht, by simpa using hn⟩
        · rintro ⟨new, hlen, hall, heq⟩
          cases new with
          | nil => simp at hlen
          | cons x rest =>
            obtain ⟨m, t, hm, ht, hn⟩ := hall 0 (Nat.succ_pos _)
            rw [Nat.add_zero, h1] at hm
            cases hm
            rw [h2] at ht
            cases ht
            simp only [List.getElem?_cons_zero, Option.some.injEq] at hn
            subst hn
            refine ⟨rest, by simpa using hlen, ?_, by simp [heq]⟩
            intro j hj
            obtain ⟨m, t, hm, ht, hn⟩ := hall (j + 1) (by omega)
            have e : i + (j + 1) = i + 1 + j := by omega
            exact ⟨m, t, by rw [← e]; exact hm, ht, by simpa using hn⟩


theorem bsearch_zero (compar : Nat → Option Int) : Libc.bsearch compar 0 = some none := rfl

theorem getCredits_found (sg : Bool) (actorFile movieFile : Bytes) (player : List Nat)
    (films : List film) (actorSize : Int) (idx : Nat) (playerLoc : Int)
    (hsize : readInt actorFile 0 = some actorSize)
    (hfound : Libc.bsearch (cmprActors actorFile player) actorSize.toNat = some (some idx))
    (hloc : readInt actorFile (4 + 4 * (idx : Int)) = some playerLoc)
    (res : Bool × List film) :
    getCredits sg actorFile movieFile player films = some res ↔
      ∃ (filmSize : Int) (new : List film),
        readShort actorFile (playerLoc + (filmSizeOffset player.length : Int)) =
          some filmSize ∧
        new.length = filmSize.toNat ∧
        (∀ i, i < filmSize.toNat → ∃ movieLoc title yearByte,
          readInt actorFile
              (playerLoc + (filmLocOffset player.length : Int) + 4 * (i : Int)) =
            some movieLoc ∧
          readString movieFile movieLoc = some title ∧
          byteAt movieFile (movieLoc + (title.length : Int) + 1) = some yearByte ∧
          new[i]? = some ⟨title, 1900 + Assn4.charToInt sg yearByte⟩) ∧
        res = (true, films ++ new) := by
  have hnn : ¬ actorSize < 0 := by
    intro hneg
    have h0 : actorSize.toNat = 0 := by omega
    rw [h0, bsearch_zero] at hfound
    cases hfound
  unfold getCredits
  rw [hsize]
  dsimp only
  rw [if_neg hnn, hfound]
  dsimp only
  rw [hloc]
  dsimp only
  cases hs : readShort actorFile (playerLoc + (filmSizeOffset player.length : Int)) with
  | none =>
    dsimp only
    constructor
    · intro h; cases h
    · rintro ⟨fs, new, h, _⟩; cases h
  | some filmSize =>
    dsimp only
    have hiff := creditsLoop_iff sg actorFile movieFile
      (playerLoc + (filmLocOffset player.length : Int)) filmSize.toNat 0 films
    simp only [Nat.zero_add] at hiff
    cases hl : creditsLoop sg actorFile movieFile
        (playerLoc + (filmLocOffset player.length : Int)) filmSize.toNat 0 films with
    | none =>
      dsimp only
      constructor
      · intro h; cases h
      · rintro ⟨fs, new, h, hlen, hall, _⟩
        cases h
        have hsome := (hiff (films ++ new)).mpr ⟨new, hlen, hall, rfl⟩
        rw [hl] at hsome
        cases hsome
    | some films1 =>
      dsimp only
      obtain ⟨new, hlen, hall, heq⟩ := (hiff films1).mp hl
      constructor
      · intro h
        cases h
        exact ⟨filmSize, new, rfl, hlen, hall, by rw [heq]⟩
      · rintro ⟨fs, new2, h, hlen2, hall2, rfl⟩
        cases h
        have hsome := (hiff (films ++ new2)).mpr ⟨new2, hlen2, hall2, rfl⟩
        rw [hl] at hsome
        cases hsome
        rfl

theorem getCast_found (filmLess filmEq : film → film → Bool) (sg : Bool)
    (actorFile movieFile : Bytes) (movie : film) (players : List (List Nat))
    (moviesSize : Int) (idx : Nat) (movieLoc : Int)
    (hsize : readInt movieFile 0 = some moviesSize)
    (hfound : Libc.bsearch (cmprMovies filmLess filmEq sg movieFile movie)
      moviesSize.toNat = some (some idx))
    (hloc : readInt movieFile (4 + 4 * (idx : Int)) = some movieLoc)
    (res : Bool × List (List Nat)) :
    getCast filmLess filmEq sg actorFile movieFile movie players = some res ↔
      ∃ (castSize : Int) (new : List (List Nat)),
        readShort movieFile (movieLoc + (castSizeOffset movie.title.length : Int)) =
          some castSize ∧
        new.length = castSize.toNat ∧
        (∀ i, i < castSize.toNat → ∃ playerLoc name,
          readInt movieFile
              (movieLoc + (actorLocOffset movie.title.length : Int) + 4 * (i : Int)) =
            some playerLoc ∧
          readString actorFile playerLoc = some name ∧
          new[i]? = some name) ∧
        res = (false, players ++ new) := by
  have hnn : ¬ moviesSize < 0 := by
    intro hneg
    have h0 : moviesSize.toNat = 0 := by omega
    rw [h0, bsearch_zero] at hfound
    cases hfound
  unfold getCast
  rw [hsize]
  dsimp only
  rw [if_neg hnn, hfound]
  dsimp only
  rw [hloc]
  dsimp only
  cases hs : readShort movieFile (movieLoc + (castSizeOffset movie.title.length : Int)) with
  | none =>
    dsimp only
    constructor
    · intro h; cases h
    · rintro ⟨fs, new, h, _⟩; cases h
  | some castSize =>
    dsimp only
    have hiff := castLoop_iff actorFile movieFile
      (movieLoc + (actorLocOffset movie.title.length : Int)) castSize.toNat 0 players
    simp only [Nat.zero_add] at hiff
    cases hl : castLoop actorFile movieFile
        (movieLoc + (actorLocOffset movie.title.length : Int)) castSize.toNat 0 players with
    | none =>
      dsimp only
      constructor
      · intro h; cases h
      · rintro ⟨fs, new, h, hlen, hall, _⟩
        cases h
        have hsome := (hiff (players ++ new)).mpr ⟨new, hlen, hall, rfl⟩
        rw [hl] at hsome
        cases hsome
    | some players1 =>
      dsimp only
      obtain ⟨new, hlen, hall, heq⟩ := (hiff players1).mp hl
      constructor
      · intro h
        cases h
        exact ⟨castSize, new, rfl, hlen, hall, by rw [heq]⟩
      · rintro ⟨fs, new2, h, hlen2, hall2, rfl⟩
        cases h
        have hsome := (hiff (players ++ new2)).mpr ⟨new2, hlen2, hall2, rfl⟩
        rw [hl] at hsome
        cases hsome
        rfl

/-- C24: the offsets of the two lookups implement the padded layout. Let `c` be the
smallest even number `≥ n + 1` and `a` the smallest multiple of 4 that is `≥ c + 2`, for
the length `n` of the name of a player whom `bsearch` finds, with its record at
`playerLoc`. Then `getCredits` returns a result exactly when the 2-byte film count can be
read at `playerLoc + c` and, for every `i` below the count, the 4-byte film offset at
`playerLoc + a + 4 * i` and the film it points to can be read; the result is then `true`
with these films, in this order, appended to `films`. In the same way, with `c` the
smallest even number `≥ n + 2` and `a` the smallest multiple of 4 that is `≥ c + 2` for
the length `n` of the title of a film that `bsearch` finds, with its record at
`movieLoc`, `getCast` reads the 2-byte cast count at `movieLoc + c` and the actor offsets
at `movieLoc + a + 4 * i`, and appends the names they point to (the `bool` it returns is
`false`). These offsets are the ones the code computes, `filmSizeOffset`,
`filmLocOffset`, `castSizeOffset` and `actorLocOffset`, for every length `n`. -/
theorem lookups_read_padded_layout (charIsSigned : Bool) (actorFile movieFile : Bytes)
    (filmLess filmEq : film → film → Bool) :
    (∀ (player : List Nat) (films : List film) (c a : Nat),
      SmallestEvenAtLeast (player.length + 1) c →
      SmallestMultipleOf4AtLeast (c + 2) a →
      ∀ (actorSize : Int) (idx : Nat) (playerLoc : Int),
        readInt actorFile 0 = some actorSize →
        Libc.bsearch (cmprActors actorFile player) actorSize.toNat = some (some idx) →
        readInt actorFile (4 + 4 * (idx : Int)) = some playerLoc →
        ∀ res, getCredits charIsSigned actorFile movieFile player films = some res ↔
          ∃ (filmSize : Int) (new : List film),
            readShort actorFile (playerLoc + (c : Int)) = some filmSize ∧
            new.length = filmSize.toNat ∧
            (∀ i, i < filmSize.toNat → ∃ movieLoc title yearByte,
              readInt actorFile (playerLoc + (a : Int) + 4 * (i : Int)) = some movieLoc ∧
              readString movieFile movieLoc = some title ∧
              byteAt movieFile (movieLoc + (title.length : Int) + 1) = some yearByte ∧
              new[i]? = some ⟨title, 1900 + Assn4.charToInt charIsSigned yearByte⟩) ∧
            res = (true, films ++ new)) ∧
    (∀ (movie : film) (players : List (List Nat)) (c a : Nat),
      SmallestEvenAtLeast (movie.title.length + 2) c →
      SmallestMultipleOf4AtLeast (c + 2) a →
      ∀ (moviesSize : Int) (idx : Nat) (movieLoc : Int),
        readInt movieFile 0 = some moviesSize →
        Libc.bsearch (cmprMovies filmLess filmEq charIsSigned movieFile movie)
          moviesSize.toNat = some (some idx) →
        readInt movieFile (4 + 4 * (idx : Int)) = some movieLoc →
        ∀ res,
          getCast filmLess filmEq charIsSigned actorFile movieFile movie players =
            some res ↔
          ∃ (castSize : Int) (new : List (List Nat)),
            readShort movieFile (movieLoc + (c : Int)) = some castSize ∧
            new.length = castSize.toNat ∧
            (∀ i, i < castSize.toNat → ∃ playerLoc name,
              readInt movieFile (movieLoc + (a : Int) + 4 * (i : Int)) = some playerLoc ∧
              readString actorFile playerLoc = some name ∧
              new[i]? = some name) ∧
            res = (false, players ++ new)) ∧
    (∀ n : Nat,
      SmallestEvenAtLeast (n + 1) (filmSizeOffset n) ∧
      SmallestMultipleOf4AtLeast (filmSizeOffset n + 2) (filmLocOffset n) ∧
      SmallestEvenAtLeast (n + 2) (castSizeOffset n) ∧
      SmallestMultipleOf4AtLeast (castSizeOffset n + 2) (actorLocOffset n)) := by
  refine ⟨?_, ?_, ?_⟩
  · intro player films c a hc ha actorSize idx playerLoc hsize hfound hloc res
    have ec : c = filmSizeOffset player.length :=
      smallestEven_unique hc (filmSizeOffset_smallest _)
    subst ec
    have ea : a = filmLocOffset player.length :=
      smallestMultipleOf4_unique ha (filmLocOffset_smallest _)
    subst ea
    exact getCredits_found charIsSigned actorFile movieFile player films actorSize idx
      playerLoc hsize hfound hloc res
  · intro movie players c a hc ha moviesSize idx movieLoc hsize hfound hloc res
    have ec : c = castSizeOffset movie.title.length :=
      smallestEven_unique hc (castSizeOffset_smallest _)
    subst ec
    have ea : a = actorLocOffset movie.title.length :=
      smallestMultipleOf4_unique ha (actorLocOffset_smallest _)
    subst ea
    exact getCast_found filmLess filmEq charIsSigned actorFile movieFile movie players
      moviesSize idx movieLoc hsize hfound hloc res
  · intro n
    exact ⟨filmSizeOffset_smallest n, filmLocOffset_smallest n, castSizeOffset_smallest n,
      actorLocOffset_smallest n⟩

/-- Witness of C24 on the sample files. The name "Al" has 2 chars: the film count of its
record, at offset 8 of the actor file, is read at offset 4 of the record (the smallest
even number `≥ 3`) and the film offsets from offset 8 (the smallest multiple of 4 that is
`≥ 6`); `getCredits` appends the film "Up" (2009). The title "Up" has 2 chars: the cast
count of its record, at offset 8 of the movie file, is read at offset 4 of the record and
the actor offsets from offset 8; `getCast` appends the name "Al". For a name or a title
of 5 chars the film count is at offset 6 and the film offsets start at offset 8, the cast
count is at offset 8 and the actor offsets start at offset 12. -/
theorem lookups_read_padded_layout_witness :
    SmallestEvenAtLeast 3 4 ∧ SmallestMultipleOf4AtLeast 6 8 ∧
    SmallestEvenAtLeast 4 4 ∧
    filmSizeOffset 2 = 4 ∧ filmLocOffset 2 = 8 ∧ castSizeOffset 2 = 4 ∧
    actorLocOffset 2 = 8 ∧
    filmSizeOffset 5 = 6 ∧ filmLocOffset 5 = 8 ∧ castSizeOffset 5 = 8 ∧
    actorLocOffset 5 = 12 ∧
    readInt sampleActorFile (4 + 4 * 0) = some 8 ∧
    readShort sampleActorFile (8 + 4) = some 1 ∧
    readInt sampleActorFile (8 + 8 + 4 * 0) = some 8 ∧
    readInt sampleMovieFile (4 + 4 * 0) = some 8 ∧
    readShort sampleMovieFile (8 + 4) = some 1 ∧
    readInt sampleMovieFile (8 + 8 + 4 * 0) = some 8 ∧
    (∃ (filmSize : Int) (new : List film),
      readShort sampleActorFile (8 + ((4 : Nat) : Int)) = some filmSize ∧
      new.length = filmSize.toNat ∧
      (∀ i, i < filmSize.toNat → ∃ movieLoc title yearByte,
        readInt sampleActorFile (8 + ((8 : Nat) : Int) + 4 * (i : Int)) = some movieLoc ∧
        readString sampleMovieFile movieLoc = some title ∧
        byteAt sampleMovieFile (movieLoc + (title.length : Int) + 1) = some yearByte ∧
        new[i]? = some ⟨title, 1900 + Assn4.charToInt true yearByte⟩) ∧
      ((true, [⟨[85, 112], 2009⟩]) : Bool × List film) = (true, [] ++ new)) ∧
    (∃ (castSize : Int) (new : List (List Nat)),
      readShort sampleMovieFile (8 + ((4 : Nat) : Int)) = some castSize ∧
      new.length = castSize.toNat ∧
      (∀ i, i < castSize.toNat → ∃ playerLoc name,
        readInt sampleMovieFile (8 + ((8 : Nat) : Int) + 4 * (i : Int)) = some playerLoc ∧
        readString sampleActorFile playerLoc = some name ∧
        new[i]? = some name) ∧
      ((false, [[65, 108]]) : Bool × List (List Nat)) = (false, [] ++ new)) :=
  have h34 : SmallestEvenAtLeast 3 4 := ⟨by decide, by decide, fun k hk hle => by omega⟩
  have h68 : SmallestMultipleOf4AtLeast 6 8 :=
    ⟨by decide, by decide, fun k hk hle => by omega⟩
  have h44 : SmallestEvenAtLeast 4 4 := ⟨by decide, by decide, fun k hk hle => by omega⟩
  ⟨h34, h68, h44, by decide, by decide, by decide, by decide, by decide, by decide,
    by decide, by decide, by decide, by decide, by decide, by decide, by decide, by decide,
    ((lookups_read_padded_layout true sampleActorFile sampleMovieFile filmLessByTitleYear
        filmEqByTitleYear).1 [65, 108] [] 4 8 h34 h68 1 0 8 (by decide) (by decide)
        (by decide) (true, [⟨[85, 112], 2009⟩])).mp (by decide),
    ((lookups_read_padded_layout true sampleActorFile sampleMovieFile filmLessByTitleYear
        filmEqByTitleYear).2.1 ⟨[85, 112], 2009⟩ [] 4 8 h44 h68 1 0 8 (by decide)
        (by decide) (by decide) (false, [[65, 108]])).mp (by decide)⟩

end Assn2

namespace Libc

/-- An element that `bsearch` finds is an element of the range that compares equal to the
key. -/
theorem bsearchLoop_found (compar : Nat → Option Int) (fuel : Nat) :
    ∀ (l u idx : Nat), bsearchLoop compar fuel l u = some (some idx) →
      compar idx = some 0 ∧ l ≤ idx ∧ idx < u := by
  induction fuel with
  | zero => intro l u idx h; simp [bsearchLoop] at h
  | succ fuel ih =>
    intro l u idx h
    unfold bsearchLoop at h
    split at h
    · rename_i hlu
      split at h
      · cases h
      · rename_i c hc
        split at h
        · obtain ⟨h1, h2, h3⟩ := ih _ _ _ h
          exact ⟨h1, h2, by omega⟩
        · split at h
          · obtain ⟨h1, h2, h3⟩ := ih _ _ _ h
            exact ⟨h1, by omega, h3⟩
          · simp only [Option.some.injEq] at h
            subst h
            have hc0 : c = 0 := by omega
            subst hc0
            exact ⟨hc, by omega, by omega⟩
    · cases h

/-- The loop of `bsearch` ends within `u - l` rounds: more fuel does not change its
result. -/
theorem bsearchLoop_fuel (compar : Nat → Option Int) (fuel : Nat) :
    ∀ (l u : Nat), u - l ≤ fuel →
      bsearchLoop compar (fuel + 1) l u = bsearchLoop compar fuel l u := by
  induction fuel with
  | zero =>
    intro l u h
    have hlu : ¬ l < u := by omega
    simp [bsearchLoop, hlu]
  | succ fuel ih =>
    intro l u h
    conv_lhs => unfold bsearchLoop
    conv_rhs => unfold bsearchLoop
    by_cases hlu : l < u
    · simp only [hlu, if_true]
      cases compar ((l + u) / 2) with
      | none => rfl
      | some c =>
        simp only
        rw [ih l ((l + u) / 2) (by omega), ih ((l + u) / 2 + 1) u (by omega)]
    · simp only [hlu, if_false]

end Libc

namespace Assn3

/-! ## Lemmas on the search and on `HashSetEnter` -/

theorem searchLoop_none {α : Type} (f : α → α → Int) (key : α) (l : List α) (i : Int)
    (h : ∀ x ∈ l, f key x ≠ 0) : searchLoop f key l i = -1 := by
  induction l generalizing i with
  | nil => rfl
  | cons x rest ih =>
    have hx : f key x ≠ 0 := h x (List.mem_cons_self x rest)
    simp only [searchLoop, hx, if_false]
    exact ih (i + 1) (fun y hy => h y (List.mem_cons_of_mem x hy))

theorem searchLoop_first {α : Type} (f : α → α → Int) (key : α) (pre : List α) (y : α)
    (post : List α) (i : Int) (hpre : ∀ x ∈ pre, f key x ≠ 0) (hy : f key y = 0) :
    searchLoop f key (pre ++ y :: post) i = i + (pre.length : Int) := by
  induction pre generalizing i with
  | nil => simp [searchLoop, hy]
  | cons x rest ih =>
    have hx : f key x ≠ 0 := hpre x (List.mem_cons_self x rest)
    simp only [List.cons_append, searchLoop, hx, if_false]
    show searchLoop f key (rest ++ y :: post) (i + 1) = _
    rw [ih (i + 1) (fun z hz => hpre z (List.mem_cons_of_mem x hz))]
    simp only [List.length_cons]
    push_cast
    ring

theorem first_match_split {α : Type} (f : α → α → Int) (key : α) (l : List α) :
    (∀ x ∈ l, f key x ≠ 0) ∨
    ∃ pre y post, l = pre ++ y :: post ∧ (∀ x ∈ pre, f key x ≠ 0) ∧ f key y = 0 := by
  induction l with
  | nil => left; simp
  | cons a rest ih =>
    by_cases ha : f key a = 0
    · right; exact ⟨[], a, rest, rfl, by simp, ha⟩
    · rcases ih with hall | ⟨pre, y, post, hsplit, hpre, hy⟩
      · left
        intro x hx
        rcases List.mem_cons.mp hx with hxa | hxr
        · rw [hxa]; exact ha
        · exact hall x hxr
      · right
        refine ⟨a :: pre, y, post, by rw [hsplit]; rfl, ?_, hy⟩
        intro x hx
        rcases List.mem_cons.mp hx with hxa | hxr
        · rw [hxa]; exact ha
        · exact hpre x hxr

theorem vectorSearch_linear {α : Type} (v : vector α) (key : α) (f : α → α → Int) :
    VectorSearch v key f 0 false = some (searchLoop f key v.elems 0) := by
  have hlen : ¬ (v.logSize < 0) := by unfold vector.logSize; omega
  simp [VectorSearch, hlen]

theorem set_at_split {α : Type} (pre : List α) (y e : α) (post : List α) :
    (pre ++ y :: post).set pre.length e = pre ++ e :: post := by
  induction pre with
  | nil => rfl
  | cons a rest ih => simp [ih]

theorem getElem?_at_split {α : Type} (pre : List α) (e : α) (post : List α) :
    (pre ++ e :: post)[pre.length]? = some e := by
  induction pre with
  | nil => simp
  | cons a rest ih => simpa using ih

/-- What `HashSetEnter` does: the bucket of the element becomes `pre ++ e :: post`, where
no element of `pre` compares equal to `e`; either the bucket was `pre` and the count
grows by one, or the bucket was `pre ++ y :: post` with `y` comparing equal to `e` and
the count stays. -/
theorem enter_result {α : Type} (h : hashset α) (e : α) (hwf : WellFormed h)
    (hlo : 0 ≤ h.hashFn e h.numBuckets) (hhi : h.hashFn e h.numBuckets < h.numBuckets) :
    ∃ h1 v v1 pre post, HashSetEnter h e = some h1 ∧
      h.buckets[(h.hashFn e h.numBuckets).toNat]? = some v ∧
      h1.buckets = h.buckets.set (h.hashFn e h.numBuckets).toNat v1 ∧
      v1.elems = pre ++ e :: post ∧
      (∀ x ∈ pre, h.compareFn e x ≠ 0) ∧
      h1.hashFn = h.hashFn ∧ h1.compareFn = h.compareFn ∧ h1.numBuckets = h.numBuckets ∧
      ((v.elems = pre ∧ post = [] ∧ h1.logSize = h.logSize + 1) ∨
        (∃ y, v.elems = pre ++ y :: post ∧ h.compareFn e y = 0 ∧
          h1.logSize = h.logSize)) := by
  have hrange : ¬ (h.hashFn e h.numBuckets < 0 ∨ h.numBuckets ≤ h.hashFn e h.numBuckets) := by
    omega
  have hidx : (h.hashFn e h.numBuckets).toNat < h.buckets.length := by
    unfold WellFormed at hwf
    omega
  have hv : h.buckets[(h.hashFn e h.numBuckets).toNat]? =
      some h.buckets[(h.hashFn e h.numBuckets).toNat] := List.getElem?_eq_getElem hidx
  generalize h.buckets[(h.hashFn e h.numBuckets).toNat] = v at hv
  rcases first_match_split h.compareFn e v.elems with hall | ⟨pre, y, post, hsplit, hpre, hy⟩
  · refine ⟨{ h with
        buckets := h.buckets.set (h.hashFn e h.numBuckets).toNat (VectorAppend v e)
        logSize := h.logSize + 1 },
      v, VectorAppend v e, v.elems, [], ?_, hv, rfl, rfl, hall, rfl, rfl, rfl,
      Or.inl ⟨rfl, rfl, rfl⟩⟩
    unfold HashSetEnter
    rw [if_neg hrange]
    simp only [hv, vectorSearch_linear, searchLoop_none _ _ _ _ hall, if_true]
  · have hpos : ¬ ((pre.length : Int) < 0 ∨ v.logSize ≤ (pre.length : Int)) := by
      unfold vector.logSize
      rw [hsplit]
      simp only [List.length_append, List.length_cons]
      push_cast
      omega
    have hne : ¬ ((0 : Int) + (pre.length : Int) = -1) := by omega
    refine ⟨{ h with
        buckets := h.buckets.set (h.hashFn e h.numBuckets).toNat
          { v with elems := v.elems.set pre.length e } },
      v, { v with elems := v.elems.set pre.length e }, pre, post, ?_, hv, rfl, ?_,
      hpre, rfl, rfl, rfl, Or.inr ⟨y, hsplit, hy, rfl⟩⟩
    · unfold HashSetEnter
      rw [if_neg hrange]
      simp only [hv, vectorSearch_linear]
      rw [hsplit, searchLoop_first _ _ _ _ _ _ hpre hy, if_neg hne]
      unfold VectorReplace
      rw [zero_add, if_neg hpos]
      simp only [Int.toNat_ofNat, hsplit]
    · simp only [hsplit, set_at_split]

theorem lookup_result {α : Type} (h1 : hashset α) (e1 e : α) (v1 : vector α)
    (pre post : List α)
    (hlo : 0 ≤ h1.hashFn e1 h1.numBuckets) (hhi : h1.hashFn e1 h1.numBuckets < h1.numBuckets)
    (hb : h1.buckets[(h1.hashFn e1 h1.numBuckets).toNat]? = some v1)
    (helems : v1.elems = pre ++ e :: post)
    (hpre : ∀ x ∈ pre, h1.compareFn e1 x ≠ 0) (he : h1.compareFn e1 e = 0) :
    HashSetLookup h1 e1 = some (some e) := by
  have hrange :
      ¬ (h1.hashFn e1 h1.numBuckets < 0 ∨ h1.numBuckets ≤ h1.hashFn e1 h1.numBuckets) := by
    omega
  have hpos : ¬ ((pre.length : Int) < 0 ∨ v1.logSize ≤ (pre.length : Int)) := by
    unfold vector.logSize
    rw [helems]
    simp only [List.length_append, List.length_cons]
    push_cast
    omega
  have hne : ¬ ((0 : Int) + (pre.length : Int) = -1) := by omega
  unfold HashSetLookup
  rw [if_neg hrange]
  simp only [hb, vectorSearch_linear]
  rw [helems, searchLoop_first _ _ _ _ _ _ hpre he, if_neg hne]
  unfold VectorNth
  rw [zero_add, if_neg hpos, Int.toNat_ofNat]
  simp only [helems, getElem?_at_split]

theorem bucketOf_eq {α : Type} (h : hashset α) (e : α) (v : vector α)
    (hv : h.buckets[(h.hashFn e h.numBuckets).toNat]? = some v) :
    bucketOf h e = v.elems := by
  unfold bucketOf
  rw [hv]

theorem getElem?_set_self_of_some {β : Type} (l : List β) (i : Nat) (x v : β)
    (hv : l[i]? = some v) : (l.set i x)[i]? = some x := by
  have hlt : i < l.length := by
    by_contra hge
    rw [List.getElem?_eq_none (Nat.le_of_not_lt hge)] at hv
    cases hv
  rw [List.getElem?_set]
  simp [hlt]

/-! ## The claims on the hash set -/

/-- C25 as stated fails for a comparison function whose equality is not transitive. With
`nearCmp` (integers that differ by at most one compare equal) and one bucket: the set
holds 1, and 3 is entered, which does not compare equal to 1 and is appended. The
element 2 compares equal to 3 and has the same hash, and `HashSetLookup` of 2 returns the
stored element 1, which is not 3 and does not compare equal to 3. -/
theorem enter_then_lookup_counterexample :
    nearCmp 2 3 = 0 ∧ zeroHash 2 1 = zeroHash 3 1 ∧
    (((HashSetNew 4 1 zeroHash nearCmp).bind (fun s => HashSetEnter s 1)).bind
        (fun s => HashSetEnter s 3)).bind (fun s => HashSetLookup s 2) = some (some 1) ∧
    (1 : Int) ≠ 3 ∧ nearCmp 1 3 ≠ 0 ∧ nearCmp 3 1 ≠ 0 := by
  decide

/-- C25, amended: for a hash set `h` with one bucket per bucket number, a comparison
function whose equality (`compareFn(x, y) == 0`) is symmetric and transitive, and an
element `e` whose hash is in `[0, numBuckets)`: `HashSetEnter(h, e)` completes; after it,
`HashSetLookup(h, e')` returns the stored element `e` for every `e'` with
`compareFn(e', e) == 0` and the same hash; `HashSetCount` grows by exactly one, `e` being
appended to its bucket, if no element of the bucket compared equal to `e`, and otherwise
the first element of the bucket that compares equal to `e` is replaced by `e` and
`HashSetCount` is unchanged. -/
theorem enter_then_lookup {α : Type} (h : hashset α) (e : α) (hwf : WellFormed h)
    (heq : EqualityLike h.compareFn)
    (hlo : 0 ≤ h.hashFn e h.numBuckets) (hhi : h.hashFn e h.numBuckets < h.numBuckets) :
    ∃ h1, HashSetEnter h e = some h1 ∧
      (∀ e1, h.compareFn e1 e = 0 →
        h.hashFn e1 h.numBuckets = h.hashFn e h.numBuckets →
        HashSetLookup h1 e1 = some (some e)) ∧
      ((∀ x ∈ bucketOf h e, h.compareFn e x ≠ 0) →
        HashSetCount h1 = HashSetCount h + 1 ∧ bucketOf h1 e = bucketOf h e ++ [e]) ∧
      ((∃ x ∈ bucketOf h e, h.compareFn e x = 0) →
        HashSetCount h1 = HashSetCount h ∧
        ∃ pre y post, bucketOf h e = pre ++ y :: post ∧
          (∀ x ∈ pre, h.compareFn e x ≠ 0) ∧ h.compareFn e y = 0 ∧
          bucketOf h1 e = pre ++ e :: post) := by
  obtain ⟨h1, v, v1, pre, post, henter, hv, hbuckets, hv1, hpre, hf, hc, hn, hcase⟩ :=
    enter_result h e hwf hlo hhi
  have hb1 : h1.buckets[(h.hashFn e h.numBuckets).toNat]? = some v1 := by
    rw [hbuckets]
    exact getElem?_set_self_of_some _ _ _ _ hv
  have hbucket1 : bucketOf h1 e = pre ++ e :: post := by
    rw [bucketOf_eq h1 e v1 (by rw [hf, hn]; exact hb1), hv1]
  have hbucket : bucketOf h e = v.elems := bucketOf_eq h e v hv
  refine ⟨h1, henter, ?_, ?_, ?_⟩
  · intro e1 he1 hhash
    apply lookup_result h1 e1 e v1 pre post
    · rw [hf, hn, hhash]; exact hlo
    · rw [hf, hn, hhash]; exact hhi
    · rw [hf, hn, hhash]; exact hb1
    · exact hv1
    · intro x hx hzero
      rw [hc] at hzero
      exact hpre x hx (heq.2 e e1 x (heq.1 e1 e he1) hzero)
    · rw [hc]; exact he1
  · intro hnone
    rcases hcase with ⟨hvpre, hpost, hcount⟩ | ⟨y, hsplit, hy, _⟩
    · refine ⟨hcount, ?_⟩
      rw [hbucket1, hbucket, hvpre, hpost]
    · exact absurd hy (hnone y (by rw [hbucket, hsplit]; simp))
  · rintro ⟨x, hx, hx0⟩
    rcases hcase with ⟨hvpre, _, _⟩ | ⟨y, hsplit, hy, hcount⟩
    · rw [hbucket, hvpre] at hx
      exact absurd hx0 (hpre x hx)
    · exact ⟨hcount, pre, y, post, by rw [hbucket, hsplit], hpre, hy, hbucket1⟩

theorem intCmp_equalityLike : EqualityLike intCmp := by
  unfold EqualityLike intCmp
  constructor
  · intro x y h; omega
  · intro x y z h1 h2; omega

theorem sampleSet_built :
    (HashSetNew 4 3 modHash intCmp).bind (fun s => enterAll s [5, 8]) = some sampleSet := by
  rfl

/-- Witness of C25 (amended) on the sample set, which holds 5 and 8 in bucket 2: entering
11, which hashes to bucket 2 and compares equal to neither, makes the count 3, and
looking 11 up returns it. -/
theorem enter_then_lookup_witness :
    ∃ h1, HashSetEnter sampleSet 11 = some h1 ∧
      HashSetLookup h1 11 = some (some 11) ∧ HashSetCount h1 = 3 ∧
      bucketOf h1 11 = [5, 8, 11] := by
  obtain ⟨h1, henter, hlookup, happend, _⟩ :=
    enter_then_lookup sampleSet 11 (by decide) intCmp_equalityLike (by decide) (by decide)
  obtain ⟨hcount, hbucket⟩ := happend (by decide)
  exact ⟨h1, henter, hlookup 11 (by decide) rfl, hcount, hbucket⟩

theorem sum_map_set {β : Type} (f : β → Int) (l : List β) (i : Nat) (x v : β)
    (hv : l[i]? = some v) : ((l.set i x).map f).sum = (l.map f).sum - f v + f x := by
  induction l generalizing i with
  | nil => simp at hv
  | cons a rest ih =>
    cases i with
    | zero =>
      simp at hv
      subst hv
      simp only [List.set_cons_zero, List.map_cons, List.sum_cons]
      ring
    | succ j =>
      have hrec := ih j (by simpa using hv)
      simp only [List.set_cons_succ, List.map_cons, List.sum_cons, hrec]
      ring

/-- A pair of elements that do not compare equal, in either order. -/
theorem unequal_of_prefix {α : Type} (cmp : α → α → Int) (heq : EqualityLike cmp) (e x : α)
    (hx : cmp e x ≠ 0) : cmp x e ≠ 0 ∧ cmp e x ≠ 0 :=
  ⟨fun h => hx (heq.1 x e h), hx⟩

theorem unequal_of_replaced {α : Type} (cmp : α → α → Int) (heq : EqualityLike cmp)
    (e y z : α) (hy : cmp e y = 0) (hyz : cmp y z ≠ 0 ∧ cmp z y ≠ 0) :
    cmp e z ≠ 0 ∧ cmp z e ≠ 0 := by
  constructor
  · intro h
    exact hyz.1 (heq.2 y e z (heq.1 e y hy) h)
  · intro h
    exact hyz.1 (heq.2 y e z (heq.1 e y hy) (heq.1 z e h))

/-- The set that `HashSetNew` builds satisfies the invariants. -/
theorem new_invariant {α : Type} (elemSize numBuckets : Int) (hashfn : α → Int → Int)
    (comparefn : α → α → Int) (h0 : hashset α)
    (hnew : HashSetNew elemSize numBuckets hashfn comparefn = some h0) :
    WellFormed h0 ∧ CountIsTotal h0 ∧ InOwnBucket h0 ∧ NoEqualPair h0 ∧
      h0.compareFn = comparefn := by
  unfold HashSetNew VectorNew at hnew
  by_cases h1 : elemSize ≤ 0
  · simp [h1] at hnew
  · by_cases h2 : numBuckets ≤ 0
    · simp [h1, h2] at hnew
    · simp only [h1, h2, if_false, lt_irrefl, Option.some.injEq] at hnew
      subst hnew
      refine ⟨?_, ?_, ?_, ?_, rfl⟩
      · unfold WellFormed
        simp only [List.length_replicate]
        omega
      · unfold CountIsTotal
        simp
      · intro i v hv x hx
        have hmem := List.getElem?_mem hv
        rw [List.eq_of_mem_replicate hmem] at hx
        cases hx
      · intro v hv
        rw [List.eq_of_mem_replicate hv]
        exact List.Pairwise.nil

/-- `HashSetEnter` keeps the invariants, when equality under the comparison function is
symmetric and transitive. -/
theorem enter_invariant {α : Type} (h h1 : hashset α) (e : α)
    (henter : HashSetEnter h e = some h1) (heq : EqualityLike h.compareFn)
    (hwf : WellFormed h) (hcount : CountIsTotal h) (hown : InOwnBucket h)
    (hpair : NoEqualPair h) :
    WellFormed h1 ∧ CountIsTotal h1 ∧ InOwnBucket h1 ∧ NoEqualPair h1 ∧
      h1.compareFn = h.compareFn := by
  have hrange : 0 ≤ h.hashFn e h.numBuckets ∧ h.hashFn e h.numBuckets < h.numBuckets := by
    by_contra hbad
    have hor : h.hashFn e h.numBuckets < 0 ∨ h.numBuckets ≤ h.hashFn e h.numBuckets := by
      omega
    unfold HashSetEnter at henter
    rw [if_pos hor] at henter
    cases henter
  obtain ⟨h2, v, v1, pre, post, henter2, hv, hbuckets, hv1, hpre, hf, hc, hn, hcase⟩ :=
    enter_result h e hwf hrange.1 hrange.2
  have h12 : h2 = h1 := Option.some.inj (henter2.symm.trans henter)
  subst h12
  have hvmem : v ∈ h.buckets := List.getElem?_mem hv
  have hvpair := hpair v hvmem
  have hsub : ∀ x, x ∈ pre ∨ x ∈ post → x ∈ v.elems := by
    intro x hx
    rcases hcase with ⟨hvpre, hpost, _⟩ | ⟨y, hsplit, _, _⟩
    · rcases hx with hx | hx
      · rw [hvpre]; exact hx
      · rw [hpost] at hx; cases hx
    · rw [hsplit]
      rcases hx with hx | hx
      · exact List.mem_append_left _ hx
      · exact List.mem_append_right _ (List.mem_cons_of_mem y hx)
  refine ⟨?_, ?_, ?_, ?_, hc⟩
  · unfold WellFormed at hwf ⊢
    rw [hbuckets, List.length_set, hn]
    exact hwf
  · unfold CountIsTotal at hcount ⊢
    rw [hbuckets, sum_map_set _ _ _ v1 v hv, ← hcount, hv1]
    rcases hcase with ⟨hvpre, hpost, hlog⟩ | ⟨y, hsplit, _, hlog⟩
    · rw [hlog, hvpre, hpost]
      simp only [List.length_append, List.length_cons, List.length_nil]
      push_cast
      ring
    · rw [hlog, hsplit]
      simp only [List.length_append, List.length_cons]
      push_cast
      ring
  · intro i v2 hv2 x hx
    rw [hf, hn]
    rw [hbuckets] at hv2
    by_cases hi : (h.hashFn e h.numBuckets).toNat = i
    · subst hi
      rw [getElem?_set_self_of_some _ _ _ _ hv] at hv2
      cases hv2
      rw [hv1] at hx
      rcases List.mem_append.mp hx with hx | hx
      · exact hown _ v hv x (hsub x (Or.inl hx))
      · rcases List.mem_cons.mp hx with hx | hx
        · rw [hx]
          exact (Int.toNat_of_nonneg hrange.1).symm
        · exact hown _ v hv x (hsub x (Or.inr hx))
    · rw [List.getElem?_set_ne hi] at hv2
      exact hown i v2 hv2 x hx
  · intro v2 hv2
    rw [hc]
    rw [hbuckets] at hv2
    rcases List.mem_or_eq_of_mem_set hv2 with hold | hnew
    · exact hpair v2 hold
    · rw [hnew, hv1]
      rcases hcase with ⟨hvpre, hpost, _⟩ | ⟨y, hsplit, hy, _⟩
      · rw [hpost]
        rw [hvpre] at hvpair
        refine List.pairwise_append.mpr ⟨hvpair, List.pairwise_singleton _ _, ?_⟩
        intro a ha b hb
        rw [List.mem_singleton.mp hb]
        exact unequal_of_prefix h.compareFn heq e a (hpre a ha)
      · rw [hsplit] at hvpair
        obtain ⟨hp1, hp2, hp3⟩ := List.pairwise_append.mp hvpair
        obtain ⟨hy1, hy2⟩ := List.pairwise_cons.mp hp2
        refine List.pairwise_append.mpr ⟨hp1, List.pairwise_cons.mpr ⟨?_, hy2⟩, ?_⟩
        · intro z hz
          exact unequal_of_replaced h.compareFn heq e y z hy (hy1 z hz)
        · intro a ha b hb
          rcases List.mem_cons.mp hb with hb | hb
          · rw [hb]
            exact unequal_of_prefix h.compareFn heq e a (hpre a ha)
          · exact hp3 a ha b (List.mem_cons_of_mem y hb)

theorem enterAll_invariant {α : Type} (elems : List α) :
    ∀ (h0 h : hashset α), enterAll h0 elems = some h → EqualityLike h0.compareFn →
      WellFormed h0 → CountIsTotal h0 → InOwnBucket h0 → NoEqualPair h0 →
      WellFormed h ∧ CountIsTotal h ∧ InOwnBucket h ∧ NoEqualPair h := by
  induction elems with
  | nil =>
    intro h0 h hrun _ hwf hcount hown hpair
    simp only [enterAll, Option.some.injEq] at hrun
    subst hrun
    exact ⟨hwf, hcount, hown, hpair⟩
  | cons e rest ih =>
    intro h0 h hrun heq hwf hcount hown hpair
    unfold enterAll at hrun
    cases henter : HashSetEnter h0 e with
    | none => rw [henter] at hrun; cases hrun
    | some h1 =>
      rw [henter] at hrun
      obtain ⟨hwf1, hcount1, hown1, hpair1, hc1⟩ :=
        enter_invariant h0 h1 e henter heq hwf hcount hown hpair
      exact ih h1 h hrun (hc1 ▸ heq) hwf1 hcount1 hown1 hpair1

/-- C26 as stated fails for a comparison function whose equality is not transitive, even
with a hash function consistent with it. With `nearCmp` and the hash function that sends
everything to bucket 0, which is consistent with every comparison: after
`HashSetEnter` of 1, of 3 and of 2, the element 2 has replaced 1, and the bucket holds 2
and 3, which compare equal. -/
theorem hashset_invariant_counterexample :
    (∀ x y n, nearCmp x y = 0 → zeroHash x n = zeroHash y n) ∧
    ((HashSetNew 4 1 zeroHash nearCmp).bind (fun s => enterAll s [1, 3, 2])).map
        (fun s => s.buckets.map (fun v => v.elems)) = some [[2, 3]] ∧
    nearCmp 2 3 = 0 ∧
    ∃ h, (HashSetNew 4 1 zeroHash nearCmp).bind (fun s => enterAll s [1, 3, 2]) = some h ∧
      ¬ NoEqualPair h := by
  refine ⟨fun _ _ _ _ => rfl, by decide, by decide, _, rfl, ?_⟩
  intro hno
  have hpair := hno ⟨[2, 3], 4, 4, 4⟩ (List.mem_singleton.mpr rfl)
  have h23 := (List.pairwise_cons.mp hpair).1 3 (List.mem_singleton.mpr rfl)
  exact h23.1 (by decide)

/-- C26, amended: every hash set reached from `HashSetNew` by `HashSetEnter` calls, with a
comparison function whose equality (`compareFn(x, y) == 0`) is symmetric and transitive,
satisfies: `logSize` is the sum of the lengths of all buckets, every stored element is in
the bucket `hashFn(element, numBuckets)`, and no bucket has two elements that compare
equal. -/
theorem hashset_invariant {α : Type} (elemSize numBuckets : Int) (hashfn : α → Int → Int)
    (comparefn : α → α → Int) (elems : List α) (h0 h : hashset α)
    (hnew : HashSetNew elemSize numBuckets hashfn comparefn = some h0)
    (hrun : enterAll h0 elems = some h) (heq : EqualityLike comparefn) :
    CountIsTotal h ∧ InOwnBucket h ∧ NoEqualPair h := by
  obtain ⟨hwf, hcount, hown, hpair, hc⟩ :=
    new_invariant elemSize numBuckets hashfn comparefn h0 hnew
  exact (enterAll_invariant elems h0 h hrun (hc ▸ heq) hwf hcount hown hpair).2

/-- Witness of C26 (amended): three buckets, integers hashed modulo 3 and compared by
difference; after `HashSetEnter` of 5, 8, 5 and 7 the set counts 3 elements, 7 in bucket 1
and 5 and 8 in bucket 2. -/
theorem hashset_invariant_witness :
    ∃ h0 h, HashSetNew 4 3 modHash intCmp = some h0 ∧
      enterAll h0 [5, 8, 5, 7] = some h ∧
      HashSetCount h = 3 ∧ h.buckets.map (fun v => v.elems) = [[], [7], [5, 8]] ∧
      CountIsTotal h ∧ InOwnBucket h ∧ NoEqualPair h := by
  refine ⟨_, _, rfl, rfl, by decide, by decide, ?_⟩
  exact hashset_invariant 4 3 modHash intCmp [5, 8, 5, 7] _ _ rfl rfl intCmp_equalityLike

end Assn3
